import Mathlib

/-! # Reception and product ledger of the pickup-point service

A shallow embedding of `internal/database/receptiondb.go`,
`internal/database/productdb.go`, `internal/database/pvzdb.go` and of the
service methods of `internal/services` built on them.  The relational store is
a record of three tables (lists of rows, in table order).  Every database
operation is a pure function of the store, of its arguments and of an
environment `Env` that carries what the operation reads from outside: the clock
(`time.Now()`), the id the store hands back from `RETURNING id`, and the error,
if any, with which the pool or the transaction answers each call.  An operation
returns the Go result pair (pointer, error), the store after the call and the
list of calls it made on the pool and on the transaction.  A service method
returns in addition its HTTP status and the calls it made on the `Database`
interface; `Service.ListPVZ` is stated over that interface, with the reads of
`pvzdb.go` as one implementation.
-/

namespace Pvz

/-! ## Data model (`internal/models/models.go`) -/

/-- Type `uuid.UUID`; `uuid.Nil` is `0`. -/
abbrev UUID := Nat

/-- Type `time.Time`: an instant on an integer time line; the zero time is `0`. -/
abbrev Time := Int

/-- Row of table `pvz` (`models.PVZ`). -/
structure PVZ where
  ID : UUID
  RegistrationDate : Time
  City : String
deriving DecidableEq, Repr

/-- Row of table `receptions` (`models.Reception`). -/
structure Reception where
  ID : UUID
  DateTime : Time
  PVZId : UUID
  Status : String
deriving DecidableEq, Repr

/-- Row of table `products` (`models.Product`); field `Type` is written `Type_`. -/
structure Product where
  ID : UUID
  DateTime : Time
  Type_ : String
  ReceptionId : UUID
deriving DecidableEq, Repr

/-- Go `error` values met in the database layer: `pgx.ErrNoRows`, which `Scan`
returns when a query has no row, and `errors.New(text)`; an error reported by
the pool or by the transaction is one of these values as well. -/
inductive Err where
  | ErrNoRows
  | New (text : String)
deriving DecidableEq, Repr

/-- The three relations of the store, each in table order. -/
structure Store where
  pvz : List PVZ
  receptions : List Reception
  products : List Product
deriving DecidableEq, Repr

/-! ## Calls on the pool and on the transaction -/

/-- The SQL statements of the ledger operations. -/
inductive Query where
  /-- `SELECT .. FROM receptions WHERE pvz_id=$1 AND status='in_progress' ORDER BY date_time DESC LIMIT 1` -/
  | selectLastReception
  /-- `UPDATE receptions SET status='close' WHERE id=$1 RETURNING id, date_time, pvz_id, status` -/
  | updateReception
  /-- `SELECT COUNT(*) FROM receptions WHERE pvz_id=$1 AND status='in_progress'` -/
  | countReceptions
  /-- `INSERT INTO receptions (date_time, pvz_id, status) VALUES ($1, $2, $3) RETURNING id` -/
  | insertReception
  /-- `SELECT id FROM products WHERE reception_id=$1 ORDER BY date_time DESC LIMIT 1` -/
  | selectLastProduct
  /-- `DELETE FROM products WHERE id=$1` -/
  | deleteProduct
  /-- `INSERT INTO products (date_time, type, reception_id) VALUES ($1, $2, $3) RETURNING id` -/
  | insertProduct
  /-- `INSERT INTO pvz (registration_date, city) VALUES ($1, $2) RETURNING id` -/
  | insertPVZ
  /-- `SELECT id, registration_date, city FROM pvz ORDER BY registration_date DESC LIMIT $1 OFFSET $2` -/
  | selectPVZs
  /-- `SELECT id, date_time, pvz_id, status FROM receptions WHERE pvz_id=$1 ..  ORDER BY date_time DESC` -/
  | selectReceptions
  /-- `SELECT id, date_time, type, reception_id FROM products WHERE reception_id=$1 ORDER BY date_time ASC` -/
  | selectProducts
deriving DecidableEq, Repr

/-- One call made by an operation: `pool.Begin`, `QueryRow(..).Scan` on the
transaction or on the pool, `tx.Exec`, `tx.Commit`, `tx.Rollback`, and
`pool.Query` with the scan of its rows. -/
inductive Call where
  | Begin
  | QueryRow (q : Query)
  | Exec (q : Query)
  | Commit
  | Rollback
  | Query (q : Query)
deriving DecidableEq, Repr

/-- What an operation reads from outside the store. -/
structure Env where
  /-- value of `time.Now()` -/
  now : Time
  /-- id the store assigns to the inserted row (`RETURNING id`) -/
  newId : UUID
  /-- error, if any, with which the pool or the transaction answers a call -/
  fail : Call → Option Err

/-- Result of a database operation: the returned pointer (`none` is `nil`), the
returned `error` (`none` is `nil`), the store after the call and the calls made. -/
structure Result (α : Type) where
  value : Option α
  err : Option Err
  store : Store
  calls : List Call

/-! ## Statements -/

/-- `QueryRow(..).Scan(..)`: the injected failure if there is one, `pgx.ErrNoRows`
when the result set is empty, the first row otherwise. -/
def scanRow {α : Type} (fault : Option Err) (first : Option α) : Except Err α :=
  match fault with
  | some e => .error e
  | none =>
    match first with
    | none => .error Err.ErrNoRows
    | some r => .ok r

/-- `ORDER BY date_time DESC LIMIT 1`: the row with the greatest key; among rows
with equal keys the first in table order. -/
def latestBy {α : Type} (key : α → Time) : List α → Option α
  | [] => none
  | x :: xs =>
    match latestBy key xs with
    | none => some x
    | some y => if key x < key y then some y else some x

/-- `WHERE pvz_id=$1 AND status='in_progress'`. -/
def isOpenFor (pvzId : UUID) (r : Reception) : Bool :=
  r.PVZId == pvzId && r.Status == "in_progress"

/-- `SELECT COUNT(*) FROM receptions WHERE pvz_id=$1 AND status='in_progress'`. -/
def openCount (s : Store) (pvzId : UUID) : Nat :=
  (s.receptions.filter (isOpenFor pvzId)).length

/-- `SELECT .. FROM receptions WHERE pvz_id=$1 AND status='in_progress'
ORDER BY date_time DESC LIMIT 1`. -/
def lastOpenReception (s : Store) (pvzId : UUID) : Option Reception :=
  latestBy Reception.DateTime (s.receptions.filter (isOpenFor pvzId))

/-- `UPDATE receptions SET status='close' WHERE id=$1`: the table after the update. -/
def closeById (rows : List Reception) (id : UUID) : List Reception :=
  rows.map (fun r => if r.ID == id then { r with Status := "close" } else r)

/-- Products `WHERE reception_id=$1`, in table order. -/
def productsOf (s : Store) (receptionID : UUID) : List Product :=
  s.products.filter (fun p => p.ReceptionId == receptionID)

/-- `SELECT id FROM products WHERE reception_id=$1 ORDER BY date_time DESC LIMIT 1`. -/
def lastProduct (s : Store) (receptionID : UUID) : Option Product :=
  latestBy Product.DateTime (productsOf s receptionID)

/-- `DELETE FROM products WHERE id=$1`: the table after the delete. -/
def deleteById (rows : List Product) (id : UUID) : List Product :=
  rows.filter (fun p => !(p.ID == id))

/-! ## `internal/database/receptiondb.go` -/

/-- `PGXDatabase.CloseLastReception`. -/
def CloseLastReception (s : Store) (env : Env) (pvzId : UUID) : Result Reception :=
  match env.fail .Begin with
  | some e => ⟨none, some e, s, [.Begin]⟩
  | none =>
    match scanRow (env.fail (.QueryRow .selectLastReception)) (lastOpenReception s pvzId) with
    | .error e =>
      ⟨some ⟨0, 0, 0, ""⟩, some e, s,
        [.Begin, .QueryRow .selectLastReception, .Rollback, .Rollback]⟩
    | .ok r =>
      let work := closeById s.receptions r.ID
      match scanRow (env.fail (.QueryRow .updateReception))
          ((work.filter (fun x => x.ID == r.ID)).head?) with
      | .error e =>
        ⟨some r, some e, s,
          [.Begin, .QueryRow .selectLastReception, .QueryRow .updateReception,
            .Rollback, .Rollback]⟩
      | .ok u =>
        match env.fail .Commit with
        | some e =>
          ⟨some u, some e, s,
            [.Begin, .QueryRow .selectLastReception, .QueryRow .updateReception,
              .Commit, .Rollback]⟩
        | none =>
          ⟨some u, none, { s with receptions := work },
            [.Begin, .QueryRow .selectLastReception, .QueryRow .updateReception, .Commit]⟩

/-- `PGXDatabase.CreateReception`. -/
def CreateReception (s : Store) (env : Env) (pvzId : UUID) : Result Reception :=
  match env.fail .Begin with
  | some e => ⟨none, some e, s, [.Begin]⟩
  | none =>
    match scanRow (env.fail (.QueryRow .countReceptions)) (some (openCount s pvzId)) with
    | .error e =>
      ⟨none, some e, s, [.Begin, .QueryRow .countReceptions, .Rollback, .Rollback]⟩
    | .ok count =>
      if count > 0 then
        ⟨none, some (Err.New "Активная приёмка уже существует"), s,
          [.Begin, .QueryRow .countReceptions, .Rollback, .Rollback]⟩
      else
        match env.fail (.QueryRow .insertReception) with
        | some e =>
          ⟨some ⟨0, env.now, pvzId, "in_progress"⟩, some e, s,
            [.Begin, .QueryRow .countReceptions, .QueryRow .insertReception,
              .Rollback, .Rollback]⟩
        | none =>
          let created : Reception := ⟨env.newId, env.now, pvzId, "in_progress"⟩
          match env.fail .Commit with
          | some e =>
            ⟨some created, some e, s,
              [.Begin, .QueryRow .countReceptions, .QueryRow .insertReception,
                .Commit, .Rollback]⟩
          | none =>
            ⟨some created, none, { s with receptions := s.receptions ++ [created] },
              [.Begin, .QueryRow .countReceptions, .QueryRow .insertReception, .Commit]⟩

/-! ## `internal/database/productdb.go` -/

/-- `PGXDatabase.DeleteLastProduct`; it returns only an `error`, so `value` is
always `none`. -/
def DeleteLastProduct (s : Store) (env : Env) (pvzId : UUID) : Result Unit :=
  match env.fail .Begin with
  | some e => ⟨none, some e, s, [.Begin]⟩
  | none =>
    match scanRow (env.fail (.QueryRow .selectLastReception)) (lastOpenReception s pvzId) with
    | .error e =>
      ⟨none, some e, s, [.Begin, .QueryRow .selectLastReception, .Rollback, .Rollback]⟩
    | .ok r =>
      match scanRow (env.fail (.QueryRow .selectLastProduct)) (lastProduct s r.ID) with
      | .error e =>
        ⟨none, some e, s,
          [.Begin, .QueryRow .selectLastReception, .QueryRow .selectLastProduct,
            .Rollback, .Rollback]⟩
      | .ok p =>
        match env.fail (.Exec .deleteProduct) with
        | some e =>
          ⟨none, some e, s,
            [.Begin, .QueryRow .selectLastReception, .QueryRow .selectLastProduct,
              .Exec .deleteProduct, .Rollback, .Rollback]⟩
        | none =>
          match env.fail .Commit with
          | some e =>
            ⟨none, some e, s,
              [.Begin, .QueryRow .selectLastReception, .QueryRow .selectLastProduct,
                .Exec .deleteProduct, .Commit, .Rollback]⟩
          | none =>
            ⟨none, none, { s with products := deleteById s.products p.ID },
              [.Begin, .QueryRow .selectLastReception, .QueryRow .selectLastProduct,
                .Exec .deleteProduct, .Commit]⟩

/-- `PGXDatabase.AddProduct`. -/
def AddProduct (s : Store) (env : Env) (pvzId : UUID) (productType : String) :
    Result Product :=
  match env.fail .Begin with
  | some e => ⟨none, some e, s, [.Begin]⟩
  | none =>
    match scanRow (env.fail (.QueryRow .selectLastReception)) (lastOpenReception s pvzId) with
    | .error _ =>
      ⟨none, some (Err.New "Нет активной приёмки для данного ПВЗ"), s,
        [.Begin, .QueryRow .selectLastReception, .Rollback, .Rollback]⟩
    | .ok r =>
      match env.fail (.QueryRow .insertProduct) with
      | some e =>
        ⟨some ⟨0, env.now, productType, r.ID⟩, some e, s,
          [.Begin, .QueryRow .selectLastReception, .QueryRow .insertProduct,
            .Rollback, .Rollback]⟩
      | none =>
        let product : Product := ⟨env.newId, env.now, productType, r.ID⟩
        match env.fail .Commit with
        | some e =>
          ⟨some product, some e, s,
            [.Begin, .QueryRow .selectLastReception, .QueryRow .insertProduct,
              .Commit, .Rollback]⟩
        | none =>
          ⟨some product, none, { s with products := s.products ++ [product] },
            [.Begin, .QueryRow .selectLastReception, .QueryRow .insertProduct, .Commit]⟩

/-! ## Sequences of ledger operations -/

/-- One ledger operation with its arguments and its environment. -/
inductive Op where
  | createReception (pvzId : UUID) (env : Env)
  | closeLastReception (pvzId : UUID) (env : Env)
  | addProduct (pvzId : UUID) (productType : String) (env : Env)
  | deleteLastProduct (pvzId : UUID) (env : Env)

/-- The store after one operation has run to completion. -/
def Op.run (s : Store) : Op → Store
  | .createReception p env => (CreateReception s env p).store
  | .closeLastReception p env => (CloseLastReception s env p).store
  | .addProduct p t env => (AddProduct s env p t).store
  | .deleteLastProduct p env => (DeleteLastProduct s env p).store

/-- The stores met while the operations run one after another: the initial
store, every intermediate store and the final one. -/
def states (s : Store) : List Op → List Store
  | [] => [s]
  | op :: ops => s :: states (op.run s) ops

/-- The central invariant: no pickup point has more than one reception with
status `in_progress`. -/
def OneOpen (s : Store) : Prop := ∀ pvzId : UUID, openCount s pvzId ≤ 1

/-- An environment in which no call fails. -/
def Env.ok (now : Time) (newId : UUID) : Env := ⟨now, newId, fun _ => none⟩

/-- The error returned by one operation. -/
def Op.err (s : Store) : Op → Option Err
  | .createReception p env => (CreateReception s env p).err
  | .closeLastReception p env => (CloseLastReception s env p).err
  | .addProduct p t env => (AddProduct s env p t).err
  | .deleteLastProduct p env => (DeleteLastProduct s env p).err

/-- The store after the operations have run one after another. -/
def runAll (s : Store) : List Op → Store
  | [] => s
  | op :: ops => runAll (op.run s) ops

/-- The errors the operations return, in the order of the calls. -/
def errors (s : Store) : List Op → List (Option Err)
  | [] => []
  | op :: ops => op.err s :: errors (op.run s) ops

/-- The id the store assigns to the row an operation inserts is held by no row
of that table (ids are unique identifiers). -/
def Op.fresh (s : Store) : Op → Bool
  | .createReception _ env => !(s.receptions.map Reception.ID).contains env.newId
  | .addProduct _ _ env => !(s.products.map Product.ID).contains env.newId
  | .closeLastReception _ _ => true
  | .deleteLastProduct _ _ => true

/-- Every operation of the sequence is given a fresh id by the store it runs on. -/
def freshRun (s : Store) : List Op → Bool
  | [] => true
  | op :: ops => op.fresh s && freshRun (op.run s) ops

/-- The `AddProduct` calls for pickup point `p`, one per product type and environment. -/
def addOps (p : UUID) (adds : List (String × Env)) : List Op :=
  adds.map (fun a => Op.addProduct p a.1 a.2)

/-- The `DeleteLastProduct` calls for pickup point `p`, one per environment. -/
def deleteOps (p : UUID) (dels : List Env) : List Op :=
  dels.map (fun e => Op.deleteLastProduct p e)

/-- The row `AddProduct` inserts for reception `rid`, given the product type and
the environment of the call. -/
def added (rid : UUID) (a : String × Env) : Product :=
  ⟨a.2.newId, a.2.now, a.1, rid⟩

/-! ## Concurrent `CreateReception` calls

`CreateReception` issues its statements one at a time: `Begin` and the count
query, then the `INSERT`, then `Commit`.  `Begin` is called without transaction
options and the count query is a plain `SELECT`, so between two statements of
one call any statement of another call may run, and a statement sees the rows
committed so far (and not the rows another transaction has inserted without
committing).  No call on the store fails in this model. -/

/-- Where one `CreateReception` call stands. -/
inductive Phase where
  /-- nothing issued yet -/
  | start
  /-- the count query has answered `count` -/
  | counted (count : Nat)
  /-- the row is inserted inside the transaction, not committed -/
  | inserted (created : Reception)
  /-- the call has returned `(value, err)` -/
  | done (value : Option Reception) (err : Option Err)
deriving DecidableEq, Repr

/-- The committed store and the standing of each concurrent call. -/
structure Conc where
  store : Store
  phases : List Phase
deriving DecidableEq, Repr

/-- Call `i` runs its next statement; `env i` is the clock and the id of call `i`. -/
def concStep (pvzId : UUID) (env : Nat → Env) (c : Conc) (i : Nat) : Conc :=
  match c.phases[i]? with
  | none => c
  | some .start => { c with phases := c.phases.set i (.counted (openCount c.store pvzId)) }
  | some (.counted count) =>
    if count > 0 then
      { c with phases :=
          c.phases.set i (.done none (some (Err.New "Активная приёмка уже существует"))) }
    else
      { c with phases :=
          c.phases.set i (.inserted ⟨(env i).newId, (env i).now, pvzId, "in_progress"⟩) }
  | some (.inserted created) =>
    { store := { c.store with receptions := c.store.receptions ++ [created] },
      phases := c.phases.set i (.done (some created) none) }
  | some (.done _ _) => c

/-- The calls run their statements in the order the schedule names them. -/
def concRun (pvzId : UUID) (env : Nat → Env) (c : Conc) (schedule : List Nat) : Conc :=
  schedule.foldl (concStep pvzId env) c

/-- Number of calls that returned without error. -/
def successes (c : Conc) : Nat :=
  (c.phases.filter (fun ph => match ph with
    | .done _ none => true
    | _ => false)).length

/-- Number of calls that returned the conflict error. -/
def conflicts (c : Conc) : Nat :=
  (c.phases.filter (fun ph => match ph with
    | .done _ (some (Err.New "Активная приёмка уже существует")) => true
    | _ => false)).length

/-! ## `internal/database/pvzdb.go` -/

/-- `PGXDatabase.CreatePVZ`: one `QueryRow(..).Scan(&pvz.ID)` on the pool, outside
any transaction.  `value` is the record behind the pointer `pvz` after the call. -/
def CreatePVZ (s : Store) (env : Env) (pvz : PVZ) : Result PVZ :=
  match env.fail (.QueryRow .insertPVZ) with
  | some e => ⟨some pvz, some e, s, [.QueryRow .insertPVZ]⟩
  | none =>
    ⟨some { pvz with ID := env.newId }, none,
      { s with pvz := s.pvz ++ [{ pvz with ID := env.newId }] }, [.QueryRow .insertPVZ]⟩

/-- `ORDER BY registration_date DESC`; rows with equal dates keep table order. -/
def orderPVZs (rows : List PVZ) : List PVZ :=
  rows.insertionSort (fun a b => b.RegistrationDate ≤ a.RegistrationDate)

/-- `ORDER BY date_time DESC` on receptions; rows with equal dates keep table order. -/
def orderReceptions (rows : List Reception) : List Reception :=
  rows.insertionSort (fun a b => b.DateTime ≤ a.DateTime)

/-- `ORDER BY date_time ASC` on products; rows with equal dates keep table order. -/
def orderProducts (rows : List Product) : List Product :=
  rows.insertionSort (fun a b => a.DateTime ≤ b.DateTime)

/-- `PGXDatabase.GetPVZs`: `LIMIT $1 OFFSET $2` over the pickup points, latest
registration first.  `fail` is the error, if any, that `pool.Query` returns.
With a negative `LIMIT` or `OFFSET` the statement fails when the store executes
it, after `pool.Query` has returned; pgx reports such a failure through
`rows.Err()`, which `GetPVZs` does not read, so `rows.Next()` yields no row and
the method returns no pickup point and a nil error. -/
def GetPVZs (s : Store) (fail : Call → Option Err) (limit offset : Int) :
    Except Err (List PVZ) :=
  match fail (.Query .selectPVZs) with
  | some e => .error e
  | none =>
    if limit < 0 then .ok []
    else if offset < 0 then .ok []
    else .ok (((orderPVZs s.pvz).drop offset.toNat).take limit.toNat)

/-- The conditions `date_time >= $k` (when `startDate` is not nil) and
`date_time <= $k` (when `endDate` is not nil). -/
def inWindow (startDate endDate : Option Time) (t : Time) : Bool :=
  (match startDate with
    | none => true
    | some a => decide (a ≤ t)) &&
  (match endDate with
    | none => true
    | some b => decide (t ≤ b))

/-- `PGXDatabase.GetReceptionsByPVZ`. -/
def GetReceptionsByPVZ (s : Store) (fail : Call → Option Err) (pvzId : UUID)
    (startDate endDate : Option Time) : Except Err (List Reception) :=
  match fail (.Query .selectReceptions) with
  | some e => .error e
  | none =>
    .ok (orderReceptions
      (s.receptions.filter (fun r => r.PVZId == pvzId && inWindow startDate endDate r.DateTime)))

/-- `PGXDatabase.GetProductsByReception`. -/
def GetProductsByReception (s : Store) (fail : Call → Option Err) (receptionID : UUID) :
    Except Err (List Product) :=
  match fail (.Query .selectProducts) with
  | some e => .error e
  | none => .ok (orderProducts (productsOf s receptionID))

/-! ## `internal/services` -/

/-- Method `Error()` of an error value; the text of `pgx.ErrNoRows` is
"no rows in result set". -/
def Err.Error : Err → String
  | .ErrNoRows => "no rows in result set"
  | .New text => text

/-- A call of a method of the `Database` interface, with its arguments. -/
inductive DbCall where
  | CreatePVZ (pvz : PVZ)
  | GetPVZs (limit offset : Int)
  | GetReceptionsByPVZ (pvzId : UUID) (startDate endDate : Option Time)
  | GetProductsByReception (receptionID : UUID)
  | CloseLastReception (pvzId : UUID)
  | DeleteLastProduct (pvzId : UUID)
  | CreateReception (pvzId : UUID)
  | AddProduct (pvzId : UUID) (productType : String)
deriving DecidableEq, Repr

/-- Result of a service method: the returned pointer (`none` is `nil`), the HTTP
status, the returned `error`, the store after the call and the calls made on
the `Database` interface, in order. -/
structure Response (α : Type) where
  value : Option α
  status : Nat
  err : Option Err
  store : Store
  invoked : List DbCall

/-- `Service.CloseLastReception` (`receptionservices.go`). -/
def Service.CloseLastReception (s : Store) (env : Env) (role : String) (pvzId : UUID) :
    Response Reception :=
  if role != "employee" then
    ⟨none, 403, some (Err.New "доступ запрещен"), s, []⟩
  else
    match (Pvz.CloseLastReception s env pvzId).err with
    | some e =>
      ⟨(Pvz.CloseLastReception s env pvzId).value, 400,
        some (Err.New ("ошибка закрытия приёмки: " ++ e.Error)),
        (Pvz.CloseLastReception s env pvzId).store, [.CloseLastReception pvzId]⟩
    | none =>
      ⟨(Pvz.CloseLastReception s env pvzId).value, 200, none,
        (Pvz.CloseLastReception s env pvzId).store, [.CloseLastReception pvzId]⟩

/-- `Service.CreateReception` (`receptionservices.go`). -/
def Service.CreateReception (s : Store) (env : Env) (role : String) (pvzId : UUID) :
    Response Reception :=
  if role != "employee" then
    ⟨none, 403, some (Err.New "доступ запрещен"), s, []⟩
  else
    match (Pvz.CreateReception s env pvzId).err with
    | some e =>
      ⟨(Pvz.CreateReception s env pvzId).value, 400,
        some (Err.New ("ошибка создания приёмки: " ++ e.Error)),
        (Pvz.CreateReception s env pvzId).store, [.CreateReception pvzId]⟩
    | none =>
      ⟨(Pvz.CreateReception s env pvzId).value, 200, none,
        (Pvz.CreateReception s env pvzId).store, [.CreateReception pvzId]⟩

/-- `Service.DeleteLastProduct` (`productservices.go`); it returns only a status
and an `error`, so `value` is always `none`. -/
def Service.DeleteLastProduct (s : Store) (env : Env) (role : String) (pvzId : UUID) :
    Response Unit :=
  if role != "employee" then
    ⟨none, 403, some (Err.New "доступ запрещен"), s, []⟩
  else
    match (Pvz.DeleteLastProduct s env pvzId).err with
    | some e =>
      ⟨none, 400, some (Err.New ("ошибка удаления товара: " ++ e.Error)),
        (Pvz.DeleteLastProduct s env pvzId).store, [.DeleteLastProduct pvzId]⟩
    | none =>
      ⟨none, 200, none, (Pvz.DeleteLastProduct s env pvzId).store, [.DeleteLastProduct pvzId]⟩

/-- `Service.AddProduct` (`productservices.go`). -/
def Service.AddProduct (s : Store) (env : Env) (role : String) (pvzId : UUID)
    (producttype : String) : Response Product :=
  if role != "employee" then
    ⟨none, 403, some (Err.New "доступ запрещен"), s, []⟩
  else
    match (Pvz.AddProduct s env pvzId producttype).err with
    | some e =>
      ⟨(Pvz.AddProduct s env pvzId producttype).value, 400,
        some (Err.New ("ошибка добавления товара: " ++ e.Error)),
        (Pvz.AddProduct s env pvzId producttype).store, [.AddProduct pvzId producttype]⟩
    | none =>
      ⟨(Pvz.AddProduct s env pvzId producttype).value, 200, none,
        (Pvz.AddProduct s env pvzId producttype).store, [.AddProduct pvzId producttype]⟩

/-- `Service.CreatePVZ` (`pvzservices.go`).  `value` is the record behind the
pointer `pvz` after the call.  The validation message is formatted with `%v` of
the still nil `err`, which prints as `<nil>`. -/
def Service.CreatePVZ (s : Store) (env : Env) (pvz : PVZ) (role : String) : Response PVZ :=
  if role != "moderator" then
    ⟨some pvz, 403, some (Err.New "доступ запрещен"), s, []⟩
  else if pvz.City != "Москва" && pvz.City != "Санкт-Петербург" && pvz.City != "Казань" then
    ⟨some pvz, 400,
      some (Err.New "ошибка ПВЗ можно создать только в Москве, Санкт-Петербурге или Казани <nil>"),
      s, []⟩
  else
    match (Pvz.CreatePVZ s env { pvz with RegistrationDate := env.now }).err with
    | some e =>
      ⟨(Pvz.CreatePVZ s env { pvz with RegistrationDate := env.now }).value, 400,
        some (Err.New ("ошибка создания ПВЗ: " ++ e.Error)),
        (Pvz.CreatePVZ s env { pvz with RegistrationDate := env.now }).store,
        [.CreatePVZ { pvz with RegistrationDate := env.now }]⟩
    | none =>
      ⟨(Pvz.CreatePVZ s env { pvz with RegistrationDate := env.now }).value, 200, none,
        (Pvz.CreatePVZ s env { pvz with RegistrationDate := env.now }).store,
        [.CreatePVZ { pvz with RegistrationDate := env.now }]⟩

/-! ## `Service.ListPVZ` (`pvzservices.go`) -/

/-- Go `int` on a 64-bit platform: the mathematical result wrapped into
`-2^63 .. 2^63 - 1`. -/
def wrapInt (x : Int) : Int := (x + 2 ^ 63) % 2 ^ 64 - 2 ^ 63

/-- Value of a run of decimal digits read after `acc`; `none` when some
character is not a digit. -/
def digitsValue (acc : Nat) : List Char → Option Nat
  | [] => some acc
  | c :: cs =>
    if '0' ≤ c ∧ c ≤ '9' then digitsValue (acc * 10 + (c.toNat - '0'.toNat)) cs else none

/-- Value of a non-empty run of decimal digits. -/
def parseUnsigned (cs : List Char) : Option Nat :=
  match cs with
  | [] => none
  | _ :: _ => digitsValue 0 cs

/-- `strconv.Atoi`: an optional sign followed by decimal digits; `none` stands
for a returned error (empty string, a character that is not a digit, or a
value outside the range of `int`). -/
def Atoi (s : String) : Option Int :=
  match s.toList with
  | '+' :: cs =>
    match parseUnsigned cs with
    | some n => if n < 2 ^ 63 then some (n : Int) else none
    | none => none
  | '-' :: cs =>
    match parseUnsigned cs with
    | some n => if n ≤ 2 ^ 63 then some (-(n : Int)) else none
    | none => none
  | cs =>
    match parseUnsigned cs with
    | some n => if n < 2 ^ 63 then some (n : Int) else none
    | none => none

/-- The `page` of `ListPVZ`: 1 unless `pageStr` is not empty and `Atoi` returns a
value `p >= 1` without error. -/
def pageOf (pageStr : String) : Int :=
  if pageStr != "" then
    match Atoi pageStr with
    | some p => if p ≥ 1 then p else 1
    | none => 1
  else 1

/-- The `limit` of `ListPVZ`: 10 unless `limitStr` is not empty and `Atoi` returns
a value `l` with `l >= 1 && l <= 30` without error. -/
def limitOf (limitStr : String) : Int :=
  if limitStr != "" then
    match Atoi limitStr with
    | some l => if l ≥ 1 ∧ l ≤ 30 then l else 10
    | none => 10
  else 10

/-- The `startDate` / `endDate` of `ListPVZ`: nil unless the string is not empty
and `time.Parse(time.RFC3339, ..)`, here `parse`, returns no error. -/
def dateOf (parse : String → Option Time) (dateStr : String) : Option Time :=
  if dateStr != "" then parse dateStr else none

/-- The methods of the `Database` interface that `ListPVZ` calls. -/
structure Database where
  GetPVZs : Int → Int → Except Err (List PVZ)
  GetReceptionsByPVZ : UUID → Option Time → Option Time → Except Err (List Reception)
  GetProductsByReception : UUID → Except Err (List Product)

/-- The `PGXDatabase` reads over store `s`. -/
def pgxReads (s : Store) (fail : Call → Option Err) : Database :=
  ⟨GetPVZs s fail, GetReceptionsByPVZ s fail, GetProductsByReception s fail⟩

/-- Type `models.ReceptionInfo`, with the values its pointers refer to. -/
structure ReceptionInfo where
  Reception : Reception
  Products : List Product
deriving DecidableEq, Repr

/-- Type `models.PVZResponse`, with the values its pointers refer to.  The range
variables `pvz` and `rec` of `ListPVZ` are per-iteration variables (Go 1.22 and
later), so every entry refers to a value of its own. -/
structure PVZResponse where
  PVZ : PVZ
  Receptions : List ReceptionInfo
deriving DecidableEq, Repr

/-- What `ListPVZ` returns, and the calls it made on the `Database` interface. -/
structure ListResult where
  results : List PVZResponse
  status : Nat
  err : Option Err
  invoked : List DbCall
deriving DecidableEq, Repr

/-- The inner loop of `ListPVZ` over the receptions still to visit, with the
`recInfos` built and the calls made so far; `none` when `GetProductsByReception`
returns an error. -/
def productsLoop (db : Database) :
    List Reception → List ReceptionInfo → List DbCall → Option (List ReceptionInfo) × List DbCall
  | [], recInfos, calls => (some recInfos, calls)
  | r :: recs, recInfos, calls =>
    match db.GetProductsByReception r.ID with
    | .error _ => (none, calls ++ [.GetProductsByReception r.ID])
    | .ok products =>
      productsLoop db recs (recInfos ++ [⟨r, products⟩])
        (calls ++ [.GetProductsByReception r.ID])

/-- The outer loop of `ListPVZ` over the pickup points still to visit, with the
`results` built and the calls made so far. -/
def pvzLoop (db : Database) (startDate endDate : Option Time) :
    List PVZ → List PVZResponse → List DbCall → ListResult
  | [], results, calls => ⟨results, 200, none, calls⟩
  | pvz :: pvzs, results, calls =>
    match db.GetReceptionsByPVZ pvz.ID startDate endDate with
    | .error _ =>
      ⟨results, 500, some (Err.New "ошибка выборки приёмок"),
        calls ++ [.GetReceptionsByPVZ pvz.ID startDate endDate]⟩
    | .ok recs =>
      match productsLoop db recs [] (calls ++ [.GetReceptionsByPVZ pvz.ID startDate endDate]) with
      | (none, calls2) => ⟨results, 500, some (Err.New "ошибка выборки товаров"), calls2⟩
      | (some recInfos, calls2) =>
        pvzLoop db startDate endDate pvzs (results ++ [⟨pvz, recInfos⟩]) calls2

/-- `Service.ListPVZ`; `parse` is `time.Parse(time.RFC3339, ..)`. -/
def Service.ListPVZ (db : Database) (parse : String → Option Time)
    (startDateStr endDateStr pageStr limitStr : String) : ListResult :=
  match db.GetPVZs (limitOf limitStr) (wrapInt ((pageOf pageStr - 1) * limitOf limitStr)) with
  | .error _ =>
    ⟨[], 400, some (Err.New "ошибка выборки ПВЗ"),
      [.GetPVZs (limitOf limitStr) (wrapInt ((pageOf pageStr - 1) * limitOf limitStr))]⟩
  | .ok pvzs =>
    pvzLoop db (dateOf parse startDateStr) (dateOf parse endDateStr) pvzs []
      [.GetPVZs (limitOf limitStr) (wrapInt ((pageOf pageStr - 1) * limitOf limitStr))]

/-- The receptions of one pickup point, each with its products; `none` when
`GetProductsByReception` fails for one of them. -/
def infosOf (db : Database) : List Reception → Option (List ReceptionInfo)
  | [] => some []
  | r :: recs =>
    match db.GetProductsByReception r.ID with
    | .error _ => none
    | .ok products => (infosOf db recs).map (fun infos => ⟨r, products⟩ :: infos)

/-- The complete entry of the report for one pickup point: its receptions, each
with its products; `none` when one of the reads for it fails. -/
def entryOf (db : Database) (startDate endDate : Option Time) (pvz : PVZ) :
    Option PVZResponse :=
  match db.GetReceptionsByPVZ pvz.ID startDate endDate with
  | .error _ => none
  | .ok recs => (infosOf db recs).map (fun infos => ⟨pvz, infos⟩)

/-! ## The end-to-end scenario (`integration/integration_test.go`) -/

/-- `Service.AddProduct` called once per environment, one call after the other:
the responses, and the store after the last call. -/
def addProducts (role : String) (pvzId : UUID) (producttype : String) :
    Store → List Env → List (Response Product) × Store
  | s, [] => ([], s)
  | s, env :: envs =>
    (Service.AddProduct s env role pvzId producttype ::
        (addProducts role pvzId producttype
          (Service.AddProduct s env role pvzId producttype).store envs).1,
      (addProducts role pvzId producttype
          (Service.AddProduct s env role pvzId producttype).store envs).2)

/-- The responses met along the scenario. -/
structure Flow where
  created : Response PVZ
  opened : Response Reception
  added : List (Response Product)
  closed : Response Reception
  report : ListResult

/-- The scenario of `TestHandlersFullFlow` on the empty store: a moderator
creates a pickup point in "Москва"; an employee opens a reception for the id
received, adds one product of type "электроника" per environment of `adds`
and closes the reception; the report is then read with default paging and no
date window. -/
def fullFlow (envPVZ envOpen : Env) (adds : List Env) (envClose : Env)
    (parse : String → Option Time) : Flow :=
  let created := Service.CreatePVZ ⟨[], [], []⟩ envPVZ ⟨0, 0, "Москва"⟩ "moderator"
  let pvzId : UUID :=
    match created.value with
    | some pvz => pvz.ID
    | none => 0
  let opened := Service.CreateReception created.store envOpen "employee" pvzId
  let added := addProducts "employee" pvzId "электроника" opened.store adds
  let closed := Service.CloseLastReception added.2 envClose "employee" pvzId
  ⟨created, opened, added.1, closed,
    Service.ListPVZ (pgxReads closed.store (fun _ => none)) parse "" "" "" ""⟩

/-! ## Life cycle of receptions -/

/-- The table of receptions `later` continues the table `earlier`: every row of
`earlier` is still there, at the same place, either unchanged or with its
status set to "close" and nothing else changed; the rows that follow are new
and have status "in_progress" or "close". -/
def lifecycle : List Reception → List Reception → Prop
  | [], later => ∀ r ∈ later, r.Status = "in_progress" ∨ r.Status = "close"
  | _ :: _, [] => False
  | r :: earlier, r2 :: later =>
    (r2 = r ∨ r2 = { r with Status := "close" }) ∧ lifecycle earlier later

/-! ## Transaction discipline -/

/-- The environment of an operation. -/
def Op.env : Op → Env
  | .createReception _ env => env
  | .closeLastReception _ env => env
  | .addProduct _ _ env => env
  | .deleteLastProduct _ env => env

/-- The calls an operation makes on the pool and on the transaction, in order. -/
def Op.calls (s : Store) : Op → List Call
  | .createReception p env => (CreateReception s env p).calls
  | .closeLastReception p env => (CloseLastReception s env p).calls
  | .addProduct p t env => (AddProduct s env p t).calls
  | .deleteLastProduct p env => (DeleteLastProduct s env p).calls

/-- The statements an operation has to issue between `Begin` and `Commit`, in
order, each with whether it succeeds on store `s`: the store answers it without
error and, for a lookup, the row looked up exists; for the count of
`CreateReception`, the count is 0. -/
def Op.statements (s : Store) : Op → List (Call × Bool)
  | .createReception p env =>
    [(.QueryRow .countReceptions,
        (env.fail (.QueryRow .countReceptions)).isNone && openCount s p == 0),
      (.QueryRow .insertReception, (env.fail (.QueryRow .insertReception)).isNone)]
  | .closeLastReception p env =>
    [(.QueryRow .selectLastReception,
        (env.fail (.QueryRow .selectLastReception)).isNone && (lastOpenReception s p).isSome),
      (.QueryRow .updateReception, (env.fail (.QueryRow .updateReception)).isNone)]
  | .addProduct p _ env =>
    [(.QueryRow .selectLastReception,
        (env.fail (.QueryRow .selectLastReception)).isNone && (lastOpenReception s p).isSome),
      (.QueryRow .insertProduct, (env.fail (.QueryRow .insertProduct)).isNone)]
  | .deleteLastProduct p env =>
    [(.QueryRow .selectLastReception,
        (env.fail (.QueryRow .selectLastReception)).isNone && (lastOpenReception s p).isSome),
      (.QueryRow .selectLastProduct,
        (env.fail (.QueryRow .selectLastProduct)).isNone &&
          (match lastOpenReception s p with
            | some r => (lastProduct s r.ID).isSome
            | none => false)),
      (.Exec .deleteProduct, (env.fail (.Exec .deleteProduct)).isNone)]

/-- The statements issued when they are tried in order and nothing follows a
failure: all of them up to and including the first that fails. -/
def issued : List (Call × Bool) → List Call
  | [] => []
  | (c, ok) :: rest => if ok then c :: issued rest else [c]

/-! ## The query of `GetReceptionsByPVZ` (`pvzdb.go`) -/

/-- An argument passed to `pool.Query` after the query text. -/
inductive Arg where
  | uuid (id : UUID)
  | time (t : Time)
deriving DecidableEq, Repr

/-- The query text and the arguments that `GetReceptionsByPVZ` passes to
`pool.Query`.  `fmt.Sprintf("date_time >= $%d", n)` is the text followed by the
decimal digits of `n`; `strings.Join` is `String.intercalate`. -/
def GetReceptionsByPVZ_query (pvzId : UUID) (startDate endDate : Option Time) :
    String × List Arg :=
  let query := "SELECT id, date_time, pvz_id, status FROM receptions WHERE pvz_id=$1"
  let args : List Arg := [.uuid pvzId]
  let conditions : List String := []
  let (conditions, args) :=
    match startDate with
    | some t =>
      (conditions ++ ["date_time >= $" ++ toString (args.length + 1)], args ++ [Arg.time t])
    | none => (conditions, args)
  let (conditions, args) :=
    match endDate with
    | some t =>
      (conditions ++ ["date_time <= $" ++ toString (args.length + 1)], args ++ [Arg.time t])
    | none => (conditions, args)
  let query :=
    if conditions.length > 0 then query ++ " AND " ++ " AND ".intercalate conditions
    else query
  (query ++ " ORDER BY date_time DESC", args)

/-- The value of a run of decimal digits, most significant first. -/
def placeholderNumber (digits : List Char) : Nat :=
  digits.foldl (fun n c => 10 * n + (c.toNat - '0'.toNat)) 0

/-- The placeholders `$k` of a query text, in order of occurrence: after each
`$`, the number written by the digits that follow it. -/
def placeholders : List Char → List Nat
  | [] => []
  | c :: cs =>
    if c = '$' then placeholderNumber (cs.takeWhile Char.isDigit) :: placeholders cs
    else placeholders cs

/-! ## `Service.Login` (`authservices.go`) and `GetUserByEmail` (`authdb.go`) -/

/-- Row of table `users` (`models.User`). -/
structure User where
  ID : UUID
  Email : String
  Password : String
  Role : String
deriving DecidableEq, Repr

/-- Method `GetUserByEmail`: the row of
`SELECT id, email, password, role FROM users WHERE email=$1`, scanned into a
user.  `fail` is the error, if any, with which the pool answers the query;
`Scan` returns `pgx.ErrNoRows` when no row has that e-mail. -/
def GetUserByEmail (users : List User) (fail : Option Err) (email : String) :
    Except Err User :=
  match fail with
  | some e => .error e
  | none =>
    match users.find? (fun u => u.Email == email) with
    | some user => .ok user
    | none => .error .ErrNoRows

/-- What `Service.Login` reads from outside the store: the error, if any, of
the pool; `bcrypt.CompareHashAndPassword` (hash first, password second; `none`
is Go `nil`); and method `generateToken`, which reads the clock and signs with
the secret of the service. -/
structure LoginEnv where
  fail : Option Err
  CompareHashAndPassword : String → String → Option Err
  generateToken : UUID → String → Except Err String

/-- Result `(token, status, err)` of `Service.Login`. -/
structure LoginResult where
  token : String
  status : Nat
  err : Option Err
deriving DecidableEq, Repr

/-- Method `Service.Login`. -/
def Service.Login (users : List User) (env : LoginEnv) (email password : String) :
    LoginResult :=
  match GetUserByEmail users env.fail email with
  | .error _ => ⟨"", 401, some (Err.New "неверные учетные данные")⟩
  | .ok user =>
    match env.CompareHashAndPassword user.Password password with
    | some _ => ⟨"", 401, some (Err.New "неверные учетные данные")⟩
    | none =>
      match env.generateToken user.ID user.Role with
      | .error _ => ⟨"", 500, some (Err.New "ошибка генерации токена")⟩
      | .ok token => ⟨token, 200, none⟩

/-! ## `AuthMiddleware` (`middleware/jwtMiddleware.go`) -/

/-- A value held by `jwt.MapClaims` under a key: a Go string, or a value of
another type (number, bool, nil, array, object). -/
inductive Claim where
  | str (s : String)
  | other
deriving DecidableEq, Repr

/-- A token as `jwt.Parse` decodes it: whether `token.Method` is a
`*jwt.SigningMethodHMAC`, the header `alg`, and `token.Claims`, a
`jwt.MapClaims`, as the list of its entries (a key is looked up from the
front). -/
structure Token where
  hmac : Bool
  alg : String
  Claims : List (String × Claim)
deriving DecidableEq, Repr

/-- Package `jwt` as the middleware uses it: `decode` reads a token string
(`none` when it is malformed), and `verify tokenString key` is the check that
`jwt.Parse` makes with the key the key function returned: the signature under
that key and the registered claims (`exp`, `iat`, `nbf`). -/
structure Jwt where
  decode : String → Option Token
  verify : String → List Nat → Bool

/-- Function `jwt.Parse`: the token is decoded, the key function is called on
it, and the token is checked with the key returned.  The result is the token
with `token.Valid` set, or an error. -/
def Jwt.Parse (lib : Jwt) (tokenString : String)
    (keyFunc : Token → Except Err (List Nat)) : Except Err Token :=
  match lib.decode tokenString with
  | none => .error (Err.New "token is malformed")
  | some token =>
    match keyFunc token with
    | .error e => .error e
    | .ok key =>
      if lib.verify tokenString key then .ok token
      else .error (Err.New "token is invalid")

/-- The key function that `AuthMiddleware` passes to `jwt.Parse`. -/
def keyFunc (jwtSecret : List Nat) (token : Token) : Except Err (List Nat) :=
  if !token.hmac then .error (Err.New ("неожиданный метод подписи: " ++ token.alg))
  else .ok jwtSecret

/-- The parts of a list of characters between the occurrences of `sep`. -/
def splitChars (sep : Char) : List Char → List (List Char)
  | [] => [[]]
  | c :: cs =>
    if c = sep then [] :: splitChars sep cs
    else
      match splitChars sep cs with
      | [] => [[c]]
      | part :: parts => (c :: part) :: parts

/-- Function `strings.Split` for a separator of one character. -/
def Split (s : String) (sep : Char) : List String :=
  (splitChars sep s.data).map String.mk

/-- What the handler returned by `AuthMiddleware` does with a request:
`http.Error(w, message, code)` and return, or `next.ServeHTTP` on the request
whose context holds `userID` and `role`. -/
inductive Outcome where
  | Error (message : String) (code : Nat)
  | next (userID role : String)
deriving DecidableEq, Repr

/-- The handler returned by `AuthMiddleware`, on a request whose
`r.Header.Get("Authorization")` is `authHeader`.  The assertion
`token.Claims.(jwt.MapClaims)` holds of every token of `jwt.Parse`. -/
def AuthMiddleware (lib : Jwt) (jwtSecret : List Nat) (authHeader : String) : Outcome :=
  if authHeader == "" then .Error "Отсутствует заголовок Authorization" 401
  else
    let parts := Split authHeader ' '
    if parts.length != 2 || parts.getD 0 "" != "Bearer" then
      .Error "Неверный формат заголовка" 401
    else
      let tokenString := parts.getD 1 ""
      match lib.Parse tokenString (keyFunc jwtSecret) with
      | .error _ => .Error "Неверный токен" 401
      | .ok token =>
        match token.Claims.lookup "id" with
        | some (.str idStr) =>
          match token.Claims.lookup "role" with
          | some (.str role) => .next idStr role
          | _ => .Error "Неверная роль" 401
        | _ => .Error "Неверный id" 401

/-- A `jwt` for examples: the token string "good" decodes to an HMAC token with
claims id "u1" and role "employee", "none" to a token of another method with
the same claims, "noid" to an HMAC token whose id is not a string, "norole" to
an HMAC token without role, nothing else decodes; a token verifies under the
key `[1, 2]` only. -/
def sampleJwt : Jwt :=
  ⟨fun t =>
      if t == "good" then some ⟨true, "HS512", [("id", .str "u1"), ("role", .str "employee")]⟩
      else if t == "none" then
        some ⟨false, "none", [("id", .str "u1"), ("role", .str "employee")]⟩
      else if t == "noid" then some ⟨true, "HS512", [("id", .other), ("role", .str "employee")]⟩
      else if t == "norole" then some ⟨true, "HS512", [("id", .str "u1")]⟩
      else none,
    fun _ key => key == [1, 2]⟩

/-! ## Lemmas on the statements -/

theorem latestBy_eq_none {α : Type} (key : α → Time) (l : List α) :
    latestBy key l = none ↔ l = [] := by
  cases l with
  | nil => simp [latestBy]
  | cons x xs =>
    simp only [latestBy]
    cases latestBy key xs with
    | none => simp
    | some y => by_cases h : key x < key y <;> simp [h]

theorem latestBy_mem {α : Type} (key : α → Time) (l : List α) (x : α)
    (h : latestBy key l = some x) : x ∈ l := by
  induction l generalizing x with
  | nil => simp [latestBy] at h
  | cons a as ih =>
    simp only [latestBy] at h
    cases hr : latestBy key as with
    | none =>
      rw [hr] at h
      simp only [Option.some.injEq] at h
      simp [h]
    | some y =>
      rw [hr] at h
      by_cases hlt : key a < key y
      · simp only [hlt, if_true, Option.some.injEq] at h
        subst h
        exact List.mem_cons_of_mem _ (ih y hr)
      · simp only [hlt, if_false, Option.some.injEq] at h
        simp [h]

theorem latestBy_ge {α : Type} (key : α → Time) (l : List α) (x : α)
    (h : latestBy key l = some x) : ∀ y ∈ l, key y ≤ key x := by
  induction l generalizing x with
  | nil => simp [latestBy] at h
  | cons a as ih =>
    simp only [latestBy] at h
    cases hr : latestBy key as with
    | none =>
      rw [hr] at h
      simp only [Option.some.injEq] at h
      have hnil : as = [] := (latestBy_eq_none key as).1 hr
      subst hnil
      subst h
      simp
    | some z =>
      rw [hr] at h
      have hz := ih z hr
      by_cases hlt : key a < key z
      · simp only [hlt, if_true, Option.some.injEq] at h
        subst h
        intro y hy
        rcases List.mem_cons.1 hy with rfl | hy
        · exact le_of_lt hlt
        · exact hz y hy
      · simp only [hlt, if_false, Option.some.injEq] at h
        subst h
        intro y hy
        rcases List.mem_cons.1 hy with rfl | hy
        · exact le_refl _
        · exact le_trans (hz y hy) (not_lt.1 hlt)

theorem latestBy_isSome {α : Type} (key : α → Time) (l : List α) (h : l ≠ []) :
    ∃ x, latestBy key l = some x := by
  cases hr : latestBy key l with
  | none => exact absurd ((latestBy_eq_none key l).1 hr) h
  | some x => exact ⟨x, rfl⟩

theorem lastOpenReception_mem (s : Store) (p : UUID) (r : Reception)
    (h : lastOpenReception s p = some r) : r ∈ s.receptions ∧ isOpenFor p r = true := by
  have := latestBy_mem _ _ _ h
  exact List.mem_filter.1 this

/-! ## The store after each operation -/

theorem CreateReception_store (s : Store) (env : Env) (p : UUID) :
    (CreateReception s env p).store = s ∨
      (openCount s p = 0 ∧ (CreateReception s env p).err = none ∧
        (CreateReception s env p).store =
          { s with receptions := s.receptions ++ [⟨env.newId, env.now, p, "in_progress"⟩] }) := by
  unfold CreateReception scanRow
  cases env.fail .Begin <;> simp only []
  · cases env.fail (.QueryRow .countReceptions) <;> simp only []
    · by_cases hc : openCount s p > 0
      · simp [hc]
      · simp only [hc, if_false]
        cases env.fail (.QueryRow .insertReception) <;> simp only []
        · cases env.fail .Commit <;> simp only []
          · right
            refine ⟨by omega, ?_, ?_⟩ <;> trivial
          · simp
        · simp
    · simp
  · simp

theorem CloseLastReception_store (s : Store) (env : Env) (p : UUID) :
    (CloseLastReception s env p).store = s ∨
      ∃ r, lastOpenReception s p = some r ∧ (CloseLastReception s env p).err = none ∧
        (CloseLastReception s env p).store =
          { s with receptions := closeById s.receptions r.ID } := by
  unfold CloseLastReception scanRow
  cases env.fail .Begin <;> simp only []
  · cases env.fail (.QueryRow .selectLastReception) <;> simp only []
    · cases hl : lastOpenReception s p <;> simp only []
      · simp
      · cases env.fail (.QueryRow .updateReception) <;> simp only []
        · cases (List.filter _ _).head? <;> simp only []
          · simp
          · cases env.fail .Commit <;> simp
        · simp
    · simp
  · simp

theorem AddProduct_store (s : Store) (env : Env) (p : UUID) (t : String) :
    (AddProduct s env p t).store = s ∨
      ∃ r, lastOpenReception s p = some r ∧ (AddProduct s env p t).err = none ∧
        (AddProduct s env p t).store =
          { s with products := s.products ++ [⟨env.newId, env.now, t, r.ID⟩] } := by
  unfold AddProduct scanRow
  cases env.fail .Begin <;> simp only []
  · cases env.fail (.QueryRow .selectLastReception) <;> simp only []
    · cases hl : lastOpenReception s p <;> simp only []
      · simp
      · cases env.fail (.QueryRow .insertProduct) <;> simp only []
        · cases env.fail .Commit <;> simp
        · simp
    · simp
  · simp

theorem DeleteLastProduct_store (s : Store) (env : Env) (p : UUID) :
    (DeleteLastProduct s env p).store = s ∨
      ∃ r q, lastOpenReception s p = some r ∧ lastProduct s r.ID = some q ∧
        (DeleteLastProduct s env p).err = none ∧
        (DeleteLastProduct s env p).store =
          { s with products := deleteById s.products q.ID } := by
  unfold DeleteLastProduct scanRow
  cases env.fail .Begin <;> simp only []
  · cases env.fail (.QueryRow .selectLastReception) <;> simp only []
    · cases hl : lastOpenReception s p <;> simp only []
      · simp
      · cases env.fail (.QueryRow .selectLastProduct) <;> simp only []
        · cases hq : lastProduct s _ <;> simp only []
          · simp
          · cases env.fail (.Exec .deleteProduct) <;> simp only []
            · cases env.fail .Commit <;> simp only []
              · right
                exact ⟨_, _, rfl, hq, trivial, rfl⟩
              · simp
            · simp
        · simp
    · simp
  · simp

/-! ## At most one open reception per pickup point -/

theorem isOpenFor_close (q : UUID) (r : Reception) :
    isOpenFor q { r with Status := "close" } = false := by
  simp [isOpenFor]

theorem openCount_closeById_le (rows : List Reception) (id q : UUID) :
    ((closeById rows id).filter (isOpenFor q)).length ≤ (rows.filter (isOpenFor q)).length := by
  induction rows with
  | nil => simp [closeById]
  | cons a as ih =>
    have ih2 : (List.filter (isOpenFor q) (closeById as id)).length ≤
        (List.filter (isOpenFor q) as).length := ih
    by_cases hid : a.ID = id
    · have h1 : closeById (a :: as) id = { a with Status := "close" } :: closeById as id := by
        simp [closeById, hid]
      rw [h1, List.filter_cons, isOpenFor_close]
      by_cases ha : isOpenFor q a = true
      · simp only [List.filter_cons, ha, if_true, List.length_cons]
        simp only [Bool.false_eq_true, if_false]
        omega
      · simp only [List.filter_cons, ha, if_false]
        simpa using ih2
    · have h1 : closeById (a :: as) id = a :: closeById as id := by
        simp [closeById, hid]
      rw [h1]
      by_cases ha : isOpenFor q a = true
      · simp only [List.filter_cons, ha, if_true, List.length_cons]
        omega
      · simp only [List.filter_cons, ha, if_false]
        exact ih2

theorem isOpenFor_pvz (p q : UUID) (r : Reception) (h : isOpenFor q r = true) (hr : r.PVZId = p) :
    q = p := by
  simp only [isOpenFor, Bool.and_eq_true, beq_iff_eq] at h
  rw [← hr]
  exact h.1.symm

theorem oneOpen_CreateReception (s : Store) (env : Env) (p : UUID) (h : OneOpen s) :
    OneOpen (CreateReception s env p).store := by
  rcases CreateReception_store s env p with he | ⟨h0, _, he⟩
  · rw [he]; exact h
  · rw [he]
    intro q
    have hq := h q
    simp only [openCount, List.filter_append, List.length_append] at hq h0 ⊢
    by_cases hqp : q = p
    · subst hqp
      rw [h0]
      simp only [List.filter_cons, List.filter_nil]
      split <;> simp
    · have : isOpenFor q ⟨env.newId, env.now, p, "in_progress"⟩ = false := by
        cases hb : isOpenFor q ⟨env.newId, env.now, p, "in_progress"⟩ with
        | false => rfl
        | true => exact absurd (isOpenFor_pvz p q _ hb rfl) hqp
      simp only [List.filter_cons, this, List.filter_nil]
      simpa using hq

theorem oneOpen_CloseLastReception (s : Store) (env : Env) (p : UUID) (h : OneOpen s) :
    OneOpen (CloseLastReception s env p).store := by
  rcases CloseLastReception_store s env p with he | ⟨r, _, _, he⟩
  · rw [he]; exact h
  · rw [he]
    intro q
    exact le_trans (openCount_closeById_le s.receptions r.ID q) (h q)

theorem oneOpen_AddProduct (s : Store) (env : Env) (p : UUID) (t : String) (h : OneOpen s) :
    OneOpen (AddProduct s env p t).store := by
  rcases AddProduct_store s env p t with he | ⟨r, _, _, he⟩
  · rw [he]; exact h
  · rw [he]; exact h

theorem oneOpen_DeleteLastProduct (s : Store) (env : Env) (p : UUID) (h : OneOpen s) :
    OneOpen (DeleteLastProduct s env p).store := by
  rcases DeleteLastProduct_store s env p with he | ⟨r, q, _, _, _, he⟩
  · rw [he]; exact h
  · rw [he]; exact h

theorem oneOpen_run (s : Store) (op : Op) (h : OneOpen s) : OneOpen (op.run s) := by
  cases op with
  | createReception p env => exact oneOpen_CreateReception s env p h
  | closeLastReception p env => exact oneOpen_CloseLastReception s env p h
  | addProduct p t env => exact oneOpen_AddProduct s env p t h
  | deleteLastProduct p env => exact oneOpen_DeleteLastProduct s env p h

/-- C1: for every finite sequence of ledger operations (CreateReception,
CloseLastReception, AddProduct, DeleteLastProduct, for any pickup points and
whatever the clock, the assigned ids and the failures of the store), run one
after another from a store in which every pickup point has at most one
reception with status in_progress, every intermediate store and the final
store have at most one in_progress reception per pickup point. -/
theorem oneOpen_states (s : Store) (ops : List Op) (h : OneOpen s) :
    ∀ s2 ∈ states s ops, OneOpen s2 := by
  induction ops generalizing s with
  | nil =>
    intro s2 hs2
    simp only [states, List.mem_singleton] at hs2
    rw [hs2]; exact h
  | cons op ops ih =>
    intro s2 hs2
    simp only [states, List.mem_cons] at hs2
    rcases hs2 with rfl | hs2
    · exact h
    · exact ih (op.run s) (oneOpen_run s op h) s2 hs2

theorem oneOpen_empty : OneOpen ⟨[], [], []⟩ := by
  intro q
  simp [openCount]

/-- Witness of C1: from the empty store, opening a reception for pickup point 7,
trying to open a second one, closing, and opening again keeps the invariant in
every store met. -/
theorem oneOpen_states_witness :
    OneOpen ⟨[], [], []⟩ ∧
      ∀ s2 ∈ states ⟨[], [], []⟩
          [Op.createReception 7 (Env.ok 10 1), Op.createReception 7 (Env.ok 11 2),
            Op.addProduct 7 "обувь" (Env.ok 12 1), Op.closeLastReception 7 (Env.ok 13 0),
            Op.createReception 7 (Env.ok 14 3)],
        OneOpen s2 :=
  ⟨oneOpen_empty, oneOpen_states _ _ oneOpen_empty⟩

/-! ## Failing paths of the ledger operations -/

theorem isOpenFor_iff (p : UUID) (r : Reception) :
    isOpenFor p r = true ↔ r.PVZId = p ∧ r.Status = "in_progress" := by
  simp [isOpenFor]

theorem filter_open_eq_nil (s : Store) (p : UUID)
    (h : ∀ r ∈ s.receptions, r.PVZId = p → r.Status ≠ "in_progress") :
    s.receptions.filter (isOpenFor p) = [] := by
  rw [List.filter_eq_nil_iff]
  intro r hr ho
  rcases (isOpenFor_iff p r).1 ho with ⟨h1, h2⟩
  exact h r hr h1 h2

theorem lastOpenReception_eq_none (s : Store) (p : UUID)
    (h : ∀ r ∈ s.receptions, r.PVZId = p → r.Status ≠ "in_progress") :
    lastOpenReception s p = none := by
  unfold lastOpenReception
  rw [filter_open_eq_nil s p h]
  rfl

theorem openCount_pos (s : Store) (p : UUID) (r : Reception) (hr : r ∈ s.receptions)
    (hp : r.PVZId = p) (hs : r.Status = "in_progress") : 0 < openCount s p := by
  unfold openCount
  apply List.length_pos_of_mem (a := r)
  exact List.mem_filter.2 ⟨hr, (isOpenFor_iff p r).2 ⟨hp, hs⟩⟩

theorem CreateReception_of_open (s : Store) (env : Env) (p : UUID) (h : 0 < openCount s p) :
    (CreateReception s env p).value = none ∧
      (CreateReception s env p).store = s ∧
      (CreateReception s env p).err ≠ none ∧
      (env.fail .Begin = none → env.fail (.QueryRow .countReceptions) = none →
        (CreateReception s env p).err = some (Err.New "Активная приёмка уже существует")) := by
  unfold CreateReception scanRow
  cases env.fail .Begin <;> simp only []
  · cases env.fail (.QueryRow .countReceptions) <;> simp only []
    · simp [h]
    · simp
  · simp

theorem openCount_after_CreateReception (s : Store) (env : Env) (p : UUID)
    (h : (CreateReception s env p).err = none) :
    0 < openCount (CreateReception s env p).store p := by
  rcases Nat.eq_zero_or_pos (openCount s p) with h0 | hpos
  · revert h
    unfold CreateReception scanRow
    cases env.fail .Begin <;> simp only []
    · cases env.fail (.QueryRow .countReceptions) <;> simp only []
      · simp only [h0, gt_iff_lt, lt_self_iff_false, if_false]
        cases env.fail (.QueryRow .insertReception) <;> simp only []
        · cases env.fail .Commit <;> simp only []
          · intro _
            simp [openCount, isOpenFor]
          · simp
        · simp
      · simp
    · simp
  · rw [(CreateReception_of_open s env p hpos).2.1]
    exact hpos

/-- C2: in every store in which pickup point p already has a reception with
status in_progress (in particular the store left by a successful
CreateReception for p), CreateReception for p returns no reception and an
error and leaves the store, hence the set of receptions and their count,
unchanged; when the store answers Begin and the count query the error is
the conflict error with text "Активная приёмка уже существует". -/
theorem CreateReception_conflict (s : Store) (env : Env) (p : UUID)
    (h : (∃ r ∈ s.receptions, r.PVZId = p ∧ r.Status = "in_progress") ∨
      (∃ s0 env0, (CreateReception s0 env0 p).err = none ∧
        s = (CreateReception s0 env0 p).store)) :
    (CreateReception s env p).value = none ∧
      (CreateReception s env p).store = s ∧
      (CreateReception s env p).store.receptions.length = s.receptions.length ∧
      (CreateReception s env p).err ≠ none ∧
      (env.fail .Begin = none → env.fail (.QueryRow .countReceptions) = none →
        (CreateReception s env p).err = some (Err.New "Активная приёмка уже существует")) := by
  have hpos : 0 < openCount s p := by
    rcases h with ⟨r, hr, hp, hs⟩ | ⟨s0, env0, herr, hs⟩
    · exact openCount_pos s p r hr hp hs
    · rw [hs]; exact openCount_after_CreateReception s0 env0 p herr
  obtain ⟨h1, h2, h3, h4⟩ := CreateReception_of_open s env p hpos
  exact ⟨h1, h2, by rw [h2], h3, h4⟩

/-- Witness of C2: a second CreateReception for pickup point 7 right after a
successful one on the empty store. -/
theorem CreateReception_conflict_witness :
    (CreateReception (CreateReception ⟨[], [], []⟩ (Env.ok 10 1) 7).store (Env.ok 11 2) 7).value
        = none ∧
      (CreateReception (CreateReception ⟨[], [], []⟩ (Env.ok 10 1) 7).store (Env.ok 11 2) 7).store
        = ⟨[], [⟨1, 10, 7, "in_progress"⟩], []⟩ ∧
      (CreateReception (CreateReception ⟨[], [], []⟩ (Env.ok 10 1) 7).store (Env.ok 11 2) 7).err
        = some (Err.New "Активная приёмка уже существует") := by
  have h := CreateReception_conflict (CreateReception ⟨[], [], []⟩ (Env.ok 10 1) 7).store
    (Env.ok 11 2) 7 (Or.inr ⟨⟨[], [], []⟩, Env.ok 10 1, by decide, rfl⟩)
  exact ⟨h.1, h.2.1, h.2.2.2.2 rfl rfl⟩

/-- C4: in every store in which pickup point p has no reception with status
in_progress, CloseLastReception for p returns an error and writes nothing: the
store is unchanged, neither the UPDATE nor Commit is issued; when the store
answers Begin and the SELECT, the error is the not-found error (no rows). -/
theorem CloseLastReception_notFound (s : Store) (env : Env) (p : UUID)
    (h : ∀ r ∈ s.receptions, r.PVZId = p → r.Status ≠ "in_progress") :
    (CloseLastReception s env p).store = s ∧
      Call.QueryRow Query.updateReception ∉ (CloseLastReception s env p).calls ∧
      Call.Commit ∉ (CloseLastReception s env p).calls ∧
      (CloseLastReception s env p).err ≠ none ∧
      (env.fail .Begin = none → env.fail (.QueryRow .selectLastReception) = none →
        (CloseLastReception s env p).err = some Err.ErrNoRows) := by
  unfold CloseLastReception scanRow
  rw [lastOpenReception_eq_none s p h]
  cases env.fail .Begin <;> simp only []
  · cases env.fail (.QueryRow .selectLastReception) <;> simp
  · simp

/-- Witness of C4: pickup point 7 has only a closed reception, pickup point 8
an open one. -/
theorem CloseLastReception_notFound_witness :
    (CloseLastReception ⟨[], [⟨1, 10, 7, "close"⟩, ⟨2, 11, 8, "in_progress"⟩], []⟩
        (Env.ok 12 0) 7).store
        = ⟨[], [⟨1, 10, 7, "close"⟩, ⟨2, 11, 8, "in_progress"⟩], []⟩ ∧
      (CloseLastReception ⟨[], [⟨1, 10, 7, "close"⟩, ⟨2, 11, 8, "in_progress"⟩], []⟩
        (Env.ok 12 0) 7).err = some Err.ErrNoRows := by
  have h := CloseLastReception_notFound
    ⟨[], [⟨1, 10, 7, "close"⟩, ⟨2, 11, 8, "in_progress"⟩], []⟩ (Env.ok 12 0) 7 (by decide)
  exact ⟨h.1, h.2.2.2.2 rfl rfl⟩

/-- C6: in every store in which pickup point p has no reception with status
in_progress and for every product type t, AddProduct returns no product and
an error, inserts no product row (the INSERT is not issued, the store is
unchanged); whenever Begin succeeds the error is
"Нет активной приёмки для данного ПВЗ". -/
theorem AddProduct_noReception (s : Store) (env : Env) (p : UUID) (t : String)
    (h : ∀ r ∈ s.receptions, r.PVZId = p → r.Status ≠ "in_progress") :
    (AddProduct s env p t).value = none ∧
      (AddProduct s env p t).store = s ∧
      Call.QueryRow Query.insertProduct ∉ (AddProduct s env p t).calls ∧
      (AddProduct s env p t).err ≠ none ∧
      (env.fail .Begin = none →
        (AddProduct s env p t).err = some (Err.New "Нет активной приёмки для данного ПВЗ")) := by
  unfold AddProduct scanRow
  rw [lastOpenReception_eq_none s p h]
  cases env.fail .Begin <;> simp only []
  · cases env.fail (.QueryRow .selectLastReception) <;> simp
  · simp

/-- Witness of C6: pickup point 7 has only a closed reception. -/
theorem AddProduct_noReception_witness :
    (AddProduct ⟨[], [⟨1, 10, 7, "close"⟩], [⟨5, 10, "обувь", 1⟩]⟩ (Env.ok 12 6) 7
        "одежда").value = none ∧
      (AddProduct ⟨[], [⟨1, 10, 7, "close"⟩], [⟨5, 10, "обувь", 1⟩]⟩ (Env.ok 12 6) 7
        "одежда").store = ⟨[], [⟨1, 10, 7, "close"⟩], [⟨5, 10, "обувь", 1⟩]⟩ ∧
      (AddProduct ⟨[], [⟨1, 10, 7, "close"⟩], [⟨5, 10, "обувь", 1⟩]⟩ (Env.ok 12 6) 7
        "одежда").err = some (Err.New "Нет активной приёмки для данного ПВЗ") := by
  have h := AddProduct_noReception ⟨[], [⟨1, 10, 7, "close"⟩], [⟨5, 10, "обувь", 1⟩]⟩
    (Env.ok 12 6) 7 "одежда" (by decide)
  exact ⟨h.1, h.2.1, h.2.2.2.2 rfl⟩

/-! ## Successful paths of the ledger operations -/

theorem head_closeById (rows : List Reception) (r : Reception)
    (hkey : (rows.map Reception.ID).Nodup) (hr : r ∈ rows) :
    ((closeById rows r.ID).filter (fun x => x.ID == r.ID)).head?
      = some { r with Status := "close" } := by
  induction rows with
  | nil => simp at hr
  | cons a as ih =>
    simp only [List.map_cons, List.nodup_cons] at hkey
    by_cases hid : a.ID = r.ID
    · have har : a = r := by
        rcases List.mem_cons.1 hr with h | h
        · exact h.symm
        · exact absurd (hid ▸ List.mem_map_of_mem Reception.ID h) hkey.1
      subst har
      simp [closeById]
    · have hmem : r ∈ as := by
        rcases List.mem_cons.1 hr with h | h
        · exact absurd (h ▸ rfl) hid
        · exact h
      have := ih hkey.2 hmem
      simp only [closeById] at this ⊢
      simp only [List.map_cons, beq_iff_eq, hid, if_false, List.filter_cons]
      simpa using this

theorem lastOpenReception_isSome (s : Store) (p : UUID)
    (h : ∃ r ∈ s.receptions, r.PVZId = p ∧ r.Status = "in_progress") :
    ∃ r, lastOpenReception s p = some r := by
  obtain ⟨r0, hr0, hp, hs⟩ := h
  apply latestBy_isSome
  intro hnil
  have : r0 ∈ s.receptions.filter (isOpenFor p) :=
    List.mem_filter.2 ⟨hr0, (isOpenFor_iff p r0).2 ⟨hp, hs⟩⟩
  rw [hnil] at this
  simp at this

theorem lastOpenReception_spec (s : Store) (p : UUID) (r : Reception)
    (h : lastOpenReception s p = some r) :
    r ∈ s.receptions ∧ r.PVZId = p ∧ r.Status = "in_progress" ∧
      ∀ r2 ∈ s.receptions, r2.PVZId = p → r2.Status = "in_progress" →
        r2.DateTime ≤ r.DateTime := by
  obtain ⟨hm, ho⟩ := lastOpenReception_mem s p r h
  obtain ⟨hp, hs⟩ := (isOpenFor_iff p r).1 ho
  refine ⟨hm, hp, hs, ?_⟩
  intro r2 hr2 hp2 hs2
  exact latestBy_ge _ _ _ h r2 (List.mem_filter.2 ⟨hr2, (isOpenFor_iff p r2).2 ⟨hp2, hs2⟩⟩)

/-- C5: in every store whose reception ids are unique and in which pickup
point p has an in_progress reception, CloseLastReception for p, when no call
on the store fails, returns no error and the reception r of p that has the
latest date_time among the in_progress receptions of p, with status "close"
and with id, date_time and pvz_id as stored; in the store afterwards r has
status "close" and every other reception, every product and every pickup
point is unchanged. -/
theorem CloseLastReception_success (s : Store) (env : Env) (p : UUID)
    (hkey : (s.receptions.map Reception.ID).Nodup)
    (hok : ∀ c, env.fail c = none)
    (h : ∃ r ∈ s.receptions, r.PVZId = p ∧ r.Status = "in_progress") :
    ∃ r ∈ s.receptions, r.PVZId = p ∧ r.Status = "in_progress" ∧
      (∀ r2 ∈ s.receptions, r2.PVZId = p → r2.Status = "in_progress" →
        r2.DateTime ≤ r.DateTime) ∧
      (CloseLastReception s env p).err = none ∧
      (CloseLastReception s env p).value = some ⟨r.ID, r.DateTime, r.PVZId, "close"⟩ ∧
      (CloseLastReception s env p).store.receptions =
        s.receptions.map
          (fun x => if x = r then ⟨r.ID, r.DateTime, r.PVZId, "close"⟩ else x) ∧
      (CloseLastReception s env p).store.products = s.products ∧
      (CloseLastReception s env p).store.pvz = s.pvz := by
  obtain ⟨r, hl⟩ := lastOpenReception_isSome s p h
  obtain ⟨hm, hp, hs, hmax⟩ := lastOpenReception_spec s p r hl
  refine ⟨r, hm, hp, hs, hmax, ?_⟩
  have hhead := head_closeById s.receptions r hkey hm
  have hmap : closeById s.receptions r.ID =
      s.receptions.map (fun x => if x = r then ⟨r.ID, r.DateTime, r.PVZId, "close"⟩ else x) := by
    unfold closeById
    apply List.map_congr_left
    intro x hx
    by_cases hxr : x = r
    · subst hxr; simp
    · have hne : x.ID ≠ r.ID := fun he =>
        hxr (List.inj_on_of_nodup_map hkey hx hm he)
      simp [hxr, hne]
  unfold CloseLastReception scanRow
  simp only [hok, hl, hhead]
  exact ⟨trivial, trivial, hmap, trivial, trivial⟩

/-- Witness of C5: pickup point 7 has an open reception, pickup point 8 too;
closing for 7 closes reception 2 only. -/
theorem CloseLastReception_success_witness :
    ∃ r ∈ [(⟨1, 10, 7, "close"⟩ : Reception), ⟨2, 11, 7, "in_progress"⟩,
        ⟨3, 12, 8, "in_progress"⟩],
      r.PVZId = 7 ∧ r.Status = "in_progress" ∧
      (CloseLastReception
        ⟨[], [⟨1, 10, 7, "close"⟩, ⟨2, 11, 7, "in_progress"⟩, ⟨3, 12, 8, "in_progress"⟩], []⟩
        (Env.ok 13 0) 7).value = some ⟨r.ID, r.DateTime, r.PVZId, "close"⟩ := by
  obtain ⟨r, hr, hp, hs, _, _, hv, _⟩ := CloseLastReception_success
    ⟨[], [⟨1, 10, 7, "close"⟩, ⟨2, 11, 7, "in_progress"⟩, ⟨3, 12, 8, "in_progress"⟩], []⟩
    (Env.ok 13 0) 7 (by decide) (fun _ => rfl) ⟨⟨2, 11, 7, "in_progress"⟩, by decide⟩
  exact ⟨r, hr, hp, hs, hv⟩

theorem latestBy_eq_of_strict {α : Type} (key : α → Time) (l : List α) (x : α)
    (hx : x ∈ l) (h : ∀ y ∈ l, y = x ∨ key y < key x) : latestBy key l = some x := by
  obtain ⟨y, hy⟩ := latestBy_isSome key l (List.ne_nil_of_mem hx)
  have hyl := latestBy_mem key l y hy
  have hge := latestBy_ge key l y hy x hx
  rcases h y hyl with rfl | hlt
  · exact hy
  · exact absurd hge (not_le.2 hlt)

theorem lastOpenReception_eq (s : Store) (p : UUID) (r : Reception)
    (hr : r ∈ s.receptions) (hp : r.PVZId = p) (hs : r.Status = "in_progress")
    (hlast : ∀ r2 ∈ s.receptions, r2.PVZId = p → r2.Status = "in_progress" →
      r2 = r ∨ r2.DateTime < r.DateTime) :
    lastOpenReception s p = some r := by
  apply latestBy_eq_of_strict
  · exact List.mem_filter.2 ⟨hr, (isOpenFor_iff p r).2 ⟨hp, hs⟩⟩
  · intro y hy
    obtain ⟨hy1, hy2⟩ := List.mem_filter.1 hy
    obtain ⟨hyp, hys⟩ := (isOpenFor_iff p y).1 hy2
    exact hlast y hy1 hyp hys

theorem AddProduct_ok (s : Store) (env : Env) (p : UUID) (t : String) (r : Reception)
    (hok : ∀ c, env.fail c = none) (hl : lastOpenReception s p = some r) :
    AddProduct s env p t =
      ⟨some ⟨env.newId, env.now, t, r.ID⟩, none,
        { s with products := s.products ++ [⟨env.newId, env.now, t, r.ID⟩] },
        [.Begin, .QueryRow .selectLastReception, .QueryRow .insertProduct, .Commit]⟩ := by
  unfold AddProduct scanRow
  simp only [hok, hl]

/-- C7: in every store in which pickup point p has an in_progress reception r
(its only one, or the most recent one) and for every product type t,
AddProduct, when no call on the store fails, returns no error and the product
with type t, reception id r.ID, the id assigned by the store and the current
time; afterwards the products table is the old one followed by that product,
so r has exactly one more product (the returned one, last) and every stored
product, reception and pickup point is unchanged. -/
theorem AddProduct_success (s : Store) (env : Env) (p : UUID) (t : String) (r : Reception)
    (hok : ∀ c, env.fail c = none)
    (hr : r ∈ s.receptions) (hp : r.PVZId = p) (hs : r.Status = "in_progress")
    (hlast : ∀ r2 ∈ s.receptions, r2.PVZId = p → r2.Status = "in_progress" →
      r2 = r ∨ r2.DateTime < r.DateTime) :
    (AddProduct s env p t).err = none ∧
      (AddProduct s env p t).value = some ⟨env.newId, env.now, t, r.ID⟩ ∧
      (AddProduct s env p t).store.products =
        s.products ++ [⟨env.newId, env.now, t, r.ID⟩] ∧
      productsOf (AddProduct s env p t).store r.ID =
        productsOf s r.ID ++ [⟨env.newId, env.now, t, r.ID⟩] ∧
      (∀ id, id ≠ r.ID → productsOf (AddProduct s env p t).store id = productsOf s id) ∧
      (AddProduct s env p t).store.receptions = s.receptions ∧
      (AddProduct s env p t).store.pvz = s.pvz := by
  rw [AddProduct_ok s env p t r hok (lastOpenReception_eq s p r hr hp hs hlast)]
  refine ⟨rfl, rfl, rfl, ?_, ?_, rfl, rfl⟩
  · simp [productsOf, List.filter_append]
  · intro id hid
    have : (r.ID == id) = false := by simpa using fun h => hid h.symm
    simp [productsOf, List.filter_append, this]

/-- Witness of C7: reception 2 is the open reception of pickup point 7 and holds
one product already. -/
theorem AddProduct_success_witness :
    (AddProduct
        ⟨[], [⟨1, 10, 7, "close"⟩, ⟨2, 11, 7, "in_progress"⟩], [⟨5, 12, "обувь", 2⟩]⟩
        (Env.ok 13 6) 7 "одежда").value = some ⟨6, 13, "одежда", 2⟩ ∧
      productsOf (AddProduct
        ⟨[], [⟨1, 10, 7, "close"⟩, ⟨2, 11, 7, "in_progress"⟩], [⟨5, 12, "обувь", 2⟩]⟩
        (Env.ok 13 6) 7 "одежда").store 2 = [⟨5, 12, "обувь", 2⟩, ⟨6, 13, "одежда", 2⟩] := by
  have h := AddProduct_success
    ⟨[], [⟨1, 10, 7, "close"⟩, ⟨2, 11, 7, "in_progress"⟩], [⟨5, 12, "обувь", 2⟩]⟩
    (Env.ok 13 6) 7 "одежда" ⟨2, 11, 7, "in_progress"⟩ (fun _ => rfl) (by decide) rfl rfl
    (by decide)
  exact ⟨h.2.1, h.2.2.2.1⟩

/-! ## Nothing to delete -/

theorem lastProduct_eq_none (s : Store) (id : UUID) (h : productsOf s id = []) :
    lastProduct s id = none := by
  unfold lastProduct
  rw [h]
  rfl

/-- C9: DeleteLastProduct for pickup point p returns an error and deletes
nothing (the store is unchanged, neither the DELETE nor Commit is issued) both
when p has no in_progress reception and when p's in_progress reception has no
products; in both cases, when the store answers Begin and the two SELECTs, the
error is the not-found error (no rows). -/
theorem DeleteLastProduct_nothing (s : Store) (env : Env) (p : UUID)
    (h : (∀ r ∈ s.receptions, r.PVZId = p → r.Status ≠ "in_progress") ∨
      (∀ r ∈ s.receptions, r.PVZId = p → r.Status = "in_progress" →
        productsOf s r.ID = [])) :
    (DeleteLastProduct s env p).store = s ∧
      Call.Exec Query.deleteProduct ∉ (DeleteLastProduct s env p).calls ∧
      Call.Commit ∉ (DeleteLastProduct s env p).calls ∧
      (DeleteLastProduct s env p).err ≠ none ∧
      (env.fail .Begin = none → env.fail (.QueryRow .selectLastReception) = none →
        env.fail (.QueryRow .selectLastProduct) = none →
        (DeleteLastProduct s env p).err = some Err.ErrNoRows) := by
  cases hl : lastOpenReception s p with
  | none =>
    unfold DeleteLastProduct scanRow
    rw [hl]
    cases env.fail .Begin <;> simp only []
    · cases env.fail (.QueryRow .selectLastReception) <;> simp
    · simp
  | some r =>
    obtain ⟨hm, hp, hs, _⟩ := lastOpenReception_spec s p r hl
    have hempty : productsOf s r.ID = [] := by
      rcases h with h | h
      · exact absurd hs (h r hm hp)
      · exact h r hm hp hs
    have hlp := lastProduct_eq_none s r.ID hempty
    unfold DeleteLastProduct scanRow
    rw [hl]
    cases env.fail .Begin <;> simp only []
    · cases env.fail (.QueryRow .selectLastReception) <;> simp only []
      · cases env.fail (.QueryRow .selectLastProduct) <;> simp [hlp]
      · simp
    · simp

/-- Witness of C9: pickup point 7 has an open reception without products, the
only stored product belongs to a reception of pickup point 8. -/
theorem DeleteLastProduct_nothing_witness :
    (DeleteLastProduct
        ⟨[], [⟨1, 10, 7, "in_progress"⟩, ⟨2, 11, 8, "in_progress"⟩], [⟨5, 12, "обувь", 2⟩]⟩
        (Env.ok 13 0) 7).store =
        ⟨[], [⟨1, 10, 7, "in_progress"⟩, ⟨2, 11, 8, "in_progress"⟩], [⟨5, 12, "обувь", 2⟩]⟩ ∧
      (DeleteLastProduct
        ⟨[], [⟨1, 10, 7, "in_progress"⟩, ⟨2, 11, 8, "in_progress"⟩], [⟨5, 12, "обувь", 2⟩]⟩
        (Env.ok 13 0) 7).err = some Err.ErrNoRows := by
  have h := DeleteLastProduct_nothing
    ⟨[], [⟨1, 10, 7, "in_progress"⟩, ⟨2, 11, 8, "in_progress"⟩], [⟨5, 12, "обувь", 2⟩]⟩
    (Env.ok 13 0) 7 (Or.inr (by decide))
  exact ⟨h.1, h.2.2.2.2 rfl rfl rfl⟩

/-! ## Concurrent CreateReception calls -/

theorem concRun_sequential (s : Store) (phases : List Phase) (now : Time) (newId p : UUID)
    (env : Nat → Env) (henv : env 0 = Env.ok now newId) :
    (concRun p env ⟨s, .start :: phases⟩ [0, 0, 0]).store =
        (CreateReception s (Env.ok now newId) p).store ∧
      (concRun p env ⟨s, .start :: phases⟩ [0, 0, 0]).phases =
        .done (CreateReception s (Env.ok now newId) p).value
          (CreateReception s (Env.ok now newId) p).err :: phases := by
  by_cases h : openCount s p > 0
  · simp [concRun, concStep, CreateReception, scanRow, Env.ok, h]
  · simp [concRun, concStep, CreateReception, scanRow, Env.ok, h, henv]

/-- C3 at a failing schedule: two concurrent CreateReception calls for pickup
point 7 on the empty store, scheduled count, count, insert, insert, commit,
commit, both return a reception and no error; there are two successes and no
conflict error, and pickup point 7 ends with two in_progress receptions. -/
theorem CreateReception_race :
    (concRun 7 (fun i => Env.ok (10 + i) (i + 1)) ⟨⟨[], [], []⟩, [.start, .start]⟩
        [0, 1, 0, 1, 0, 1]).phases =
        [.done (some ⟨1, 10, 7, "in_progress"⟩) none,
          .done (some ⟨2, 11, 7, "in_progress"⟩) none] ∧
      successes (concRun 7 (fun i => Env.ok (10 + i) (i + 1))
        ⟨⟨[], [], []⟩, [.start, .start]⟩ [0, 1, 0, 1, 0, 1]) = 2 ∧
      conflicts (concRun 7 (fun i => Env.ok (10 + i) (i + 1))
        ⟨⟨[], [], []⟩, [.start, .start]⟩ [0, 1, 0, 1, 0, 1]) = 0 ∧
      openCount (concRun 7 (fun i => Env.ok (10 + i) (i + 1))
        ⟨⟨[], [], []⟩, [.start, .start]⟩ [0, 1, 0, 1, 0, 1]).store 7 = 2 := by
  decide

/-! ## Products of a closed reception -/

theorem closeById_ids (rows : List Reception) (id : UUID) :
    (closeById rows id).map Reception.ID = rows.map Reception.ID := by
  unfold closeById
  rw [List.map_map]
  apply List.map_congr_left
  intro r _
  by_cases h : r.ID = id <;> simp [h]

theorem closeById_status (rows : List Reception) (id : UUID) (x : Reception)
    (hx : x ∈ closeById rows id) :
    x.Status = "close" ∨ x ∈ rows := by
  unfold closeById at hx
  obtain ⟨r, hr, hrx⟩ := List.mem_map.1 hx
  by_cases h : r.ID = id
  · simp only [beq_iff_eq, h, if_true] at hrx
    left; rw [← hrx]
  · simp only [beq_iff_eq, h, if_false] at hrx
    right; rw [← hrx]; exact hr

theorem lastProduct_mem (s : Store) (id : UUID) (q : Product) (h : lastProduct s id = some q) :
    q ∈ s.products ∧ q.ReceptionId = id := by
  have hm := latestBy_mem _ _ _ h
  unfold productsOf at hm
  obtain ⟨h1, h2⟩ := List.mem_filter.1 hm
  exact ⟨h1, by simpa using h2⟩

theorem productsOf_deleteById (s : Store) (q : Product) (cid : UUID)
    (hq : q ∈ s.products) (hne : q.ReceptionId ≠ cid)
    (hpk : (s.products.map Product.ID).Nodup) :
    productsOf { s with products := deleteById s.products q.ID } cid = productsOf s cid := by
  unfold productsOf deleteById
  simp only [List.filter_filter]
  apply List.filter_congr
  intro x hx
  by_cases hxc : x.ReceptionId = cid
  · have hid : x.ID ≠ q.ID := by
      intro he
      have := List.inj_on_of_nodup_map hpk hx hq he
      exact hne (this ▸ hxc)
    simp [hxc, hid]
  · simp [hxc]

theorem frozen_step (s : Store) (op : Op) (cid : UUID)
    (hclosed : ∀ r ∈ s.receptions, r.ID = cid → r.Status ≠ "in_progress")
    (hused : cid ∈ s.receptions.map Reception.ID)
    (hpk : (s.products.map Product.ID).Nodup)
    (hfresh : op.fresh s = true) :
    (∀ r ∈ (op.run s).receptions, r.ID = cid → r.Status ≠ "in_progress") ∧
      cid ∈ (op.run s).receptions.map Reception.ID ∧
      ((op.run s).products.map Product.ID).Nodup ∧
      productsOf (op.run s) cid = productsOf s cid := by
  cases op with
  | createReception p env =>
    simp only [Op.run]
    simp only [Op.fresh, Bool.not_eq_true', List.contains_eq_any_beq, List.any_eq_false,
      beq_iff_eq] at hfresh
    rcases CreateReception_store s env p with he | ⟨_, _, he⟩
    · rw [he]; exact ⟨hclosed, hused, hpk, rfl⟩
    · rw [he]
      refine ⟨?_, ?_, hpk, rfl⟩
      · intro r hr hid
        rcases List.mem_append.1 hr with h | h
        · exact hclosed r h hid
        · simp only [List.mem_singleton] at h
          subst h
          exact absurd hid (hfresh cid hused)
      · simp only [List.map_append, List.mem_append]
        exact Or.inl hused
  | closeLastReception p env =>
    simp only [Op.run]
    rcases CloseLastReception_store s env p with he | ⟨r, _, _, he⟩
    · rw [he]; exact ⟨hclosed, hused, hpk, rfl⟩
    · rw [he]
      refine ⟨?_, ?_, hpk, rfl⟩
      · intro x hx hid
        rcases closeById_status s.receptions r.ID x hx with h | h
        · rw [h]; decide
        · exact hclosed x h hid
      · simp only []
        rw [closeById_ids]; exact hused
  | addProduct p t env =>
    simp only [Op.run]
    simp only [Op.fresh, Bool.not_eq_true', List.contains_eq_any_beq, List.any_eq_false,
      beq_iff_eq] at hfresh
    rcases AddProduct_store s env p t with he | ⟨r, hl, _, he⟩
    · rw [he]; exact ⟨hclosed, hused, hpk, rfl⟩
    · rw [he]
      obtain ⟨hm, _, hs, _⟩ := lastOpenReception_spec s p r hl
      have hne : r.ID ≠ cid := fun h => hclosed r hm h hs
      refine ⟨hclosed, hused, ?_, ?_⟩
      · simp only [List.map_append, List.map_cons, List.map_nil]
        rw [List.nodup_append]
        refine ⟨hpk, List.nodup_singleton _, ?_⟩
        intro a ha hb
        simp only [List.mem_singleton] at hb
        subst hb
        exact hfresh _ ha rfl
      · have : (r.ID == cid) = false := by simpa using hne
        simp [productsOf, List.filter_append, this]
  | deleteLastProduct p env =>
    simp only [Op.run]
    rcases DeleteLastProduct_store s env p with he | ⟨r, q, hl, hq, _, he⟩
    · rw [he]; exact ⟨hclosed, hused, hpk, rfl⟩
    · rw [he]
      obtain ⟨hm, _, hs, _⟩ := lastOpenReception_spec s p r hl
      obtain ⟨hqm, hqr⟩ := lastProduct_mem s r.ID q hq
      have hne : q.ReceptionId ≠ cid := fun h => hclosed r hm (hqr ▸ h) hs
      refine ⟨hclosed, hused, ?_, productsOf_deleteById s q cid hqm hne hpk⟩
      exact List.Nodup.sublist (List.Sublist.map _ (List.filter_sublist _)) hpk

theorem frozen_states (s : Store) (ops : List Op) (cid : UUID)
    (hclosed : ∀ r ∈ s.receptions, r.ID = cid → r.Status ≠ "in_progress")
    (hused : cid ∈ s.receptions.map Reception.ID)
    (hpk : (s.products.map Product.ID).Nodup)
    (hfresh : freshRun s ops = true) :
    ∀ s2 ∈ states s ops, productsOf s2 cid = productsOf s cid := by
  induction ops generalizing s with
  | nil =>
    intro s2 hs2
    simp only [states, List.mem_singleton] at hs2
    rw [hs2]
  | cons op ops ih =>
    intro s2 hs2
    simp only [freshRun, Bool.and_eq_true] at hfresh
    simp only [states, List.mem_cons] at hs2
    rcases hs2 with rfl | hs2
    · rfl
    · obtain ⟨h1, h2, h3, h4⟩ := frozen_step s op cid hclosed hused hpk hfresh.1
      rw [← h4]
      exact ih (op.run s) h1 h2 h3 hfresh.2 s2 hs2

/-- C10: once a reception c has status "close" (in a store with unique
reception ids and unique product ids), along every sequence of ledger
operations, for any pickup points, any clock and any store failures, in which
the store assigns fresh ids to inserted rows, the products attached to c are
the same in every store met: no AddProduct adds a product to c and no
DeleteLastProduct removes one from it. -/
theorem closed_products_frozen (s : Store) (ops : List Op) (c : Reception)
    (hc : c ∈ s.receptions) (hst : c.Status = "close")
    (hrk : (s.receptions.map Reception.ID).Nodup)
    (hpk : (s.products.map Product.ID).Nodup)
    (hfresh : freshRun s ops = true) :
    ∀ s2 ∈ states s ops, productsOf s2 c.ID = productsOf s c.ID := by
  apply frozen_states s ops c.ID _ (List.mem_map_of_mem _ hc) hpk hfresh
  intro r hr hid hs
  have : r = c := List.inj_on_of_nodup_map hrk hr hc hid
  rw [this, hst] at hs
  exact absurd hs (by decide)

/-- Witness of C10: reception 1 of pickup point 7 is closed and holds product 5;
a new reception is opened for 7, a product is added, two deletions are tried,
and in the final store reception 1 holds exactly product 5. -/
theorem closed_products_frozen_witness :
    productsOf (runAll ⟨[], [⟨1, 10, 7, "close"⟩], [⟨5, 9, "обувь", 1⟩]⟩
        [Op.createReception 7 (Env.ok 11 2), Op.addProduct 7 "одежда" (Env.ok 12 6),
          Op.deleteLastProduct 7 (Env.ok 13 0), Op.deleteLastProduct 7 (Env.ok 14 0)]) 1
      = [⟨5, 9, "обувь", 1⟩] :=
  closed_products_frozen ⟨[], [⟨1, 10, 7, "close"⟩], [⟨5, 9, "обувь", 1⟩]⟩
    [Op.createReception 7 (Env.ok 11 2), Op.addProduct 7 "одежда" (Env.ok 12 6),
      Op.deleteLastProduct 7 (Env.ok 13 0), Op.deleteLastProduct 7 (Env.ok 14 0)]
    ⟨1, 10, 7, "close"⟩ (by decide) rfl (by decide) (by decide) (by decide) _ (by decide)

/-! ## Last in, first out -/

theorem runAll_append (s : Store) (a b : List Op) :
    runAll s (a ++ b) = runAll (runAll s a) b := by
  induction a generalizing s with
  | nil => rfl
  | cons op ops ih => simp only [List.cons_append, runAll]; exact ih _

theorem errors_append (s : Store) (a b : List Op) :
    errors s (a ++ b) = errors s a ++ errors (runAll s a) b := by
  induction a generalizing s with
  | nil => rfl
  | cons op ops ih => simp [errors, runAll, ih]

theorem lastOpenReception_congr (s1 s2 : Store) (p : UUID)
    (h : s1.receptions = s2.receptions) :
    lastOpenReception s1 p = lastOpenReception s2 p := by
  unfold lastOpenReception
  rw [h]

theorem DeleteLastProduct_ok (s : Store) (env : Env) (p : UUID) (r : Reception) (q : Product)
    (hok : ∀ c, env.fail c = none) (hl : lastOpenReception s p = some r)
    (hq : lastProduct s r.ID = some q) :
    DeleteLastProduct s env p =
      ⟨none, none, { s with products := deleteById s.products q.ID },
        [.Begin, .QueryRow .selectLastReception, .QueryRow .selectLastProduct,
          .Exec .deleteProduct, .Commit]⟩ := by
  unfold DeleteLastProduct scanRow
  simp only [hok, hl, hq]

theorem adds_run (p : UUID) (r : Reception) (adds : List (String × Env)) (s : Store)
    (hl : lastOpenReception s p = some r)
    (hok : ∀ a ∈ adds, ∀ c, a.2.fail c = none) :
    (runAll s (addOps p adds)).products = s.products ++ adds.map (added r.ID) ∧
      (runAll s (addOps p adds)).receptions = s.receptions ∧
      ∀ e ∈ errors s (addOps p adds), e = none := by
  induction adds generalizing s with
  | nil => simp [addOps, runAll, errors]
  | cons a as ih =>
    have ha := AddProduct_ok s a.2 p a.1 r (hok a (List.mem_cons_self _ _)) hl
    have hl2 : lastOpenReception (AddProduct s a.2 p a.1).store p = some r := by
      rw [← hl]
      apply lastOpenReception_congr
      rw [ha]
    obtain ⟨h1, h2, h3⟩ := ih (AddProduct s a.2 p a.1).store hl2
      (fun b hb => hok b (List.mem_cons_of_mem _ hb))
    simp only [addOps, List.map_cons, runAll, errors, Op.run, Op.err] at h1 h2 h3 ⊢
    refine ⟨?_, ?_, ?_⟩
    · rw [h1, ha]
      simp [added]
    · rw [h2, ha]
    · intro e he
      rcases List.mem_cons.1 he with rfl | he
      · rw [ha]
      · exact h3 e he

theorem latestBy_append_singleton (l : List Product) (q : Product)
    (h : ∀ y ∈ l, y.DateTime < q.DateTime) :
    latestBy Product.DateTime (l ++ [q]) = some q := by
  apply latestBy_eq_of_strict
  · simp
  · intro y hy
    rcases List.mem_append.1 hy with hy | hy
    · exact Or.inr (h y hy)
    · exact Or.inl (by simpa using hy)

theorem filter_ne_append_singleton (l : List Product) (q : Product)
    (h : ∀ y ∈ l, y.ID ≠ q.ID) :
    (l ++ [q]).filter (fun x => !(x.ID == q.ID)) = l := by
  rw [List.filter_append]
  have h1 : l.filter (fun x => !(x.ID == q.ID)) = l := by
    rw [List.filter_eq_self]
    intro y hy
    simpa using h y hy
  rw [h1]
  simp

theorem productsOf_deleteById_comm (s : Store) (id rid : UUID) :
    productsOf { s with products := deleteById s.products id } rid =
      (productsOf s rid).filter (fun x => !(x.ID == id)) := by
  unfold productsOf deleteById
  simp only [List.filter_filter]
  apply List.filter_congr
  intro x _
  exact Bool.and_comm _ _

theorem dels_run (p : UUID) (r : Reception) (dels : List Env) (s : Store) (l : List Product)
    (hl : lastOpenReception s p = some r)
    (hprod : productsOf s r.ID = l)
    (htime : l.Pairwise (fun a b => a.DateTime < b.DateTime))
    (hids : l.Pairwise (fun a b => a.ID ≠ b.ID))
    (hlen : dels.length ≤ l.length)
    (hok : ∀ e ∈ dels, ∀ c, e.fail c = none) :
    productsOf (runAll s (deleteOps p dels)) r.ID = l.take (l.length - dels.length) ∧
      ∀ e ∈ errors s (deleteOps p dels), e = none := by
  induction dels generalizing s l with
  | nil => simp [deleteOps, runAll, errors, hprod]
  | cons d ds ih =>
    have hne : l ≠ [] := by
      intro h
      rw [h] at hlen
      simp at hlen
    obtain ⟨l2, q, rfl⟩ : ∃ l2 q, l = l2 ++ [q] :=
      ⟨l.dropLast, l.getLast hne, (List.dropLast_append_getLast hne).symm⟩
    rw [List.pairwise_append] at htime hids
    have hq : lastProduct s r.ID = some q := by
      unfold lastProduct
      rw [hprod]
      exact latestBy_append_singleton l2 q (fun y hy => htime.2.2 y hy q (by simp))
    have hd := DeleteLastProduct_ok s d p r q (hok d (List.mem_cons_self _ _)) hl hq
    have hl2 : lastOpenReception (DeleteLastProduct s d p).store p = some r := by
      rw [← hl]
      apply lastOpenReception_congr
      rw [hd]
    have hprod2 : productsOf (DeleteLastProduct s d p).store r.ID = l2 := by
      rw [hd]
      simp only []
      rw [productsOf_deleteById_comm, hprod]
      exact filter_ne_append_singleton l2 q (fun y hy => hids.2.2 y hy q (by simp))
    have hlen2 : ds.length ≤ l2.length := by
      simp at hlen
      omega
    obtain ⟨h1, h2⟩ := ih (DeleteLastProduct s d p).store l2 hl2 hprod2 htime.1 hids.1 hlen2
      (fun e he => hok e (List.mem_cons_of_mem _ he))
    simp only [deleteOps, List.map_cons, runAll, errors, Op.run, Op.err] at h1 h2 ⊢
    refine ⟨?_, ?_⟩
    · rw [h1]
      have hn : (l2 ++ [q]).length - (d :: ds).length = l2.length - ds.length := by simp
      rw [hn, List.take_append_of_le_length (by omega)]
    · intro e he
      rcases List.mem_cons.1 he with rfl | he
      · rw [hd]
      · exact h2 e he

theorem productsOf_added (rid : UUID) (adds : List (String × Env)) :
    (adds.map (added rid)).filter (fun x => x.ReceptionId == rid) = adds.map (added rid) := by
  rw [List.filter_eq_self]
  intro x hx
  obtain ⟨a, _, rfl⟩ := List.mem_map.1 hx
  simp [added]

/-- C8, as amended: let r be the in_progress reception of pickup point p (its
only one, or the most recent one) and let it hold no products.  After k
AddProduct calls for p whose clock readings are strictly increasing and whose
assigned ids are pairwise distinct, followed by j ≤ k DeleteLastProduct calls
for p, no call on the store failing, every call returns without error and the
products attached to r are exactly the first k − j added, in insertion order. -/
theorem lifo_increasing_clock (s : Store) (p : UUID) (r : Reception)
    (adds : List (String × Env)) (dels : List Env)
    (hr : r ∈ s.receptions) (hp : r.PVZId = p) (hs : r.Status = "in_progress")
    (hlast : ∀ r2 ∈ s.receptions, r2.PVZId = p → r2.Status = "in_progress" →
      r2 = r ∨ r2.DateTime < r.DateTime)
    (hempty : productsOf s r.ID = [])
    (hokA : ∀ a ∈ adds, ∀ c, a.2.fail c = none)
    (hokD : ∀ e ∈ dels, ∀ c, e.fail c = none)
    (htime : adds.Pairwise (fun a b => a.2.now < b.2.now))
    (hids : adds.Pairwise (fun a b => a.2.newId ≠ b.2.newId))
    (hj : dels.length ≤ adds.length) :
    (∀ e ∈ errors s (addOps p adds ++ deleteOps p dels), e = none) ∧
      productsOf (runAll s (addOps p adds ++ deleteOps p dels)) r.ID =
        (adds.take (adds.length - dels.length)).map (added r.ID) := by
  have hl := lastOpenReception_eq s p r hr hp hs hlast
  obtain ⟨h1, h2, h3⟩ := adds_run p r adds s hl hokA
  have hl1 : lastOpenReception (runAll s (addOps p adds)) p = some r := by
    rw [← hl]
    exact lastOpenReception_congr _ _ p h2
  have hprod : productsOf (runAll s (addOps p adds)) r.ID = adds.map (added r.ID) := by
    have : productsOf (runAll s (addOps p adds)) r.ID =
        productsOf s r.ID ++ (adds.map (added r.ID)).filter (fun x => x.ReceptionId == r.ID) := by
      unfold productsOf
      rw [h1, List.filter_append]
    rw [this, hempty, productsOf_added]
    rfl
  have ht : (adds.map (added r.ID)).Pairwise (fun a b => a.DateTime < b.DateTime) := by
    rw [List.pairwise_map]
    exact htime
  have hi : (adds.map (added r.ID)).Pairwise (fun a b => a.ID ≠ b.ID) := by
    rw [List.pairwise_map]
    exact hids
  obtain ⟨h4, h5⟩ := dels_run p r dels (runAll s (addOps p adds)) (adds.map (added r.ID))
    hl1 hprod ht hi (by rw [List.length_map]; exact hj) hokD
  refine ⟨?_, ?_⟩
  · intro e he
    rw [errors_append] at he
    rcases List.mem_append.1 he with he | he
    · exact h3 e he
    · exact h5 e he
  · rw [runAll_append, h4, List.length_map, List.map_take]

/-- Witness of C8 as amended: AddProduct t1 at time 11, AddProduct t2 at time
12, DeleteLastProduct leaves exactly the product of type t1. -/
theorem lifo_increasing_clock_witness :
    productsOf (runAll ⟨[], [⟨1, 10, 7, "in_progress"⟩], []⟩
        (addOps 7 [("t1", Env.ok 11 1), ("t2", Env.ok 12 2)] ++ deleteOps 7 [Env.ok 13 0])) 1
      = [⟨1, 11, "t1", 1⟩] :=
  (lifo_increasing_clock ⟨[], [⟨1, 10, 7, "in_progress"⟩], []⟩ 7 ⟨1, 10, 7, "in_progress"⟩
    [("t1", Env.ok 11 1), ("t2", Env.ok 12 2)] [Env.ok 13 0]
    (by decide) rfl rfl (by decide) rfl
    (by intro a ha c; simp only [List.mem_cons, List.mem_singleton, List.not_mem_nil,
          or_false] at ha; rcases ha with rfl | rfl <;> rfl)
    (by intro e he c; simp only [List.mem_singleton] at he; subst he; rfl)
    (by simp [Env.ok]) (by simp [Env.ok]) (by decide)).2

/-- Counterexample to C8 as stated: the clock read by the second AddProduct is
behind the one read by the first (5, then 3).  All three calls succeed, and
DeleteLastProduct removes the product added first: the product left is the one
of type t2, not the one of type t1. -/
theorem lifo_clock_counterexample :
    errors ⟨[], [⟨1, 1, 7, "in_progress"⟩], []⟩
        (addOps 7 [("t1", Env.ok 5 1), ("t2", Env.ok 3 2)] ++ deleteOps 7 [Env.ok 6 0])
        = [none, none, none] ∧
      productsOf (runAll ⟨[], [⟨1, 1, 7, "in_progress"⟩], []⟩
        (addOps 7 [("t1", Env.ok 5 1), ("t2", Env.ok 3 2)] ++ deleteOps 7 [Env.ok 6 0])) 1
        = [⟨2, 3, "t2", 1⟩] ∧
      productsOf (runAll ⟨[], [⟨1, 1, 7, "in_progress"⟩], []⟩
        (addOps 7 [("t1", Env.ok 5 1), ("t2", Env.ok 3 2)] ++ deleteOps 7 [Env.ok 6 0])) 1
        ≠ [⟨1, 5, "t1", 1⟩] := by
  decide

/-- Two CreateReception calls for pickup point 7 that run one after the other
(no interleaving) give one success and one conflict error. -/
theorem CreateReception_serial :
    successes (concRun 7 (fun i => Env.ok (10 + i) (i + 1))
        ⟨⟨[], [], []⟩, [.start, .start]⟩ [0, 0, 0, 1, 1, 1]) = 1 ∧
      conflicts (concRun 7 (fun i => Env.ok (10 + i) (i + 1))
        ⟨⟨[], [], []⟩, [.start, .start]⟩ [0, 0, 0, 1, 1, 1]) = 1 := by
  decide

/-! ## Receptions are never reopened nor deleted -/

theorem lifecycle_closeById (l : List Reception) (id : UUID) : lifecycle l (closeById l id) := by
  induction l with
  | nil => intro r hr; simp [closeById] at hr
  | cons a as ih =>
    have : closeById (a :: as) id =
        (if a.ID == id then { a with Status := "close" } else a) :: closeById as id := rfl
    rw [this]
    refine ⟨?_, ih⟩
    by_cases h : a.ID = id
    · right; simp [h]
    · left; simp [h]

theorem lifecycle_append_new (l new : List Reception)
    (h : ∀ r ∈ new, r.Status = "in_progress" ∨ r.Status = "close") :
    lifecycle l (l ++ new) := by
  induction l with
  | nil => exact h
  | cons a as ih => exact ⟨Or.inl rfl, ih⟩

theorem lifecycle_refl (l : List Reception) : lifecycle l l := by
  have := lifecycle_append_new l [] (by simp)
  simpa using this

theorem lifecycle_status (l1 l2 : List Reception) (h : lifecycle l1 l2)
    (h1 : ∀ r ∈ l1, r.Status = "in_progress" ∨ r.Status = "close") :
    ∀ r ∈ l2, r.Status = "in_progress" ∨ r.Status = "close" := by
  induction l1 generalizing l2 with
  | nil => exact h
  | cons a as ih =>
    cases l2 with
    | nil => simp
    | cons b bs =>
      obtain ⟨hb, hrest⟩ := h
      intro r hr
      rcases List.mem_cons.1 hr with rfl | hr
      · rcases hb with rfl | rfl
        · exact h1 _ (List.mem_cons_self _ _)
        · right; rfl
      · exact ih bs hrest (fun x hx => h1 x (List.mem_cons_of_mem _ hx)) r hr

theorem lifecycle_trans (l1 l2 l3 : List Reception) (h12 : lifecycle l1 l2)
    (h23 : lifecycle l2 l3) : lifecycle l1 l3 := by
  induction l1 generalizing l2 l3 with
  | nil => exact lifecycle_status l2 l3 h23 h12
  | cons a as ih =>
    cases l2 with
    | nil => exact absurd h12 (by simp [lifecycle])
    | cons b bs =>
      cases l3 with
      | nil => exact absurd h23 (by simp [lifecycle])
      | cons c cs =>
        obtain ⟨hb, h12r⟩ := h12
        obtain ⟨hc, h23r⟩ := h23
        refine ⟨?_, ih bs cs h12r h23r⟩
        rcases hb with rfl | rfl
        · exact hc
        · right
          rcases hc with rfl | rfl <;> rfl

theorem lifecycle_run (s : Store) (op : Op) : lifecycle s.receptions (op.run s).receptions := by
  cases op with
  | createReception p env =>
    simp only [Op.run]
    rcases CreateReception_store s env p with he | ⟨_, _, he⟩
    · rw [he]; exact lifecycle_refl _
    · rw [he]
      exact lifecycle_append_new _ _ (by simp)
  | closeLastReception p env =>
    simp only [Op.run]
    rcases CloseLastReception_store s env p with he | ⟨r, _, _, he⟩
    · rw [he]; exact lifecycle_refl _
    · rw [he]; exact lifecycle_closeById _ _
  | addProduct p t env =>
    simp only [Op.run]
    rcases AddProduct_store s env p t with he | ⟨r, _, _, he⟩
    · rw [he]; exact lifecycle_refl _
    · rw [he]; exact lifecycle_refl _
  | deleteLastProduct p env =>
    simp only [Op.run]
    rcases DeleteLastProduct_store s env p with he | ⟨r, q, _, _, _, he⟩
    · rw [he]; exact lifecycle_refl _
    · rw [he]; exact lifecycle_refl _

theorem lifecycle_states (s : Store) (ops : List Op) :
    ∀ s2 ∈ states s ops, lifecycle s.receptions s2.receptions := by
  induction ops generalizing s with
  | nil =>
    intro s2 hs2
    simp only [states, List.mem_singleton] at hs2
    rw [hs2]; exact lifecycle_refl _
  | cons op ops ih =>
    intro s2 hs2
    simp only [states, List.mem_cons] at hs2
    rcases hs2 with rfl | hs2
    · exact lifecycle_refl _
    · exact lifecycle_trans _ _ _ (lifecycle_run s op) (ih (op.run s) s2 hs2)

theorem lifecycle_rows (l1 l2 : List Reception) (h : lifecycle l1 l2) :
    (∀ (i : Nat) (r : Reception), l1[i]? = some r →
      ∃ r2, l2[i]? = some r2 ∧ (r2 = r ∨ r2 = { r with Status := "close" })) ∧
    (∃ extra, l2.map Reception.ID = l1.map Reception.ID ++ extra) ∧
    (∀ (i : Nat) (r2 : Reception), l1.length ≤ i → l2[i]? = some r2 →
      r2.Status = "in_progress" ∨ r2.Status = "close") := by
  induction l1 generalizing l2 with
  | nil =>
    refine ⟨by simp, ⟨l2.map Reception.ID, by simp⟩, ?_⟩
    intro i r2 _ hr2
    exact h r2 (List.getElem?_mem hr2)
  | cons a as ih =>
    cases l2 with
    | nil => exact absurd h (by simp [lifecycle])
    | cons b bs =>
      obtain ⟨hb, hrest⟩ := h
      obtain ⟨h1, ⟨extra, h2⟩, h3⟩ := ih bs hrest
      refine ⟨?_, ⟨extra, ?_⟩, ?_⟩
      · intro i r hr
        cases i with
        | zero =>
          simp only [List.getElem?_cons_zero, Option.some.injEq] at hr ⊢
          subst hr
          exact ⟨b, rfl, hb⟩
        | succ j =>
          simp only [List.getElem?_cons_succ] at hr ⊢
          exact h1 j r hr
      · have hid : b.ID = a.ID := by rcases hb with rfl | rfl <;> rfl
        simp [h2, hid]
      · intro i r2 hi hr2
        cases i with
        | zero => simp at hi
        | succ j =>
          simp only [List.getElem?_cons_succ] at hr2
          exact h3 j r2 (by simpa using hi) hr2

/-- C11: along every sequence of ledger operations (any pickup points, clock,
ids and store failures), in every store met afterwards: each reception row of
the starting store is still there at its place with the same id, date_time and
pvz_id and with its status either unchanged or set to "close", so a reception
with status "close" is never reopened and no row is removed; the list of
reception ids only grows at the end; and the rows added since were created
with status "in_progress" and are "in_progress" or "close". -/
theorem reception_lifecycle (s : Store) (ops : List Op) :
    ∀ s2 ∈ states s ops,
      (∀ (i : Nat) (r : Reception), s.receptions[i]? = some r →
        ∃ r2, s2.receptions[i]? = some r2 ∧
          (r2 = r ∨ r2 = ⟨r.ID, r.DateTime, r.PVZId, "close"⟩) ∧
          (r.Status = "close" → r2 = r)) ∧
      (∃ extra, s2.receptions.map Reception.ID = s.receptions.map Reception.ID ++ extra) ∧
      (∀ (i : Nat) (r2 : Reception), s.receptions.length ≤ i → s2.receptions[i]? = some r2 →
        r2.Status = "in_progress" ∨ r2.Status = "close") := by
  intro s2 hs2
  obtain ⟨h1, h2, h3⟩ := lifecycle_rows _ _ (lifecycle_states s ops s2 hs2)
  refine ⟨?_, h2, h3⟩
  intro i r hr
  obtain ⟨r2, hr2, hcase⟩ := h1 i r hr
  refine ⟨r2, hr2, hcase, ?_⟩
  intro hst
  rcases hcase with h | h
  · exact h
  · rw [h]
    cases r
    simp only [Reception.mk.injEq, true_and] at hst ⊢
    exact hst.symm

/-- Witness of C11: after opening, closing and reopening for pickup point 7 the
ids of the starting store are still the first ids of the table. -/
theorem reception_lifecycle_witness :
    ∃ extra,
      (runAll ⟨[], [⟨1, 10, 7, "close"⟩], []⟩
        [Op.createReception 7 (Env.ok 11 2), Op.closeLastReception 7 (Env.ok 12 0),
          Op.createReception 7 (Env.ok 13 3)]).receptions.map Reception.ID
        = [1] ++ extra :=
  (reception_lifecycle ⟨[], [⟨1, 10, 7, "close"⟩], []⟩
    [Op.createReception 7 (Env.ok 11 2), Op.closeLastReception 7 (Env.ok 12 0),
      Op.createReception 7 (Env.ok 13 3)] _ (by decide)).2.1

/-! ## Commit and Rollback -/

theorem closeById_returning (rows : List Reception) (r : Reception) (hr : r ∈ rows) :
    ∃ u, ((closeById rows r.ID).filter (fun x => x.ID == r.ID)).head? = some u := by
  have hmem : ({ r with Status := "close" } : Reception) ∈
      (closeById rows r.ID).filter (fun x => x.ID == r.ID) := by
    rw [List.mem_filter]
    refine ⟨?_, by simp⟩
    unfold closeById
    exact List.mem_map.2 ⟨r, hr, by simp⟩
  cases hf : (closeById rows r.ID).filter (fun x => x.ID == r.ID) with
  | nil => rw [hf] at hmem; simp at hmem
  | cons u us => exact ⟨u, rfl⟩

/-- C12: in CreateReception, CloseLastReception, AddProduct and
DeleteLastProduct, once Begin has succeeded: Commit is called exactly when
every statement before it succeeded (for CreateReception: the count was 0);
then the calls are Begin, all the statements, Commit, followed by the deferred
Rollback when Commit itself fails; otherwise the calls are Begin, the
statements up to and including the first that failed, and Rollback (the
explicit one and the deferred one), with no Commit and no further statement.
The operation returns no error exactly when all statements and Commit
succeeded, and whenever it returns an error the store is unchanged. -/
theorem tx_discipline (s : Store) (op : Op) (hb : op.env.fail .Begin = none) :
    (Call.Commit ∈ op.calls s ↔ ∀ st ∈ op.statements s, st.2 = true) ∧
      ((∀ st ∈ op.statements s, st.2 = true) →
        op.calls s = .Begin :: (op.statements s).map Prod.fst ++
          (if (op.env.fail .Commit).isNone then [.Commit] else [.Commit, .Rollback])) ∧
      ((¬ ∀ st ∈ op.statements s, st.2 = true) →
        op.calls s = .Begin :: issued (op.statements s) ++ [.Rollback, .Rollback]) ∧
      (op.err s = none ↔
        (∀ st ∈ op.statements s, st.2 = true) ∧ op.env.fail .Commit = none) ∧
      (op.err s ≠ none → op.run s = s) := by
  cases op with
  | createReception p env =>
    simp only [Op.env] at hb
    rcases Nat.eq_zero_or_pos (openCount s p) with hc | hc
    · cases h1 : env.fail (.QueryRow .countReceptions) <;>
        cases h2 : env.fail (.QueryRow .insertReception) <;>
        cases h3 : env.fail .Commit <;>
        simp [Op.calls, Op.statements, Op.err, Op.run, Op.env, CreateReception, scanRow, hb,
          h1, h2, h3, issued, hc]
    · have hne : openCount s p ≠ 0 := by omega
      cases h1 : env.fail (.QueryRow .countReceptions) <;>
        cases h2 : env.fail (.QueryRow .insertReception) <;>
        cases h3 : env.fail .Commit <;>
        simp [Op.calls, Op.statements, Op.err, Op.run, Op.env, CreateReception, scanRow, hb,
          h1, h2, h3, issued, hc, hne]
  | closeLastReception p env =>
    simp only [Op.env] at hb
    cases hl : lastOpenReception s p with
    | none =>
      cases h1 : env.fail (.QueryRow .selectLastReception) <;>
        cases h2 : env.fail (.QueryRow .updateReception) <;>
        cases h3 : env.fail .Commit <;>
        simp [Op.calls, Op.statements, Op.err, Op.run, Op.env, CloseLastReception, scanRow, hb,
          h1, h2, h3, issued, hl]
    | some r =>
      obtain ⟨u, hu⟩ := closeById_returning s.receptions r (lastOpenReception_mem s p r hl).1
      cases h1 : env.fail (.QueryRow .selectLastReception) <;>
        cases h2 : env.fail (.QueryRow .updateReception) <;>
        cases h3 : env.fail .Commit <;>
        simp [Op.calls, Op.statements, Op.err, Op.run, Op.env, CloseLastReception, scanRow, hb,
          h1, h2, h3, issued, hl, hu]
  | addProduct p t env =>
    simp only [Op.env] at hb
    cases hl : lastOpenReception s p <;>
      cases h1 : env.fail (.QueryRow .selectLastReception) <;>
      cases h2 : env.fail (.QueryRow .insertProduct) <;>
      cases h3 : env.fail .Commit <;>
      simp [Op.calls, Op.statements, Op.err, Op.run, Op.env, AddProduct, scanRow, hb,
        h1, h2, h3, issued, hl]
  | deleteLastProduct p env =>
    simp only [Op.env] at hb
    cases hl : lastOpenReception s p with
    | none =>
      cases h1 : env.fail (.QueryRow .selectLastReception) <;>
        cases h2 : env.fail (.QueryRow .selectLastProduct) <;>
        cases h4 : env.fail (.Exec .deleteProduct) <;>
        cases h3 : env.fail .Commit <;>
        simp [Op.calls, Op.statements, Op.err, Op.run, Op.env, DeleteLastProduct, scanRow, hb,
          h1, h2, h3, h4, issued, hl]
    | some r =>
      cases hq : lastProduct s r.ID <;>
        cases h1 : env.fail (.QueryRow .selectLastReception) <;>
        cases h2 : env.fail (.QueryRow .selectLastProduct) <;>
        cases h4 : env.fail (.Exec .deleteProduct) <;>
        cases h3 : env.fail .Commit <;>
        simp [Op.calls, Op.statements, Op.err, Op.run, Op.env, DeleteLastProduct, scanRow, hb,
          h1, h2, h3, h4, issued, hl, hq]

/-- Witness of C12: DeleteLastProduct for pickup point 7 whose open reception
has no product: the product lookup fails, so the calls are Begin, the two
SELECTs and Rollback twice, and the store is unchanged. -/
theorem tx_discipline_witness :
    (Op.deleteLastProduct 7 (Env.ok 12 0)).calls ⟨[], [⟨1, 10, 7, "in_progress"⟩], []⟩ =
        [.Begin, .QueryRow .selectLastReception, .QueryRow .selectLastProduct,
          .Rollback, .Rollback] ∧
      (Op.deleteLastProduct 7 (Env.ok 12 0)).run ⟨[], [⟨1, 10, 7, "in_progress"⟩], []⟩ =
        ⟨[], [⟨1, 10, 7, "in_progress"⟩], []⟩ :=
  ⟨(tx_discipline ⟨[], [⟨1, 10, 7, "in_progress"⟩], []⟩
      (Op.deleteLastProduct 7 (Env.ok 12 0)) rfl).2.2.1 (by decide),
    (tx_discipline ⟨[], [⟨1, 10, 7, "in_progress"⟩], []⟩
      (Op.deleteLastProduct 7 (Env.ok 12 0)) rfl).2.2.2.2 (by decide)⟩

/-! ## Authorization gate -/

/-- C13: for every role other than "employee" (the empty string and
"moderator" included) and every pickup point, Service.CloseLastReception,
CreateReception, AddProduct and DeleteLastProduct return a nil result, status
403 and the error "доступ запрещен", call no method of the database and leave
the store unchanged; for role "employee" each calls its database operation
exactly once, with the pickup point (and product type) it was given. -/
theorem ledger_role_gate (s : Store) (env : Env) (role : String) (p : UUID) (t : String)
    (h : role ≠ "employee") :
    (Service.CloseLastReception s env role p).value = none ∧
      (Service.CloseLastReception s env role p).status = 403 ∧
      (Service.CloseLastReception s env role p).err = some (Err.New "доступ запрещен") ∧
      (Service.CloseLastReception s env role p).invoked = [] ∧
      (Service.CloseLastReception s env role p).store = s ∧
      (Service.CreateReception s env role p).value = none ∧
      (Service.CreateReception s env role p).status = 403 ∧
      (Service.CreateReception s env role p).err = some (Err.New "доступ запрещен") ∧
      (Service.CreateReception s env role p).invoked = [] ∧
      (Service.CreateReception s env role p).store = s ∧
      (Service.AddProduct s env role p t).value = none ∧
      (Service.AddProduct s env role p t).status = 403 ∧
      (Service.AddProduct s env role p t).err = some (Err.New "доступ запрещен") ∧
      (Service.AddProduct s env role p t).invoked = [] ∧
      (Service.AddProduct s env role p t).store = s ∧
      (Service.DeleteLastProduct s env role p).value = none ∧
      (Service.DeleteLastProduct s env role p).status = 403 ∧
      (Service.DeleteLastProduct s env role p).err = some (Err.New "доступ запрещен") ∧
      (Service.DeleteLastProduct s env role p).invoked = [] ∧
      (Service.DeleteLastProduct s env role p).store = s ∧
      (Service.CloseLastReception s env "employee" p).invoked = [.CloseLastReception p] ∧
      (Service.CreateReception s env "employee" p).invoked = [.CreateReception p] ∧
      (Service.AddProduct s env "employee" p t).invoked = [.AddProduct p t] ∧
      (Service.DeleteLastProduct s env "employee" p).invoked = [.DeleteLastProduct p] := by
  have hr : (role != "employee") = true := by simpa using h
  have e1 : (Service.CloseLastReception s env "employee" p).invoked =
      [.CloseLastReception p] := by
    simp only [Service.CloseLastReception]
    cases (Pvz.CloseLastReception s env p).err <;> simp
  have e2 : (Service.CreateReception s env "employee" p).invoked = [.CreateReception p] := by
    simp only [Service.CreateReception]
    cases (Pvz.CreateReception s env p).err <;> simp
  have e3 : (Service.AddProduct s env "employee" p t).invoked = [.AddProduct p t] := by
    simp only [Service.AddProduct]
    cases (Pvz.AddProduct s env p t).err <;> simp
  have e4 : (Service.DeleteLastProduct s env "employee" p).invoked =
      [.DeleteLastProduct p] := by
    simp only [Service.DeleteLastProduct]
    cases (Pvz.DeleteLastProduct s env p).err <;> simp
  simp only [Service.CloseLastReception, Service.CreateReception, Service.AddProduct,
    Service.DeleteLastProduct, hr, if_true] at e1 e2 e3 e4 ⊢
  exact ⟨trivial, trivial, trivial, trivial, trivial, trivial, trivial, trivial, trivial,
    trivial, trivial, trivial, trivial, trivial, trivial, trivial, trivial, trivial, trivial,
    trivial, e1, e2, e3, e4⟩

/-- Witness of C13: role "moderator" on a store where pickup point 7 has an
open reception. -/
theorem ledger_role_gate_witness :
    (Service.CloseLastReception ⟨[], [⟨1, 10, 7, "in_progress"⟩], []⟩ (Env.ok 11 0)
        "moderator" 7).status = 403 ∧
      (Service.CloseLastReception ⟨[], [⟨1, 10, 7, "in_progress"⟩], []⟩ (Env.ok 11 0)
        "moderator" 7).invoked = [] ∧
      (Service.CloseLastReception ⟨[], [⟨1, 10, 7, "in_progress"⟩], []⟩ (Env.ok 11 0)
        "moderator" 7).store = ⟨[], [⟨1, 10, 7, "in_progress"⟩], []⟩ := by
  have h := ledger_role_gate ⟨[], [⟨1, 10, 7, "in_progress"⟩], []⟩ (Env.ok 11 0)
    "moderator" 7 "обувь" (by decide)
  exact ⟨h.2.1, h.2.2.2.1, h.2.2.2.2.1⟩

/-- C14: for every role other than "moderator" and every input record, whatever
its city, Service.CreatePVZ returns status 403 and the error "доступ запрещен",
calls no method of the database, leaves the store unchanged and leaves the
input record as it was. -/
theorem CreatePVZ_forbidden (s : Store) (env : Env) (pvz : PVZ) (role : String)
    (h : role ≠ "moderator") :
    (Service.CreatePVZ s env pvz role).status = 403 ∧
      (Service.CreatePVZ s env pvz role).err = some (Err.New "доступ запрещен") ∧
      (Service.CreatePVZ s env pvz role).invoked = [] ∧
      (Service.CreatePVZ s env pvz role).store = s ∧
      (Service.CreatePVZ s env pvz role).value = some pvz := by
  have hr : (role != "moderator") = true := by simpa using h
  simp [Service.CreatePVZ, hr]

/-- Witness of C14: role "employee" with the valid city "Москва". -/
theorem CreatePVZ_forbidden_witness :
    (Service.CreatePVZ ⟨[], [], []⟩ (Env.ok 10 1) ⟨0, 0, "Москва"⟩ "employee").status = 403 ∧
      (Service.CreatePVZ ⟨[], [], []⟩ (Env.ok 10 1) ⟨0, 0, "Москва"⟩ "employee").value =
        some ⟨0, 0, "Москва"⟩ := by
  have h := CreatePVZ_forbidden ⟨[], [], []⟩ (Env.ok 10 1) ⟨0, 0, "Москва"⟩ "employee"
    (by decide)
  exact ⟨h.1, h.2.2.2.2⟩

/-- C15: for role "moderator", Service.CreatePVZ calls the database (exactly
once, CreatePVZ with the registration date set to the current time) if and
only if the city is exactly "Москва", "Санкт-Петербург" or "Казань"; for every
other city it returns status 400 and the validation error
"ошибка ПВЗ можно создать только в Москве, Санкт-Петербурге или Казани <nil>",
persists nothing and leaves the input record as it was. -/
theorem CreatePVZ_city (s : Store) (env : Env) (pvz : PVZ) :
    ((Service.CreatePVZ s env pvz "moderator").invoked ≠ [] ↔
        (pvz.City = "Москва" ∨ pvz.City = "Санкт-Петербург" ∨ pvz.City = "Казань")) ∧
      ((pvz.City = "Москва" ∨ pvz.City = "Санкт-Петербург" ∨ pvz.City = "Казань") →
        (Service.CreatePVZ s env pvz "moderator").invoked =
          [.CreatePVZ ⟨pvz.ID, env.now, pvz.City⟩]) ∧
      (¬ (pvz.City = "Москва" ∨ pvz.City = "Санкт-Петербург" ∨ pvz.City = "Казань") →
        (Service.CreatePVZ s env pvz "moderator").status = 400 ∧
          (Service.CreatePVZ s env pvz "moderator").err =
            some (Err.New ("ошибка ПВЗ можно создать только" ++
              " в Москве, Санкт-Петербурге или Казани <nil>")) ∧
          (Service.CreatePVZ s env pvz "moderator").invoked = [] ∧
          (Service.CreatePVZ s env pvz "moderator").store = s ∧
          (Service.CreatePVZ s env pvz "moderator").value = some pvz) := by
  have happ : ("ошибка ПВЗ можно создать только" ++
      " в Москве, Санкт-Петербурге или Казани <nil>") =
      "ошибка ПВЗ можно создать только в Москве, Санкт-Петербурге или Казани <nil>" := by
    decide
  rw [happ]
  by_cases hc : pvz.City = "Москва" ∨ pvz.City = "Санкт-Петербург" ∨ pvz.City = "Казань"
  · have hb : (pvz.City != "Москва" && pvz.City != "Санкт-Петербург" &&
        pvz.City != "Казань") = false := by
      rcases hc with h | h | h <;> simp [h]
    simp only [Service.CreatePVZ, hb]
    cases (Pvz.CreatePVZ s env { pvz with RegistrationDate := env.now }).err <;> simp [hc]
  · have hb : (pvz.City != "Москва" && pvz.City != "Санкт-Петербург" &&
        pvz.City != "Казань") = true := by
      simp only [not_or] at hc
      simp [hc.1, hc.2.1, hc.2.2]
    simp [Service.CreatePVZ, hb, hc]

/-- Witness of C15: the city "Ростов" is refused, nothing is stored. -/
theorem CreatePVZ_city_witness :
    (Service.CreatePVZ ⟨[], [], []⟩ (Env.ok 10 1) ⟨0, 0, "Ростов"⟩ "moderator").status = 400 ∧
      (Service.CreatePVZ ⟨[], [], []⟩ (Env.ok 10 1) ⟨0, 0, "Ростов"⟩ "moderator").store =
        ⟨[], [], []⟩ := by
  have h := (CreatePVZ_city ⟨[], [], []⟩ (Env.ok 10 1) ⟨0, 0, "Ростов"⟩).2.2 (by decide)
  exact ⟨h.1, h.2.2.2.1⟩

/-! ## Paging of ListPVZ -/

theorem Atoi_empty : Atoi "" = none := by decide

theorem wrapInt_of_small (x : Int) (h0 : 0 ≤ x) (h1 : x < 2 ^ 63) : wrapInt x = x := by
  unfold wrapInt
  rw [Int.emod_eq_of_lt (by omega) (by omega)]
  omega

theorem limitOf_range (limitStr : String) : 1 ≤ limitOf limitStr ∧ limitOf limitStr ≤ 30 := by
  unfold limitOf
  split
  · split
    · split
      · assumption
      · decide
    · decide
  · decide

theorem pageOf_pos (pageStr : String) : 1 ≤ pageOf pageStr := by
  unfold pageOf
  split
  · split
    · split
      · assumption
      · decide
    · decide
  · decide

theorem productsLoop_calls (db : Database) (recs : List Reception)
    (infos : List ReceptionInfo) (calls : List DbCall) :
    ∃ more, (productsLoop db recs infos calls).2 = calls ++ more := by
  induction recs generalizing infos calls with
  | nil => exact ⟨[], by simp [productsLoop]⟩
  | cons r recs ih =>
    simp only [productsLoop]
    cases db.GetProductsByReception r.ID with
    | error e => exact ⟨_, rfl⟩
    | ok products =>
      obtain ⟨more, hm⟩ := ih (infos ++ [⟨r, products⟩]) (calls ++ [.GetProductsByReception r.ID])
      exact ⟨.GetProductsByReception r.ID :: more, by simp [hm]⟩

theorem pvzLoop_calls (db : Database) (sd ed : Option Time) (pvzs : List PVZ)
    (results : List PVZResponse) (calls : List DbCall) :
    ∃ more, (pvzLoop db sd ed pvzs results calls).invoked = calls ++ more := by
  induction pvzs generalizing results calls with
  | nil => exact ⟨[], by simp [pvzLoop]⟩
  | cons pvz pvzs ih =>
    simp only [pvzLoop]
    cases db.GetReceptionsByPVZ pvz.ID sd ed with
    | error e => exact ⟨_, rfl⟩
    | ok recs =>
      simp only []
      obtain ⟨m1, h1⟩ := productsLoop_calls db recs [] (calls ++ [.GetReceptionsByPVZ pvz.ID sd ed])
      cases hp : productsLoop db recs [] (calls ++ [.GetReceptionsByPVZ pvz.ID sd ed]) with
      | mk infos calls2 =>
        rw [hp] at h1
        simp only [] at h1
        cases infos with
        | none => exact ⟨_, by simp only []; rw [h1, List.append_assoc]⟩
        | some recInfos =>
          simp only []
          obtain ⟨m2, h2⟩ := ih (results ++ [⟨pvz, recInfos⟩]) calls2
          exact ⟨_, by rw [h2, h1, List.append_assoc, List.append_assoc]⟩

/-- C16, as amended: for every pageStr and limitStr, the first call
Service.ListPVZ makes on the database is GetPVZs with limit L and offset
(p − 1) · L computed in Go int arithmetic, that is, wrapped into the 64-bit
range (equal to the mathematical product whenever that is below 2^63), where p
is the value of pageStr if Atoi parses it to an integer ≥ 1 and
1 otherwise (empty, not a number, zero, negative), and L is the value of
limitStr if Atoi parses it to an integer in 1..30 and 10 otherwise; so L is
always in 1..30.  Page "2" with limit "5" gives limit 5 and offset 5. -/
theorem ListPVZ_paging (db : Database) (parse : String → Option Time)
    (startDateStr endDateStr pageStr limitStr : String) :
    (Service.ListPVZ db parse startDateStr endDateStr pageStr limitStr).invoked.head? =
        some (.GetPVZs (limitOf limitStr)
          (wrapInt ((pageOf pageStr - 1) * limitOf limitStr))) ∧
      (1 ≤ limitOf limitStr ∧ limitOf limitStr ≤ 30) ∧
      ((pageOf pageStr - 1) * limitOf limitStr < 2 ^ 63 →
        wrapInt ((pageOf pageStr - 1) * limitOf limitStr) =
          (pageOf pageStr - 1) * limitOf limitStr) ∧
      (∀ v, Atoi pageStr = some v → 1 ≤ v → pageOf pageStr = v) ∧
      (∀ v, Atoi pageStr = some v → v < 1 → pageOf pageStr = 1) ∧
      (Atoi pageStr = none → pageOf pageStr = 1) ∧
      (∀ v, Atoi limitStr = some v → 1 ≤ v → v ≤ 30 → limitOf limitStr = v) ∧
      (∀ v, Atoi limitStr = some v → (v < 1 ∨ 30 < v) → limitOf limitStr = 10) ∧
      (Atoi limitStr = none → limitOf limitStr = 10) ∧
      (pageOf "" = 1 ∧ pageOf "abc" = 1 ∧ pageOf "0" = 1 ∧ pageOf "-4" = 1 ∧
        limitOf "" = 10 ∧ limitOf "abc" = 10 ∧ limitOf "0" = 10 ∧ limitOf "31" = 10) ∧
      (pageOf "2" = 2 ∧ limitOf "5" = 5 ∧ wrapInt ((pageOf "2" - 1) * limitOf "5") = 5) := by
  refine ⟨?_, limitOf_range limitStr, ?_, ?_, ?_, ?_, ?_, ?_, ?_, by decide, by decide⟩
  · unfold Service.ListPVZ
    split
    · rfl
    · rename_i pvzs _
      obtain ⟨more, hm⟩ := pvzLoop_calls db (dateOf parse startDateStr)
        (dateOf parse endDateStr) pvzs []
        [.GetPVZs (limitOf limitStr) (wrapInt ((pageOf pageStr - 1) * limitOf limitStr))]
      rw [hm]
      rfl
  · intro h
    have h1 := pageOf_pos pageStr
    have h2 := limitOf_range limitStr
    exact wrapInt_of_small _ (Int.mul_nonneg (by omega) (by omega)) h
  · intro v hv h1
    have hne : (pageStr != "") = true := by
      cases hb : (pageStr != "") with
      | true => rfl
      | false =>
        have : pageStr = "" := by simpa using hb
        rw [this, Atoi_empty] at hv
        exact absurd hv (by simp)
    simp [pageOf, hne, hv, h1]
  · intro v hv h1
    have h2 : ¬ v ≥ 1 := by omega
    simp only [pageOf, hv, h2]
    split <;> rfl
  · intro hv
    simp only [pageOf, hv]
    split <;> rfl
  · intro v hv h1 h2
    have hne : (limitStr != "") = true := by
      cases hb : (limitStr != "") with
      | true => rfl
      | false =>
        have : limitStr = "" := by simpa using hb
        rw [this, Atoi_empty] at hv
        exact absurd hv (by simp)
    simp [limitOf, hne, hv, h1, h2]
  · intro v hv h1
    have h2 : ¬ (v ≥ 1 ∧ v ≤ 30) := by omega
    simp only [limitOf, hv, h2]
    split <;> rfl
  · intro hv
    simp only [limitOf, hv]
    split <;> rfl

/-- Counterexample to C16 as stated: pageStr "9223372036854775807" parses to
the integer 2^63 − 1, which is ≥ 1, and limitStr "30" to 30, so p = 2^63 − 1,
L = 30 and (p − 1) · L = 276701161105643274180; the call Service.ListPVZ makes,
on a database whose reads return nothing, is GetPVZs with limit 30 and offset
−60, not that product. -/
theorem ListPVZ_paging_counterexample :
    Atoi "9223372036854775807" = some 9223372036854775807 ∧ Atoi "30" = some 30 ∧
      pageOf "9223372036854775807" = 9223372036854775807 ∧ limitOf "30" = 30 ∧
      (pageOf "9223372036854775807" - 1) * limitOf "30" = 276701161105643274180 ∧
      (Service.ListPVZ ⟨fun _ _ => .ok [], fun _ _ _ => .ok [], fun _ => .ok []⟩
          (fun _ => none) "" "" "9223372036854775807" "30").invoked =
        [.GetPVZs 30 (-60)] ∧
      (Service.ListPVZ ⟨fun _ _ => .ok [], fun _ _ _ => .ok [], fun _ => .ok []⟩
          (fun _ => none) "" "" "9223372036854775807" "30").invoked.head? ≠
        some (.GetPVZs (limitOf "30")
          ((pageOf "9223372036854775807" - 1) * limitOf "30")) := by
  decide

/-! ## Assembling the report -/

theorem productsLoop_infos (db : Database) (recs : List Reception)
    (infos : List ReceptionInfo) (calls : List DbCall) :
    (productsLoop db recs infos calls).1 = (infosOf db recs).map (fun l => infos ++ l) := by
  induction recs generalizing infos calls with
  | nil => simp [productsLoop, infosOf]
  | cons r recs ih =>
    simp only [productsLoop, infosOf]
    cases db.GetProductsByReception r.ID with
    | error e => rfl
    | ok products =>
      simp only []
      rw [ih]
      cases infosOf db recs <;> simp

theorem pvzLoop_spec (db : Database) (sd ed : Option Time) (pvzs : List PVZ)
    (results : List PVZResponse) (calls : List DbCall) :
    ∃ done rest, pvzs = done ++ rest ∧
      (pvzLoop db sd ed pvzs results calls).results.map some =
        results.map some ++ done.map (entryOf db sd ed) ∧
      ((rest = [] ∧ (pvzLoop db sd ed pvzs results calls).status = 200 ∧
          (pvzLoop db sd ed pvzs results calls).err = none) ∨
        (∃ failing tail, rest = failing :: tail ∧ entryOf db sd ed failing = none ∧
          (pvzLoop db sd ed pvzs results calls).status = 500 ∧
          ((pvzLoop db sd ed pvzs results calls).err = some (Err.New "ошибка выборки приёмок") ∨
            (pvzLoop db sd ed pvzs results calls).err =
              some (Err.New "ошибка выборки товаров")))) := by
  induction pvzs generalizing results calls with
  | nil => exact ⟨[], [], rfl, by simp [pvzLoop], Or.inl ⟨rfl, rfl, rfl⟩⟩
  | cons pvz pvzs ih =>
    cases hr : db.GetReceptionsByPVZ pvz.ID sd ed with
    | error e =>
      refine ⟨[], pvz :: pvzs, rfl, by simp [pvzLoop, hr], Or.inr ⟨pvz, pvzs, rfl, ?_, ?_, ?_⟩⟩
      · simp [entryOf, hr]
      · simp [pvzLoop, hr]
      · left; simp [pvzLoop, hr]
    | ok recs =>
      have hinfo := productsLoop_infos db recs [] (calls ++ [.GetReceptionsByPVZ pvz.ID sd ed])
      cases hp : productsLoop db recs [] (calls ++ [.GetReceptionsByPVZ pvz.ID sd ed]) with
      | mk infos calls2 =>
        rw [hp] at hinfo
        simp only [List.nil_append, Option.map_id'] at hinfo
        cases infos with
        | none =>
          refine ⟨[], pvz :: pvzs, rfl, by simp [pvzLoop, hr, hp],
            Or.inr ⟨pvz, pvzs, rfl, ?_, ?_, ?_⟩⟩
          · simp [entryOf, hr, ← hinfo]
          · simp [pvzLoop, hr, hp]
          · right; simp [pvzLoop, hr, hp]
        | some recInfos =>
          obtain ⟨done, rest, h1, h2, h3⟩ := ih (results ++ [⟨pvz, recInfos⟩]) calls2
          have hloop : pvzLoop db sd ed (pvz :: pvzs) results calls =
              pvzLoop db sd ed pvzs (results ++ [⟨pvz, recInfos⟩]) calls2 := by
            simp [pvzLoop, hr, hp]
          have hentry : entryOf db sd ed pvz = some ⟨pvz, recInfos⟩ := by
            simp [entryOf, hr, ← hinfo]
          refine ⟨pvz :: done, rest, by simp [h1], ?_, ?_⟩
          · rw [hloop, h2]
            simp [hentry]
          · rw [hloop]
            exact h3

/-- C17, as amended: when GetPVZs fails, Service.ListPVZ returns status 400,
the error "ошибка выборки ПВЗ" and an empty list.  When GetPVZs succeeds, the
pickup points it returned split into those done and the rest; the returned
list holds exactly the complete entries of the pickup points done, in order;
either nothing is left and the status is 200 without error, or the first
pickup point left is one for which a read fails, the status is 500 and the
error is "ошибка выборки приёмок" or "ошибка выборки товаров": the list is then
the complete entries of the pickup points before the failing one, and empty
when the failing one is the first. -/
theorem ListPVZ_failure (db : Database) (parse : String → Option Time)
    (startDateStr endDateStr pageStr limitStr : String) :
    ((∃ e, db.GetPVZs (limitOf limitStr)
          (wrapInt ((pageOf pageStr - 1) * limitOf limitStr)) = .error e) →
        (Service.ListPVZ db parse startDateStr endDateStr pageStr limitStr).results = [] ∧
        (Service.ListPVZ db parse startDateStr endDateStr pageStr limitStr).status = 400 ∧
        (Service.ListPVZ db parse startDateStr endDateStr pageStr limitStr).err =
          some (Err.New "ошибка выборки ПВЗ")) ∧
      (∀ pvzs, db.GetPVZs (limitOf limitStr)
          (wrapInt ((pageOf pageStr - 1) * limitOf limitStr)) = .ok pvzs →
        ∃ done rest, pvzs = done ++ rest ∧
          (Service.ListPVZ db parse startDateStr endDateStr pageStr limitStr).results.map some =
            done.map (entryOf db (dateOf parse startDateStr) (dateOf parse endDateStr)) ∧
          ((rest = [] ∧
              (Service.ListPVZ db parse startDateStr endDateStr pageStr limitStr).status = 200 ∧
              (Service.ListPVZ db parse startDateStr endDateStr pageStr limitStr).err = none) ∨
            (∃ failing tail, rest = failing :: tail ∧
              entryOf db (dateOf parse startDateStr) (dateOf parse endDateStr) failing = none ∧
              (Service.ListPVZ db parse startDateStr endDateStr pageStr limitStr).status = 500 ∧
              ((Service.ListPVZ db parse startDateStr endDateStr pageStr limitStr).err =
                  some (Err.New "ошибка выборки приёмок") ∨
                (Service.ListPVZ db parse startDateStr endDateStr pageStr limitStr).err =
                  some (Err.New "ошибка выборки товаров"))))) := by
  refine ⟨?_, ?_⟩
  · rintro ⟨e, he⟩
    simp [Service.ListPVZ, he]
  · intro pvzs hp
    obtain ⟨done, rest, h1, h2, h3⟩ := pvzLoop_spec db (dateOf parse startDateStr)
      (dateOf parse endDateStr) pvzs []
      [.GetPVZs (limitOf limitStr) (wrapInt ((pageOf pageStr - 1) * limitOf limitStr))]
    have hl : Service.ListPVZ db parse startDateStr endDateStr pageStr limitStr =
        pvzLoop db (dateOf parse startDateStr) (dateOf parse endDateStr) pvzs []
          [.GetPVZs (limitOf limitStr) (wrapInt ((pageOf pageStr - 1) * limitOf limitStr))] := by
      simp [Service.ListPVZ, hp]
    rw [hl]
    exact ⟨done, rest, h1, by simpa using h2, h3⟩

/-- Witness of C17 as amended: GetPVZs itself fails. -/
theorem ListPVZ_failure_witness :
    (Service.ListPVZ
        ⟨fun _ _ => .error (Err.New "db get error"), fun _ _ _ => .ok [], fun _ => .ok []⟩
        (fun _ => none) "" "" "1" "10").results = [] ∧
      (Service.ListPVZ
        ⟨fun _ _ => .error (Err.New "db get error"), fun _ _ _ => .ok [], fun _ => .ok []⟩
        (fun _ => none) "" "" "1" "10").status = 400 :=
  ⟨((ListPVZ_failure
      ⟨fun _ _ => .error (Err.New "db get error"), fun _ _ _ => .ok [], fun _ => .ok []⟩
      (fun _ => none) "" "" "1" "10").1 ⟨_, rfl⟩).1,
    ((ListPVZ_failure
      ⟨fun _ _ => .error (Err.New "db get error"), fun _ _ _ => .ok [], fun _ => .ok []⟩
      (fun _ => none) "" "" "1" "10").1 ⟨_, rfl⟩).2.1⟩

/-- Counterexample to C17 as stated: GetPVZs returns two pickup points, the
reads for the first succeed and GetReceptionsByPVZ fails for the second;
ListPVZ returns the error together with a list that is not empty: it holds
the entry of the first pickup point. -/
theorem ListPVZ_partial_counterexample :
    Service.ListPVZ
        ⟨fun _ _ => .ok [⟨1, 20, "Москва"⟩, ⟨2, 10, "Казань"⟩],
          fun pvzId _ _ =>
            if pvzId = 1 then .ok [⟨5, 21, 1, "close"⟩] else .error (Err.New "db receptions error"),
          fun _ => .ok [⟨9, 22, "обувь", 5⟩]⟩
        (fun _ => none) "" "" "1" "10" =
      ⟨[⟨⟨1, 20, "Москва"⟩, [⟨⟨5, 21, 1, "close"⟩, [⟨9, 22, "обувь", 5⟩]⟩]⟩], 500,
        some (Err.New "ошибка выборки приёмок"),
        [.GetPVZs 10 0, .GetReceptionsByPVZ 1 none none, .GetProductsByReception 5,
          .GetReceptionsByPVZ 2 none none]⟩ := by
  decide

theorem infosOf_ok (db : Database) (recs : List Reception) (prods : UUID → List Product)
    (h : ∀ r ∈ recs, db.GetProductsByReception r.ID = .ok (prods r.ID)) :
    infosOf db recs = some (recs.map (fun r => ⟨r, prods r.ID⟩)) := by
  induction recs with
  | nil => rfl
  | cons r recs ih =>
    simp only [infosOf, h r (List.mem_cons_self _ _),
      ih (fun x hx => h x (List.mem_cons_of_mem _ hx))]
    rfl

/-- C19: when all reads succeed (GetPVZs returns pvzs, GetReceptionsByPVZ
returns recs id for each pickup point id of pvzs, GetProductsByReception
returns prods id for each reception id met), Service.ListPVZ returns status
200, no error and exactly one entry per pickup point of pvzs, in the same
order; entry i holds the i-th pickup point itself and exactly one
ReceptionInfo per reception returned for it, in order, each holding that
reception itself and the products returned for its id. -/
theorem ListPVZ_report (db : Database) (parse : String → Option Time)
    (startDateStr endDateStr pageStr limitStr : String) (pvzs : List PVZ)
    (recs : UUID → List Reception) (prods : UUID → List Product)
    (h1 : db.GetPVZs (limitOf limitStr)
      (wrapInt ((pageOf pageStr - 1) * limitOf limitStr)) = .ok pvzs)
    (h2 : ∀ pvz ∈ pvzs, db.GetReceptionsByPVZ pvz.ID (dateOf parse startDateStr)
      (dateOf parse endDateStr) = .ok (recs pvz.ID))
    (h3 : ∀ pvz ∈ pvzs, ∀ r ∈ recs pvz.ID,
      db.GetProductsByReception r.ID = .ok (prods r.ID)) :
    (Service.ListPVZ db parse startDateStr endDateStr pageStr limitStr).status = 200 ∧
      (Service.ListPVZ db parse startDateStr endDateStr pageStr limitStr).err = none ∧
      (Service.ListPVZ db parse startDateStr endDateStr pageStr limitStr).results =
        pvzs.map (fun pvz => ⟨pvz, (recs pvz.ID).map (fun r => ⟨r, prods r.ID⟩)⟩) := by
  have hentry : ∀ pvz ∈ pvzs,
      entryOf db (dateOf parse startDateStr) (dateOf parse endDateStr) pvz =
        some ⟨pvz, (recs pvz.ID).map (fun r => ⟨r, prods r.ID⟩)⟩ := by
    intro pvz hpvz
    simp [entryOf, h2 pvz hpvz, infosOf_ok db (recs pvz.ID) prods (h3 pvz hpvz)]
  obtain ⟨done, rest, hsplit, hres, hcase⟩ := pvzLoop_spec db (dateOf parse startDateStr)
    (dateOf parse endDateStr) pvzs []
    [.GetPVZs (limitOf limitStr) (wrapInt ((pageOf pageStr - 1) * limitOf limitStr))]
  have hl : Service.ListPVZ db parse startDateStr endDateStr pageStr limitStr =
      pvzLoop db (dateOf parse startDateStr) (dateOf parse endDateStr) pvzs []
        [.GetPVZs (limitOf limitStr) (wrapInt ((pageOf pageStr - 1) * limitOf limitStr))] := by
    simp [Service.ListPVZ, h1]
  rw [hl]
  rcases hcase with ⟨hrest, hst, herr⟩ | ⟨failing, tail, hrest, hnone, _, _⟩
  · refine ⟨hst, herr, ?_⟩
    rw [hrest, List.append_nil] at hsplit
    subst hsplit
    have hmap : pvzs.map (entryOf db (dateOf parse startDateStr) (dateOf parse endDateStr)) =
        (pvzs.map (fun pvz =>
          (⟨pvz, (recs pvz.ID).map (fun r => ⟨r, prods r.ID⟩)⟩ : PVZResponse))).map some := by
      rw [List.map_map]
      exact List.map_congr_left hentry
    rw [hmap] at hres
    simp only [List.map_nil, List.nil_append] at hres
    exact List.map_injective_iff.2 (Option.some_injective _) hres
  · have hmem : failing ∈ pvzs := by rw [hsplit, hrest]; simp
    rw [hentry failing hmem] at hnone
    exact absurd hnone (by simp)

/-- Witness of C19: two pickup points, the first with two receptions, the
report keeps each pickup point and each reception with its own values. -/
theorem ListPVZ_report_witness :
    (Service.ListPVZ
        ⟨fun _ _ => .ok [⟨1, 20, "Москва"⟩, ⟨2, 10, "Казань"⟩],
          fun pvzId _ _ =>
            if pvzId = 1 then .ok [⟨5, 21, 1, "close"⟩, ⟨6, 22, 1, "in_progress"⟩] else .ok [],
          fun rid => if rid = 5 then .ok [⟨9, 22, "обувь", 5⟩] else .ok []⟩
        (fun _ => none) "" "" "" "").results =
      [⟨⟨1, 20, "Москва"⟩,
          [⟨⟨5, 21, 1, "close"⟩, [⟨9, 22, "обувь", 5⟩]⟩, ⟨⟨6, 22, 1, "in_progress"⟩, []⟩]⟩,
        ⟨⟨2, 10, "Казань"⟩, []⟩] :=
  (ListPVZ_report
    ⟨fun _ _ => .ok [⟨1, 20, "Москва"⟩, ⟨2, 10, "Казань"⟩],
      fun pvzId _ _ =>
        if pvzId = 1 then .ok [⟨5, 21, 1, "close"⟩, ⟨6, 22, 1, "in_progress"⟩] else .ok [],
      fun rid => if rid = 5 then .ok [⟨9, 22, "обувь", 5⟩] else .ok []⟩
    (fun _ => none) "" "" "" "" [⟨1, 20, "Москва"⟩, ⟨2, 10, "Казань"⟩]
    (fun pvzId => if pvzId = 1 then [⟨5, 21, 1, "close"⟩, ⟨6, 22, 1, "in_progress"⟩] else [])
    (fun rid => if rid = 5 then [⟨9, 22, "обувь", 5⟩] else [])
    rfl
    (by
      intro pvz h
      simp only [List.mem_cons, List.mem_singleton, List.not_mem_nil, or_false] at h
      rcases h with rfl | rfl <;> rfl)
    (by
      intro pvz h r hr
      simp only [List.mem_cons, List.mem_singleton, List.not_mem_nil, or_false] at h
      rcases h with rfl | rfl
      · simp only [if_true, List.mem_cons, List.mem_singleton, List.not_mem_nil,
          or_false] at hr
        rcases hr with rfl | rfl <;> rfl
      · simp at hr)).2.2

/-! ## Date window and order of the report -/

theorem orderReceptions_sorted (l : List Reception) :
    (orderReceptions l).Pairwise (fun x y => y.DateTime ≤ x.DateTime) := by
  haveI : IsTotal Reception (fun x y => y.DateTime ≤ x.DateTime) := ⟨fun a b => le_total _ _⟩
  haveI : IsTrans Reception (fun x y => y.DateTime ≤ x.DateTime) :=
    ⟨fun a b c h1 h2 => le_trans h2 h1⟩
  exact List.sorted_insertionSort (fun x y : Reception => y.DateTime ≤ x.DateTime) l

theorem orderProducts_sorted (l : List Product) :
    (orderProducts l).Pairwise (fun x y => x.DateTime ≤ y.DateTime) := by
  haveI : IsTotal Product (fun x y => x.DateTime ≤ y.DateTime) := ⟨fun a b => le_total _ _⟩
  haveI : IsTrans Product (fun x y => x.DateTime ≤ y.DateTime) :=
    ⟨fun a b c h1 h2 => le_trans h1 h2⟩
  exact List.sorted_insertionSort (fun x y : Product => x.DateTime ≤ y.DateTime) l

theorem mem_orderReceptions (l : List Reception) (x : Reception) :
    x ∈ orderReceptions l ↔ x ∈ l := by
  unfold orderReceptions
  exact List.mem_insertionSort _

theorem mem_orderProducts (l : List Product) (x : Product) :
    x ∈ orderProducts l ↔ x ∈ l := by
  unfold orderProducts
  exact List.mem_insertionSort _

theorem entryOf_pgx (s : Store) (sd ed : Option Time) (pvz : PVZ) :
    entryOf (pgxReads s (fun _ => none)) sd ed pvz =
      some ⟨pvz,
        (orderReceptions (s.receptions.filter
          (fun r => r.PVZId == pvz.ID && inWindow sd ed r.DateTime))).map
          (fun r => ⟨r, orderProducts (productsOf s r.ID)⟩)⟩ := by
  have h := infosOf_ok (pgxReads s (fun _ => none))
    (orderReceptions (s.receptions.filter
      (fun r => r.PVZId == pvz.ID && inWindow sd ed r.DateTime)))
    (fun id => orderProducts (productsOf s id)) (fun r _ => rfl)
  simp only [entryOf, pgxReads, GetReceptionsByPVZ] at h ⊢
  rw [h]
  rfl

theorem inWindow_iff (sd ed : Option Time) (t : Time) :
    inWindow sd ed t = true ↔
      (∀ a, sd = some a → a ≤ t) ∧ (∀ b, ed = some b → t ≤ b) := by
  cases sd <;> cases ed <;> simp [inWindow]

theorem ListPVZ_entries (db : Database) (parse : String → Option Time)
    (startDateStr endDateStr pageStr limitStr : String) :
    ∀ e ∈ (Service.ListPVZ db parse startDateStr endDateStr pageStr limitStr).results,
      ∃ pvz, entryOf db (dateOf parse startDateStr) (dateOf parse endDateStr) pvz = some e := by
  intro e he
  cases hp : db.GetPVZs (limitOf limitStr)
      (wrapInt ((pageOf pageStr - 1) * limitOf limitStr)) with
  | error err => simp [Service.ListPVZ, hp] at he
  | ok pvzs =>
    obtain ⟨done, rest, _, h2, _⟩ := pvzLoop_spec db (dateOf parse startDateStr)
      (dateOf parse endDateStr) pvzs []
      [.GetPVZs (limitOf limitStr) (wrapInt ((pageOf pageStr - 1) * limitOf limitStr))]
    have hl : Service.ListPVZ db parse startDateStr endDateStr pageStr limitStr =
        pvzLoop db (dateOf parse startDateStr) (dateOf parse endDateStr) pvzs []
          [.GetPVZs (limitOf limitStr) (wrapInt ((pageOf pageStr - 1) * limitOf limitStr))] := by
      simp [Service.ListPVZ, hp]
    rw [hl] at he
    have hmem : some e ∈ (pvzLoop db (dateOf parse startDateStr) (dateOf parse endDateStr)
        pvzs [] [.GetPVZs (limitOf limitStr)
          (wrapInt ((pageOf pageStr - 1) * limitOf limitStr))]).results.map some :=
      List.mem_map_of_mem _ he
    rw [h2] at hmem
    simp only [List.map_nil, List.nil_append, List.mem_map] at hmem
    obtain ⟨pvz, _, hpvz⟩ := hmem
    exact ⟨pvz, hpvz⟩

/-- C18: in the report ListPVZ assembles from the store (no read failing), for
every entry: each reception listed is a stored reception of the entry's pickup
point whose date_time is at or after the start of the window, when a start
date is given and parsed, and at or before its end, when an end date is given
and parsed (both bounds inclusive); its products are exactly the stored
products of that reception, ordered by date_time ascending; every stored
reception of the pickup point inside the window is listed; and the receptions
of the entry are ordered by date_time descending. -/
theorem report_window (s : Store) (parse : String → Option Time)
    (startDateStr endDateStr pageStr limitStr : String) :
    ∀ e ∈ (Service.ListPVZ (pgxReads s (fun _ => none)) parse startDateStr endDateStr
        pageStr limitStr).results,
      (∀ info ∈ e.Receptions,
        info.Reception ∈ s.receptions ∧ info.Reception.PVZId = e.PVZ.ID ∧
        (∀ a, dateOf parse startDateStr = some a → a ≤ info.Reception.DateTime) ∧
        (∀ b, dateOf parse endDateStr = some b → info.Reception.DateTime ≤ b) ∧
        info.Products.Pairwise (fun x y => x.DateTime ≤ y.DateTime) ∧
        (∀ q, q ∈ info.Products ↔ q ∈ s.products ∧ q.ReceptionId = info.Reception.ID)) ∧
      (∀ r ∈ s.receptions, r.PVZId = e.PVZ.ID →
        (∀ a, dateOf parse startDateStr = some a → a ≤ r.DateTime) →
        (∀ b, dateOf parse endDateStr = some b → r.DateTime ≤ b) →
        ∃ info ∈ e.Receptions, info.Reception = r) ∧
      (e.Receptions.map (fun info => info.Reception)).Pairwise
        (fun x y => y.DateTime ≤ x.DateTime) := by
  intro e he
  obtain ⟨pvz, hpvz⟩ := ListPVZ_entries _ parse startDateStr endDateStr pageStr limitStr e he
  rw [entryOf_pgx] at hpvz
  simp only [Option.some.injEq] at hpvz
  subst hpvz
  refine ⟨?_, ?_, ?_⟩
  · intro info hinfo
    simp only [List.mem_map] at hinfo
    obtain ⟨r, hr, rfl⟩ := hinfo
    rw [mem_orderReceptions, List.mem_filter] at hr
    obtain ⟨hmem, hcond⟩ := hr
    simp only [Bool.and_eq_true, beq_iff_eq] at hcond
    obtain ⟨hw1, hw2⟩ := (inWindow_iff _ _ _).1 hcond.2
    refine ⟨hmem, hcond.1, hw1, hw2, orderProducts_sorted _, ?_⟩
    intro q
    rw [mem_orderProducts]
    simp [productsOf]
  · intro r hr hp hw1 hw2
    refine ⟨⟨r, orderProducts (productsOf s r.ID)⟩, ?_, rfl⟩
    simp only [List.mem_map]
    refine ⟨r, ?_, rfl⟩
    rw [mem_orderReceptions, List.mem_filter]
    refine ⟨hr, ?_⟩
    simp only [Bool.and_eq_true, beq_iff_eq]
    exact ⟨hp, (inWindow_iff _ _ _).2 ⟨hw1, hw2⟩⟩
  · simp only [List.map_map]
    have : ((fun info : ReceptionInfo => info.Reception) ∘
        fun r => (⟨r, orderProducts (productsOf s r.ID)⟩ : ReceptionInfo)) = id := rfl
    rw [this, List.map_id]
    exact orderReceptions_sorted _

/-- Witness of C18: window from 15 to 30 on pickup point 7 with receptions at
10, 20 and 30; the reception at 30, on the end bound, is listed. -/
theorem report_window_witness :
    ∃ info ∈ [(⟨⟨3, 30, 7, "in_progress"⟩, []⟩ : ReceptionInfo),
        ⟨⟨2, 20, 7, "close"⟩, [⟨5, 21, "обувь", 2⟩]⟩],
      info.Reception = ⟨3, 30, 7, "in_progress"⟩ :=
  (report_window
    ⟨[⟨7, 1, "Москва"⟩],
      [⟨1, 10, 7, "close"⟩, ⟨2, 20, 7, "close"⟩, ⟨3, 30, 7, "in_progress"⟩],
      [⟨5, 21, "обувь", 2⟩]⟩
    (fun str => if str = "15" then some 15 else if str = "30" then some 30 else none)
    "15" "30" "" ""
    ⟨⟨7, 1, "Москва"⟩,
      [⟨⟨3, 30, 7, "in_progress"⟩, []⟩, ⟨⟨2, 20, 7, "close"⟩, [⟨5, 21, "обувь", 2⟩]⟩]⟩
    (by decide)).2.1 ⟨3, 30, 7, "in_progress"⟩ (by decide) rfl
    (by
      intro a h
      have h15 : dateOf
          (fun str => if str = "15" then some 15 else if str = "30" then some 30 else none)
          "15" = some 15 := by decide
      rw [h15] at h
      cases h
      decide)
    (by
      intro b h
      have h30 : dateOf
          (fun str => if str = "15" then some 15 else if str = "30" then some 30 else none)
          "30" = some 30 := by decide
      rw [h30] at h
      cases h
      decide)

/-! ## The end-to-end scenario -/

theorem Service_AddProduct_ok (s : Store) (env : Env) (p : UUID) (t : String) (r : Reception)
    (hok : ∀ c, env.fail c = none) (hl : lastOpenReception s p = some r) :
    (Service.AddProduct s env "employee" p t).status = 200 ∧
      (Service.AddProduct s env "employee" p t).err = none ∧
      (Service.AddProduct s env "employee" p t).store =
        { s with products := s.products ++ [⟨env.newId, env.now, t, r.ID⟩] } := by
  simp [Service.AddProduct, AddProduct_ok s env p t r hok hl]

theorem addProducts_ok (p : UUID) (t : String) (r : Reception) (envs : List Env) (s : Store)
    (hl : lastOpenReception s p = some r)
    (hok : ∀ e ∈ envs, ∀ c, e.fail c = none) :
    (addProducts "employee" p t s envs).2 =
        { s with products := s.products ++ envs.map (fun e => ⟨e.newId, e.now, t, r.ID⟩) } ∧
      (addProducts "employee" p t s envs).1.length = envs.length ∧
      ∀ resp ∈ (addProducts "employee" p t s envs).1, resp.status = 200 ∧ resp.err = none := by
  induction envs generalizing s with
  | nil => simp [addProducts]
  | cons e es ih =>
    obtain ⟨h1, h2, h3⟩ := Service_AddProduct_ok s e p t r (hok e (List.mem_cons_self _ _)) hl
    have hl2 : lastOpenReception (Service.AddProduct s e "employee" p t).store p = some r := by
      rw [← hl]
      apply lastOpenReception_congr
      rw [h3]
    obtain ⟨i1, i2, i3⟩ := ih (Service.AddProduct s e "employee" p t).store hl2
      (fun x hx => hok x (List.mem_cons_of_mem _ hx))
    simp only [addProducts]
    refine ⟨?_, ?_, ?_⟩
    · rw [i1, h3]
      simp
    · simp [i2]
    · intro resp hresp
      rcases List.mem_cons.1 hresp with rfl | hresp
      · exact ⟨h1, h2⟩
      · exact i3 resp hresp

/-- C20, as amended: on the empty store, with no call on the store failing,
creating a pickup point in "Москва" as moderator, opening a reception for it
as employee, adding 50 products of type "электроника" and closing the
reception all succeed with status 200; the closed reception has status
"close" and owns exactly the 50 products added, in insertion order; and,
provided the clock readings of the 50 AddProduct calls are strictly
increasing, the report lists that pickup point with that reception and its 50
products in insertion order. -/
theorem fullFlow_increasing_clock (envPVZ envOpen envClose : Env) (adds : List Env)
    (parse : String → Option Time)
    (hokP : ∀ c, envPVZ.fail c = none) (hokO : ∀ c, envOpen.fail c = none)
    (hokA : ∀ e ∈ adds, ∀ c, e.fail c = none) (hokC : ∀ c, envClose.fail c = none)
    (hlen : adds.length = 50)
    (htime : adds.Pairwise (fun a b => a.now < b.now)) :
    (fullFlow envPVZ envOpen adds envClose parse).created.status = 200 ∧
      (fullFlow envPVZ envOpen adds envClose parse).opened.status = 200 ∧
      (fullFlow envPVZ envOpen adds envClose parse).added.length = 50 ∧
      (∀ resp ∈ (fullFlow envPVZ envOpen adds envClose parse).added,
        resp.status = 200 ∧ resp.err = none) ∧
      (fullFlow envPVZ envOpen adds envClose parse).closed.status = 200 ∧
      (fullFlow envPVZ envOpen adds envClose parse).closed.value =
        some ⟨envOpen.newId, envOpen.now, envPVZ.newId, "close"⟩ ∧
      (fullFlow envPVZ envOpen adds envClose parse).closed.store.receptions =
        [⟨envOpen.newId, envOpen.now, envPVZ.newId, "close"⟩] ∧
      productsOf (fullFlow envPVZ envOpen adds envClose parse).closed.store envOpen.newId =
        adds.map (fun e => ⟨e.newId, e.now, "электроника", envOpen.newId⟩) ∧
      (productsOf (fullFlow envPVZ envOpen adds envClose parse).closed.store
        envOpen.newId).length = 50 ∧
      (fullFlow envPVZ envOpen adds envClose parse).report.status = 200 ∧
      (fullFlow envPVZ envOpen adds envClose parse).report.results =
        [⟨⟨envPVZ.newId, envPVZ.now, "Москва"⟩,
          [⟨⟨envOpen.newId, envOpen.now, envPVZ.newId, "close"⟩,
            adds.map (fun e => ⟨e.newId, e.now, "электроника", envOpen.newId⟩)⟩]⟩] := by
  have hc : Service.CreatePVZ ⟨[], [], []⟩ envPVZ ⟨0, 0, "Москва"⟩ "moderator" =
      ⟨some ⟨envPVZ.newId, envPVZ.now, "Москва"⟩, 200, none,
        ⟨[⟨envPVZ.newId, envPVZ.now, "Москва"⟩], [], []⟩,
        [.CreatePVZ ⟨0, envPVZ.now, "Москва"⟩]⟩ := by
    simp [Service.CreatePVZ, Pvz.CreatePVZ, hokP]
  have ho : Service.CreateReception ⟨[⟨envPVZ.newId, envPVZ.now, "Москва"⟩], [], []⟩ envOpen
      "employee" envPVZ.newId =
      ⟨some ⟨envOpen.newId, envOpen.now, envPVZ.newId, "in_progress"⟩, 200, none,
        ⟨[⟨envPVZ.newId, envPVZ.now, "Москва"⟩],
          [⟨envOpen.newId, envOpen.now, envPVZ.newId, "in_progress"⟩], []⟩,
        [.CreateReception envPVZ.newId]⟩ := by
    simp [Service.CreateReception, Pvz.CreateReception, scanRow, hokO, openCount]
  have hl : lastOpenReception ⟨[⟨envPVZ.newId, envPVZ.now, "Москва"⟩],
      [⟨envOpen.newId, envOpen.now, envPVZ.newId, "in_progress"⟩], []⟩ envPVZ.newId =
      some ⟨envOpen.newId, envOpen.now, envPVZ.newId, "in_progress"⟩ := by
    simp [lastOpenReception, isOpenFor, latestBy]
  obtain ⟨ha1, ha2, ha3⟩ := addProducts_ok envPVZ.newId "электроника" _ adds _ hl hokA
  have hcl : Service.CloseLastReception
      ⟨[⟨envPVZ.newId, envPVZ.now, "Москва"⟩],
        [⟨envOpen.newId, envOpen.now, envPVZ.newId, "in_progress"⟩],
        adds.map (fun e => ⟨e.newId, e.now, "электроника", envOpen.newId⟩)⟩ envClose
      "employee" envPVZ.newId =
      ⟨some ⟨envOpen.newId, envOpen.now, envPVZ.newId, "close"⟩, 200, none,
        ⟨[⟨envPVZ.newId, envPVZ.now, "Москва"⟩],
          [⟨envOpen.newId, envOpen.now, envPVZ.newId, "close"⟩],
          adds.map (fun e => ⟨e.newId, e.now, "электроника", envOpen.newId⟩)⟩,
        [.CloseLastReception envPVZ.newId]⟩ := by
    simp [Service.CloseLastReception, Pvz.CloseLastReception, scanRow, hokC,
      lastOpenReception, isOpenFor, latestBy, closeById]
  have hprods : productsOf
      ⟨[⟨envPVZ.newId, envPVZ.now, "Москва"⟩],
        [⟨envOpen.newId, envOpen.now, envPVZ.newId, "close"⟩],
        adds.map (fun e => ⟨e.newId, e.now, "электроника", envOpen.newId⟩)⟩ envOpen.newId =
      adds.map (fun e => ⟨e.newId, e.now, "электроника", envOpen.newId⟩) := by
    unfold productsOf
    rw [List.filter_eq_self]
    intro q hq
    obtain ⟨e, _, rfl⟩ := List.mem_map.1 hq
    simp
  have hsorted : orderProducts
      (adds.map (fun e => (⟨e.newId, e.now, "электроника", envOpen.newId⟩ : Product))) =
      adds.map (fun e => ⟨e.newId, e.now, "электроника", envOpen.newId⟩) := by
    apply List.Sorted.insertionSort_eq
    unfold List.Sorted
    rw [List.pairwise_map]
    exact htime.imp (fun h => le_of_lt h)
  have hlim : limitOf "" = 10 := by decide
  have hpage : pageOf "" = 1 := by decide
  have hd : dateOf parse "" = none := by simp [dateOf]
  have hrep : Service.ListPVZ (pgxReads
      ⟨[⟨envPVZ.newId, envPVZ.now, "Москва"⟩],
        [⟨envOpen.newId, envOpen.now, envPVZ.newId, "close"⟩],
        adds.map (fun e => ⟨e.newId, e.now, "электроника", envOpen.newId⟩)⟩
      (fun _ => none)) parse "" "" "" "" =
      ⟨[⟨⟨envPVZ.newId, envPVZ.now, "Москва"⟩,
          [⟨⟨envOpen.newId, envOpen.now, envPVZ.newId, "close"⟩,
            adds.map (fun e => ⟨e.newId, e.now, "электроника", envOpen.newId⟩)⟩]⟩], 200, none,
        [.GetPVZs 10 0, .GetReceptionsByPVZ envPVZ.newId none none,
          .GetProductsByReception envOpen.newId]⟩ := by
    simp [Service.ListPVZ, hlim, hpage, pgxReads, GetPVZs, wrapInt, orderPVZs, pvzLoop,
      GetReceptionsByPVZ, hd, inWindow, orderReceptions, productsLoop, GetProductsByReception,
      hprods, hsorted]
  simp only [fullFlow, hc, ho] at ha1 ha2 ha3 ⊢
  simp only [ha1, List.nil_append, hcl, hrep, hprods]
  refine ⟨trivial, trivial, ?_, ha3, trivial, trivial, trivial, trivial, ?_, trivial, trivial⟩
  · rw [ha2, hlen]
  · rw [List.length_map, hlen]

/-- Witness of C20 as amended: the products are added at times 10, 11, .., 59. -/
theorem fullFlow_increasing_clock_witness :
    (fullFlow (Env.ok 1 7) (Env.ok 2 1)
        ((List.range 50).map (fun (i : Nat) => Env.ok (10 + (i : Int)) (i + 1)))
        (Env.ok 100 0) (fun _ => none)).closed.value = some ⟨1, 2, 7, "close"⟩ ∧
      (productsOf (fullFlow (Env.ok 1 7) (Env.ok 2 1)
        ((List.range 50).map (fun (i : Nat) => Env.ok (10 + (i : Int)) (i + 1)))
        (Env.ok 100 0) (fun _ => none)).closed.store 1).length = 50 := by
  have h := fullFlow_increasing_clock (Env.ok 1 7) (Env.ok 2 1) (Env.ok 100 0)
    ((List.range 50).map (fun (i : Nat) => Env.ok (10 + (i : Int)) (i + 1))) (fun _ => none)
    (fun _ => rfl) (fun _ => rfl)
    (by
      intro e he c
      obtain ⟨i, _, rfl⟩ := List.mem_map.1 he
      rfl)
    (fun _ => rfl) (by simp)
    (by
      rw [List.pairwise_map]
      refine (List.pairwise_lt_range 50).imp ?_
      intro a b h
      have hab : a < b := h
      show (10 + (a : Int)) < 10 + (b : Int)
      omega)
  exact ⟨h.2.2.2.2.2.1, h.2.2.2.2.2.2.2.2.1⟩

set_option maxRecDepth 100000 in
/-- Counterexample to C20 as stated: the same scenario in which the clock read
by the last AddProduct is behind the others (3 instead of 59).  Every call
succeeds and the closed reception owns the 50 products, stored in insertion
order 1, 2, .., 50; the report, ordered by date_time, lists product 50 first. -/
theorem fullFlow_clock_counterexample :
    (fullFlow (Env.ok 1 7) (Env.ok 2 1)
        ((List.range 50).map
          (fun (i : Nat) => Env.ok (if i = 49 then 3 else 10 + (i : Int)) (i + 1)))
        (Env.ok 100 0) (fun _ => none)).added.map (fun r => r.status) =
        List.replicate 50 200 ∧
      (fullFlow (Env.ok 1 7) (Env.ok 2 1)
        ((List.range 50).map
          (fun (i : Nat) => Env.ok (if i = 49 then 3 else 10 + (i : Int)) (i + 1)))
        (Env.ok 100 0) (fun _ => none)).closed.value = some ⟨1, 2, 7, "close"⟩ ∧
      (productsOf (fullFlow (Env.ok 1 7) (Env.ok 2 1)
        ((List.range 50).map
          (fun (i : Nat) => Env.ok (if i = 49 then 3 else 10 + (i : Int)) (i + 1)))
        (Env.ok 100 0) (fun _ => none)).closed.store 1).map Product.ID =
        (List.range 50).map (fun i => i + 1) ∧
      (fullFlow (Env.ok 1 7) (Env.ok 2 1)
        ((List.range 50).map
          (fun (i : Nat) => Env.ok (if i = 49 then 3 else 10 + (i : Int)) (i + 1)))
        (Env.ok 100 0) (fun _ => none)).report.results.map
          (fun e => e.Receptions.map (fun info => (info.Products.map Product.ID).take 3)) =
        [[[50, 1, 2]]] := by
  decide

/-! ## Status and text of ledger errors -/

theorem Service_CloseLastReception_employee (s : Store) (env : Env) (p : UUID) :
    (∀ e, (Pvz.CloseLastReception s env p).err = some e →
        (Service.CloseLastReception s env "employee" p).status = 400 ∧
        (Service.CloseLastReception s env "employee" p).err =
          some (Err.New ("ошибка закрытия приёмки: " ++ e.Error))) ∧
      ((Pvz.CloseLastReception s env p).err = none →
        (Service.CloseLastReception s env "employee" p).status = 200 ∧
        (Service.CloseLastReception s env "employee" p).err = none) ∧
      (Service.CloseLastReception s env "employee" p).value =
        (Pvz.CloseLastReception s env p).value ∧
      (Service.CloseLastReception s env "employee" p).store =
        (Pvz.CloseLastReception s env p).store := by
  simp only [Service.CloseLastReception]
  cases (Pvz.CloseLastReception s env p).err <;> simp

theorem Service_CreateReception_employee (s : Store) (env : Env) (p : UUID) :
    (∀ e, (Pvz.CreateReception s env p).err = some e →
        (Service.CreateReception s env "employee" p).status = 400 ∧
        (Service.CreateReception s env "employee" p).err =
          some (Err.New ("ошибка создания приёмки: " ++ e.Error))) ∧
      ((Pvz.CreateReception s env p).err = none →
        (Service.CreateReception s env "employee" p).status = 200 ∧
        (Service.CreateReception s env "employee" p).err = none) ∧
      (Service.CreateReception s env "employee" p).value =
        (Pvz.CreateReception s env p).value ∧
      (Service.CreateReception s env "employee" p).store =
        (Pvz.CreateReception s env p).store := by
  simp only [Service.CreateReception]
  cases (Pvz.CreateReception s env p).err <;> simp

theorem Service_AddProduct_employee (s : Store) (env : Env) (p : UUID) (t : String) :
    (∀ e, (Pvz.AddProduct s env p t).err = some e →
        (Service.AddProduct s env "employee" p t).status = 400 ∧
        (Service.AddProduct s env "employee" p t).err =
          some (Err.New ("ошибка добавления товара: " ++ e.Error))) ∧
      ((Pvz.AddProduct s env p t).err = none →
        (Service.AddProduct s env "employee" p t).status = 200 ∧
        (Service.AddProduct s env "employee" p t).err = none) ∧
      (Service.AddProduct s env "employee" p t).value = (Pvz.AddProduct s env p t).value ∧
      (Service.AddProduct s env "employee" p t).store = (Pvz.AddProduct s env p t).store := by
  simp only [Service.AddProduct]
  cases (Pvz.AddProduct s env p t).err <;> simp

theorem Service_DeleteLastProduct_employee (s : Store) (env : Env) (p : UUID) :
    (∀ e, (Pvz.DeleteLastProduct s env p).err = some e →
        (Service.DeleteLastProduct s env "employee" p).status = 400 ∧
        (Service.DeleteLastProduct s env "employee" p).err =
          some (Err.New ("ошибка удаления товара: " ++ e.Error))) ∧
      ((Pvz.DeleteLastProduct s env p).err = none →
        (Service.DeleteLastProduct s env "employee" p).status = 200 ∧
        (Service.DeleteLastProduct s env "employee" p).err = none) ∧
      (Service.DeleteLastProduct s env "employee" p).store =
        (Pvz.DeleteLastProduct s env p).store := by
  simp only [Service.DeleteLastProduct]
  cases (Pvz.DeleteLastProduct s env p).err <;> simp

/-- C23: for role "employee" and every error e returned by the database
operation, Service.CloseLastReception returns status 400 with the error text
"ошибка закрытия приёмки: " followed by the text of e, CreateReception 400
with "ошибка создания приёмки: ", AddProduct 400 with
"ошибка добавления товара: " and DeleteLastProduct 400 with
"ошибка удаления товара: "; when the database operation returns no error each
returns status 200 and a nil error; in both cases the result and the store
are those of the database operation. -/
theorem ledger_error_text (s : Store) (env : Env) (p : UUID) (t : String) :
    ((∀ e, (Pvz.CloseLastReception s env p).err = some e →
        (Service.CloseLastReception s env "employee" p).status = 400 ∧
        (Service.CloseLastReception s env "employee" p).err =
          some (Err.New ("ошибка закрытия приёмки: " ++ e.Error))) ∧
      ((Pvz.CloseLastReception s env p).err = none →
        (Service.CloseLastReception s env "employee" p).status = 200 ∧
        (Service.CloseLastReception s env "employee" p).err = none) ∧
      (Service.CloseLastReception s env "employee" p).value =
        (Pvz.CloseLastReception s env p).value ∧
      (Service.CloseLastReception s env "employee" p).store =
        (Pvz.CloseLastReception s env p).store) ∧
    ((∀ e, (Pvz.CreateReception s env p).err = some e →
        (Service.CreateReception s env "employee" p).status = 400 ∧
        (Service.CreateReception s env "employee" p).err =
          some (Err.New ("ошибка создания приёмки: " ++ e.Error))) ∧
      ((Pvz.CreateReception s env p).err = none →
        (Service.CreateReception s env "employee" p).status = 200 ∧
        (Service.CreateReception s env "employee" p).err = none) ∧
      (Service.CreateReception s env "employee" p).value =
        (Pvz.CreateReception s env p).value ∧
      (Service.CreateReception s env "employee" p).store =
        (Pvz.CreateReception s env p).store) ∧
    ((∀ e, (Pvz.AddProduct s env p t).err = some e →
        (Service.AddProduct s env "employee" p t).status = 400 ∧
        (Service.AddProduct s env "employee" p t).err =
          some (Err.New ("ошибка добавления товара: " ++ e.Error))) ∧
      ((Pvz.AddProduct s env p t).err = none →
        (Service.AddProduct s env "employee" p t).status = 200 ∧
        (Service.AddProduct s env "employee" p t).err = none) ∧
      (Service.AddProduct s env "employee" p t).value = (Pvz.AddProduct s env p t).value ∧
      (Service.AddProduct s env "employee" p t).store = (Pvz.AddProduct s env p t).store) ∧
    ((∀ e, (Pvz.DeleteLastProduct s env p).err = some e →
        (Service.DeleteLastProduct s env "employee" p).status = 400 ∧
        (Service.DeleteLastProduct s env "employee" p).err =
          some (Err.New ("ошибка удаления товара: " ++ e.Error))) ∧
      ((Pvz.DeleteLastProduct s env p).err = none →
        (Service.DeleteLastProduct s env "employee" p).status = 200 ∧
        (Service.DeleteLastProduct s env "employee" p).err = none) ∧
      (Service.DeleteLastProduct s env "employee" p).store =
        (Pvz.DeleteLastProduct s env p).store) :=
  ⟨Service_CloseLastReception_employee s env p, Service_CreateReception_employee s env p,
    Service_AddProduct_employee s env p t, Service_DeleteLastProduct_employee s env p⟩

/-- C21, as amended: Service.CloseLastReception, CreateReception, AddProduct
and DeleteLastProduct only ever return status 200, 400 or 403, for every
role, store and environment; for role "employee" every error of the database
operation, a failure of Begin, of a statement or of Commit included, is
returned with status 400, the status also used for invariant violations. -/
theorem ledger_failure_status (s : Store) (env : Env) (role : String) (p : UUID)
    (t : String) :
    ((Service.CloseLastReception s env role p).status = 200 ∨
        (Service.CloseLastReception s env role p).status = 400 ∨
        (Service.CloseLastReception s env role p).status = 403) ∧
      ((Service.CreateReception s env role p).status = 200 ∨
        (Service.CreateReception s env role p).status = 400 ∨
        (Service.CreateReception s env role p).status = 403) ∧
      ((Service.AddProduct s env role p t).status = 200 ∨
        (Service.AddProduct s env role p t).status = 400 ∨
        (Service.AddProduct s env role p t).status = 403) ∧
      ((Service.DeleteLastProduct s env role p).status = 200 ∨
        (Service.DeleteLastProduct s env role p).status = 400 ∨
        (Service.DeleteLastProduct s env role p).status = 403) ∧
      (∀ e, (Pvz.CloseLastReception s env p).err = some e →
        (Service.CloseLastReception s env "employee" p).status = 400) ∧
      (∀ e, (Pvz.CreateReception s env p).err = some e →
        (Service.CreateReception s env "employee" p).status = 400) ∧
      (∀ e, (Pvz.AddProduct s env p t).err = some e →
        (Service.AddProduct s env "employee" p t).status = 400) ∧
      (∀ e, (Pvz.DeleteLastProduct s env p).err = some e →
        (Service.DeleteLastProduct s env "employee" p).status = 400) := by
  refine ⟨?_, ?_, ?_, ?_,
    fun e he => ((Service_CloseLastReception_employee s env p).1 e he).1,
    fun e he => ((Service_CreateReception_employee s env p).1 e he).1,
    fun e he => ((Service_AddProduct_employee s env p t).1 e he).1,
    fun e he => ((Service_DeleteLastProduct_employee s env p).1 e he).1⟩
  · simp only [Service.CloseLastReception]
    split
    · simp
    · cases (Pvz.CloseLastReception s env p).err <;> simp
  · simp only [Service.CreateReception]
    split
    · simp
    · cases (Pvz.CreateReception s env p).err <;> simp
  · simp only [Service.AddProduct]
    split
    · simp
    · cases (Pvz.AddProduct s env p t).err <;> simp
  · simp only [Service.DeleteLastProduct]
    split
    · simp
    · cases (Pvz.DeleteLastProduct s env p).err <;> simp

/-- Counterexample to C21 as stated: Begin fails with a connection error while
an employee opens a reception for pickup point 7 on the empty store; the
service returns status 400, not a 5xx status, which is also the status it
returns for the conflict with an already open reception. -/
theorem ledger_failure_status_counterexample :
    (Service.CreateReception ⟨[], [], []⟩
        ⟨10, 1, fun c => if c = Call.Begin then some (Err.New "connection refused") else none⟩
        "employee" 7).status = 400 ∧
      (Service.CreateReception ⟨[], [], []⟩
        ⟨10, 1, fun c => if c = Call.Begin then some (Err.New "connection refused") else none⟩
        "employee" 7).err =
        some (Err.New "ошибка создания приёмки: connection refused") ∧
      ¬ (500 ≤ (Service.CreateReception ⟨[], [], []⟩
        ⟨10, 1, fun c => if c = Call.Begin then some (Err.New "connection refused") else none⟩
        "employee" 7).status) ∧
      (Service.CreateReception ⟨[], [⟨1, 5, 7, "in_progress"⟩], []⟩ (Env.ok 10 2)
        "employee" 7).status = 400 := by
  decide

/-! ## The error of AddProduct -/

/-- C22, as amended: whenever Begin succeeds, AddProduct returns the same
error value, errors.New("Нет активной приёмки для данного ПВЗ"), returns no
product and leaves the store unchanged both when the pickup point has no
in_progress reception and when the reception lookup fails with whatever error
of the store; Service.AddProduct returns status 400 and the same error text
in both cases. -/
theorem AddProduct_lookup_error (s : Store) (env : Env) (p : UUID) (t : String)
    (hb : env.fail .Begin = none)
    (h : lastOpenReception s p = none ∨ env.fail (.QueryRow .selectLastReception) ≠ none) :
    (AddProduct s env p t).err = some (Err.New "Нет активной приёмки для данного ПВЗ") ∧
      (AddProduct s env p t).value = none ∧
      (AddProduct s env p t).store = s ∧
      (Service.AddProduct s env "employee" p t).status = 400 ∧
      (Service.AddProduct s env "employee" p t).err =
        some (Err.New
          ("ошибка добавления товара: " ++ "Нет активной приёмки для данного ПВЗ")) := by
  have hdb : AddProduct s env p t =
      ⟨none, some (Err.New "Нет активной приёмки для данного ПВЗ"), s,
        [.Begin, .QueryRow .selectLastReception, .Rollback, .Rollback]⟩ := by
    unfold AddProduct scanRow
    rcases h with h | h
    · rw [h]
      cases env.fail (.QueryRow .selectLastReception) <;> simp [hb]
    · cases hf : env.fail (.QueryRow .selectLastReception) with
      | none => exact absurd hf h
      | some e => simp [hb]
  simp [Service.AddProduct, hdb, Err.Error]

/-- Witness of C22 as amended: the reception lookup fails with a connection
error although pickup point 7 has an open reception. -/
theorem AddProduct_lookup_error_witness :
    (AddProduct ⟨[], [⟨1, 5, 7, "in_progress"⟩], []⟩
        ⟨10, 1, fun c =>
          if c = Call.QueryRow Query.selectLastReception then
            some (Err.New "connection reset") else none⟩ 7 "обувь").err =
      some (Err.New "Нет активной приёмки для данного ПВЗ") :=
  (AddProduct_lookup_error ⟨[], [⟨1, 5, 7, "in_progress"⟩], []⟩
    ⟨10, 1, fun c =>
      if c = Call.QueryRow Query.selectLastReception then
        some (Err.New "connection reset") else none⟩ 7 "обувь" (by decide)
    (Or.inr (by decide))).1

/-- Counterexample to C22 as stated: in the first run pickup point 7 has no
open reception and the store answers every call; in the second run it has one
and the reception lookup fails with a connection error.  AddProduct returns
the same error value in both runs and Service.AddProduct the same status and
error. -/
theorem AddProduct_same_error_counterexample :
    (AddProduct ⟨[], [], []⟩ (Env.ok 10 1) 7 "обувь").err =
        (AddProduct ⟨[], [⟨1, 5, 7, "in_progress"⟩], []⟩
          ⟨10, 1, fun c =>
            if c = Call.QueryRow Query.selectLastReception then
              some (Err.New "connection reset") else none⟩ 7 "обувь").err ∧
      (Service.AddProduct ⟨[], [], []⟩ (Env.ok 10 1) "employee" 7 "обувь").status =
        (Service.AddProduct ⟨[], [⟨1, 5, 7, "in_progress"⟩], []⟩
          ⟨10, 1, fun c =>
            if c = Call.QueryRow Query.selectLastReception then
              some (Err.New "connection reset") else none⟩ "employee" 7 "обувь").status ∧
      (Service.AddProduct ⟨[], [], []⟩ (Env.ok 10 1) "employee" 7 "обувь").err =
        (Service.AddProduct ⟨[], [⟨1, 5, 7, "in_progress"⟩], []⟩
          ⟨10, 1, fun c =>
            if c = Call.QueryRow Query.selectLastReception then
              some (Err.New "connection reset") else none⟩ "employee" 7 "обувь").err := by
  decide

/-! ## What a successful DeleteLastProduct removes -/

theorem DeleteLastProduct_of_success (s : Store) (env : Env) (p : UUID)
    (h : (DeleteLastProduct s env p).err = none) :
    ∃ r q, lastOpenReception s p = some r ∧ lastProduct s r.ID = some q ∧
      (DeleteLastProduct s env p).store =
        { s with products := deleteById s.products q.ID } := by
  revert h
  unfold DeleteLastProduct scanRow
  cases env.fail .Begin <;> simp only []
  · cases env.fail (.QueryRow .selectLastReception) <;> simp only []
    · cases hl : lastOpenReception s p <;> simp only []
      · simp
      · cases env.fail (.QueryRow .selectLastProduct) <;> simp only []
        · cases hq : lastProduct s _ <;> simp only []
          · simp
          · cases env.fail (.Exec .deleteProduct) <;> simp only []
            · cases env.fail .Commit <;> simp only []
              · intro _
                exact ⟨_, _, rfl, hq, rfl⟩
              · simp
            · simp
        · simp
    · simp
  · simp

theorem deleteById_eq_erase (rows : List Product) (q : Product) (hq : q ∈ rows)
    (hpk : (rows.map Product.ID).Nodup) :
    deleteById rows q.ID = rows.erase q := by
  rw [List.Nodup.erase_eq_filter (List.Nodup.of_map _ hpk)]
  unfold deleteById
  apply List.filter_congr
  intro x hx
  by_cases hxq : x = q
  · subst hxq; simp
  · have hne : x.ID ≠ q.ID := fun he => hxq (List.inj_on_of_nodup_map hpk hx hq he)
    have h1 : (x.ID == q.ID) = false := by simpa using hne
    have h2 : (x != q) = true := by simpa using hxq
    rw [h1, h2]
    rfl

/-- C27: in a store with unique product ids, when DeleteLastProduct for pickup
point p returns no error it removes exactly one product row q: q belongs to an
in_progress reception r of p (the most recent one), no product of r has a
later date_time than q, the products table afterwards is the old one without
q, one row shorter, and every reception and pickup point is unchanged. -/
theorem DeleteLastProduct_removes_one (s : Store) (env : Env) (p : UUID)
    (hpk : (s.products.map Product.ID).Nodup)
    (h : (DeleteLastProduct s env p).err = none) :
    ∃ r q, r ∈ s.receptions ∧ r.PVZId = p ∧ r.Status = "in_progress" ∧
      (∀ r2 ∈ s.receptions, r2.PVZId = p → r2.Status = "in_progress" →
        r2.DateTime ≤ r.DateTime) ∧
      q ∈ s.products ∧ q.ReceptionId = r.ID ∧
      (∀ x ∈ s.products, x.ReceptionId = r.ID → x.DateTime ≤ q.DateTime) ∧
      (DeleteLastProduct s env p).store.products = s.products.erase q ∧
      (DeleteLastProduct s env p).store.products.length + 1 = s.products.length ∧
      (∀ x ∈ s.products, x ≠ q → x ∈ (DeleteLastProduct s env p).store.products) ∧
      (DeleteLastProduct s env p).store.receptions = s.receptions ∧
      (DeleteLastProduct s env p).store.pvz = s.pvz := by
  obtain ⟨r, q, hl, hq, hstore⟩ := DeleteLastProduct_of_success s env p h
  obtain ⟨hm, hp, hs, hmax⟩ := lastOpenReception_spec s p r hl
  obtain ⟨hqm, hqr⟩ := lastProduct_mem s r.ID q hq
  have herase := deleteById_eq_erase s.products q hqm hpk
  refine ⟨r, q, hm, hp, hs, hmax, hqm, hqr, ?_, ?_, ?_, ?_, ?_, ?_⟩
  · intro x hx hxr
    apply latestBy_ge _ _ _ hq
    unfold productsOf
    exact List.mem_filter.2 ⟨hx, by simpa using hxr⟩
  · rw [hstore]; exact herase
  · rw [hstore]
    simp only [herase, List.length_erase_of_mem hqm]
    have : 0 < s.products.length := List.length_pos_of_mem hqm
    omega
  · intro x hx hne
    rw [hstore]
    simp only [herase]
    exact (List.Nodup.mem_erase_iff (List.Nodup.of_map _ hpk)).2 ⟨hne, hx⟩
  · rw [hstore]
  · rw [hstore]

/-- Witness of C27: the open reception 1 of pickup point 7 holds products 5
(date 11) and 6 (date 12); product 6 is removed, product 5 and product 9 of
another reception stay. -/
theorem DeleteLastProduct_removes_one_witness :
    (DeleteLastProduct
        ⟨[], [⟨1, 10, 7, "in_progress"⟩, ⟨2, 9, 8, "in_progress"⟩],
          [⟨5, 11, "обувь", 1⟩, ⟨9, 13, "одежда", 2⟩, ⟨6, 12, "обувь", 1⟩]⟩
        (Env.ok 14 0) 7).store.products.length + 1 = 3 := by
  obtain ⟨_, _, _, _, _, _, _, _, _, _, hlen, _⟩ := DeleteLastProduct_removes_one
    ⟨[], [⟨1, 10, 7, "in_progress"⟩, ⟨2, 9, 8, "in_progress"⟩],
      [⟨5, 11, "обувь", 1⟩, ⟨9, 13, "одежда", 2⟩, ⟨6, 12, "обувь", 1⟩]⟩
    (Env.ok 14 0) 7 (by decide) (by decide)
  exact hlen

/-! ## Frame of the ledger operations -/

theorem closeById_filter_other (rows : List Reception) (id p2 : UUID)
    (h : ∀ x ∈ rows, x.ID = id → x.PVZId ≠ p2) :
    (closeById rows id).filter (fun r => r.PVZId == p2) =
      rows.filter (fun r => r.PVZId == p2) := by
  induction rows with
  | nil => rfl
  | cons a as ih =>
    have ih2 := ih (fun x hx => h x (List.mem_cons_of_mem _ hx))
    have hcons : closeById (a :: as) id =
        (if a.ID == id then { a with Status := "close" } else a) :: closeById as id := rfl
    rw [hcons]
    by_cases hid : a.ID = id
    · have hne : (a.PVZId == p2) = false := by
        simpa using h a (List.mem_cons_self _ _) hid
      simp only [beq_iff_eq, hid, if_true, List.filter_cons, hne]
      simpa using ih2
    · simp only [beq_iff_eq, hid, if_false, List.filter_cons]
      rw [ih2]

theorem other_reception_id (s : Store) (p : UUID) (r0 r : Reception)
    (hrk : (s.receptions.map Reception.ID).Nodup)
    (hl : lastOpenReception s p = some r0) (hr : r ∈ s.receptions) (hp : r.PVZId ≠ p) :
    r0.ID ≠ r.ID := by
  obtain ⟨hm, hp0, _, _⟩ := lastOpenReception_spec s p r0 hl
  intro he
  have := List.inj_on_of_nodup_map hrk hm hr he
  rw [this] at hp0
  exact hp hp0

/-- C28: in a store with unique reception ids and unique product ids, every
ledger operation invoked for pickup point p leaves the receptions of every
other pickup point unchanged and the products of each reception of another
pickup point unchanged; AddProduct and DeleteLastProduct change no reception
row, CreateReception and CloseLastReception change no product row, and no
operation changes a pickup point. -/
theorem ledger_frame (s : Store) (env : Env) (p : UUID) (t : String)
    (hrk : (s.receptions.map Reception.ID).Nodup)
    (hpk : (s.products.map Product.ID).Nodup) :
    ((AddProduct s env p t).store.receptions = s.receptions ∧
        (DeleteLastProduct s env p).store.receptions = s.receptions ∧
        (CreateReception s env p).store.products = s.products ∧
        (CloseLastReception s env p).store.products = s.products) ∧
      ((AddProduct s env p t).store.pvz = s.pvz ∧
        (DeleteLastProduct s env p).store.pvz = s.pvz ∧
        (CreateReception s env p).store.pvz = s.pvz ∧
        (CloseLastReception s env p).store.pvz = s.pvz) ∧
      (∀ p2, p2 ≠ p →
        (CreateReception s env p).store.receptions.filter (fun r => r.PVZId == p2) =
          s.receptions.filter (fun r => r.PVZId == p2) ∧
        (CloseLastReception s env p).store.receptions.filter (fun r => r.PVZId == p2) =
          s.receptions.filter (fun r => r.PVZId == p2)) ∧
      (∀ r ∈ s.receptions, r.PVZId ≠ p →
        productsOf (AddProduct s env p t).store r.ID = productsOf s r.ID ∧
        productsOf (DeleteLastProduct s env p).store r.ID = productsOf s r.ID ∧
        productsOf (CreateReception s env p).store r.ID = productsOf s r.ID ∧
        productsOf (CloseLastReception s env p).store r.ID = productsOf s r.ID) := by
  have hA := AddProduct_store s env p t
  have hD := DeleteLastProduct_store s env p
  have hC := CreateReception_store s env p
  have hL := CloseLastReception_store s env p
  refine ⟨⟨?_, ?_, ?_, ?_⟩, ⟨?_, ?_, ?_, ?_⟩, ?_, ?_⟩
  · rcases hA with he | ⟨r0, _, _, he⟩ <;> rw [he]
  · rcases hD with he | ⟨r0, q, _, _, _, he⟩ <;> rw [he]
  · rcases hC with he | ⟨_, _, he⟩ <;> rw [he]
  · rcases hL with he | ⟨r0, _, _, he⟩ <;> rw [he]
  · rcases hA with he | ⟨r0, _, _, he⟩ <;> rw [he]
  · rcases hD with he | ⟨r0, q, _, _, _, he⟩ <;> rw [he]
  · rcases hC with he | ⟨_, _, he⟩ <;> rw [he]
  · rcases hL with he | ⟨r0, _, _, he⟩ <;> rw [he]
  · intro p2 hp2
    refine ⟨?_, ?_⟩
    · rcases hC with he | ⟨_, _, he⟩
      · rw [he]
      · rw [he]
        have : (p == p2) = false := by simpa using fun h => hp2 h.symm
        simp [List.filter_append, this]
    · rcases hL with he | ⟨r0, hl, _, he⟩
      · rw [he]
      · rw [he]
        apply closeById_filter_other
        intro x hx hid hxp
        obtain ⟨hm, hp0, _, _⟩ := lastOpenReception_spec s p r0 hl
        have := List.inj_on_of_nodup_map hrk hx hm hid
        rw [this, hp0] at hxp
        exact hp2 hxp.symm
  · intro r hr hp
    refine ⟨?_, ?_, ?_, ?_⟩
    · rcases hA with he | ⟨r0, hl, _, he⟩
      · rw [he]
      · rw [he]
        have hne := other_reception_id s p r0 r hrk hl hr hp
        have : (r0.ID == r.ID) = false := by simpa using hne
        simp [productsOf, List.filter_append, this]
    · rcases hD with he | ⟨r0, q, hl, hq, _, he⟩
      · rw [he]
      · rw [he]
        obtain ⟨hqm, hqr⟩ := lastProduct_mem s r0.ID q hq
        have hne := other_reception_id s p r0 r hrk hl hr hp
        exact productsOf_deleteById s q r.ID hqm (by rw [hqr]; exact hne) hpk
    · rcases hC with he | ⟨_, _, he⟩
      · rw [he]
      · rw [he]; rfl
    · rcases hL with he | ⟨r0, _, _, he⟩
      · rw [he]
      · rw [he]; rfl

/-- Witness of C28: closing for pickup point 7 leaves the receptions of pickup
point 8 as they were. -/
theorem ledger_frame_witness :
    (CloseLastReception
        ⟨[], [⟨1, 10, 7, "in_progress"⟩, ⟨2, 9, 8, "in_progress"⟩], [⟨5, 11, "обувь", 2⟩]⟩
        (Env.ok 14 0) 7).store.receptions.filter (fun r => r.PVZId == 8) =
      [⟨2, 9, 8, "in_progress"⟩] :=
  ((ledger_frame
    ⟨[], [⟨1, 10, 7, "in_progress"⟩, ⟨2, 9, 8, "in_progress"⟩], [⟨5, 11, "обувь", 2⟩]⟩
    (Env.ok 14 0) 7 "обувь" (by decide) (by decide)).2.2.1 8 (by decide)).2

/-! ## Overflow of the offset -/

/-- C29 at failing inputs: page "9223372036854775807" and limit "30" are both
accepted by ListPVZ (page 2^63 − 1, limit 30); the product (page − 1) · limit
is 276701161105643274180, beyond the range of int, and the offset passed to
GetPVZs is the wrapped value −60, a negative OFFSET, for which GetPVZs returns
no pickup point.  With page "4611686018427387905" and limit "4" the product
2^64 wraps to offset 0 and the first page is returned. -/
theorem ListPVZ_offset_overflow :
    pageOf "9223372036854775807" = 9223372036854775807 ∧ limitOf "30" = 30 ∧
      (pageOf "9223372036854775807" - 1) * limitOf "30" = 276701161105643274180 ∧
      ¬ ((pageOf "9223372036854775807" - 1) * limitOf "30" < 2 ^ 63) ∧
      Service.ListPVZ (pgxReads ⟨[⟨7, 1, "Москва"⟩], [], []⟩ (fun _ => none)) (fun _ => none)
          "" "" "9223372036854775807" "30" =
        ⟨[], 200, none, [.GetPVZs 30 (-60)]⟩ ∧
      Service.ListPVZ (pgxReads ⟨[⟨7, 1, "Москва"⟩], [], []⟩ (fun _ => none)) (fun _ => none)
          "" "" "4611686018427387905" "4" =
        ⟨[⟨⟨7, 1, "Москва"⟩, []⟩], 200, none,
          [.GetPVZs 4 0, .GetReceptionsByPVZ 7 none none]⟩ := by
  decide

/-! ## Dates that do not parse -/

theorem productsLoop_receptionCalls (db : Database) (sd ed : Option Time)
    (recs : List Reception) (infos : List ReceptionInfo) (calls : List DbCall)
    (h : ∀ c ∈ calls, ∀ id x y, c = DbCall.GetReceptionsByPVZ id x y → x = sd ∧ y = ed) :
    ∀ c ∈ (productsLoop db recs infos calls).2, ∀ id x y,
      c = DbCall.GetReceptionsByPVZ id x y → x = sd ∧ y = ed := by
  induction recs generalizing infos calls with
  | nil => simpa [productsLoop] using h
  | cons r recs ih =>
    have h2 : ∀ c ∈ calls ++ [DbCall.GetProductsByReception r.ID], ∀ id x y,
        c = DbCall.GetReceptionsByPVZ id x y → x = sd ∧ y = ed := by
      intro c hc id x y he
      rcases List.mem_append.1 hc with hc | hc
      · exact h c hc id x y he
      · simp only [List.mem_singleton] at hc
        rw [hc] at he
        exact absurd he (by simp)
    simp only [productsLoop]
    cases db.GetProductsByReception r.ID with
    | error e => exact h2
    | ok products => exact ih _ _ h2

theorem pvzLoop_receptionCalls (db : Database) (sd ed : Option Time) (pvzs : List PVZ)
    (results : List PVZResponse) (calls : List DbCall)
    (h : ∀ c ∈ calls, ∀ id x y, c = DbCall.GetReceptionsByPVZ id x y → x = sd ∧ y = ed) :
    ∀ c ∈ (pvzLoop db sd ed pvzs results calls).invoked, ∀ id x y,
      c = DbCall.GetReceptionsByPVZ id x y → x = sd ∧ y = ed := by
  induction pvzs generalizing results calls with
  | nil => simpa [pvzLoop] using h
  | cons pvz pvzs ih =>
    have h2 : ∀ c ∈ calls ++ [DbCall.GetReceptionsByPVZ pvz.ID sd ed], ∀ id x y,
        c = DbCall.GetReceptionsByPVZ id x y → x = sd ∧ y = ed := by
      intro c hc id x y he
      rcases List.mem_append.1 hc with hc | hc
      · exact h c hc id x y he
      · simp only [List.mem_singleton] at hc
        rw [hc] at he
        simp only [DbCall.GetReceptionsByPVZ.injEq] at he
        exact ⟨he.2.1.symm, he.2.2.symm⟩
    simp only [pvzLoop]
    cases db.GetReceptionsByPVZ pvz.ID sd ed with
    | error e => exact h2
    | ok recs =>
      simp only []
      have h3 := productsLoop_receptionCalls db sd ed recs [] _ h2
      cases hp : productsLoop db recs [] (calls ++ [.GetReceptionsByPVZ pvz.ID sd ed]) with
      | mk infos calls2 =>
        rw [hp] at h3
        cases infos with
        | none => exact h3
        | some recInfos => exact ih _ _ h3

/-- C30: Service.ListPVZ treats a startDate or endDate string that time.Parse
rejects exactly like an absent (empty) one: the whole result, the calls made
on the database included, is the one obtained with the empty string, so no
error is reported for it; every GetReceptionsByPVZ call receives nil for a
bound whose string is empty or rejected and the parsed instant for a bound
whose string is not empty and parses. -/
theorem ListPVZ_invalid_date (db : Database) (parse : String → Option Time)
    (startDateStr endDateStr pageStr limitStr : String) :
    (parse startDateStr = none →
        Service.ListPVZ db parse startDateStr endDateStr pageStr limitStr =
          Service.ListPVZ db parse "" endDateStr pageStr limitStr) ∧
      (parse endDateStr = none →
        Service.ListPVZ db parse startDateStr endDateStr pageStr limitStr =
          Service.ListPVZ db parse startDateStr "" pageStr limitStr) ∧
      (∀ c ∈ (Service.ListPVZ db parse startDateStr endDateStr pageStr limitStr).invoked,
        ∀ id x y, c = DbCall.GetReceptionsByPVZ id x y →
          x = dateOf parse startDateStr ∧ y = dateOf parse endDateStr) ∧
      ((startDateStr = "" ∨ parse startDateStr = none) → dateOf parse startDateStr = none) ∧
      ((endDateStr = "" ∨ parse endDateStr = none) → dateOf parse endDateStr = none) ∧
      (∀ t, startDateStr ≠ "" → parse startDateStr = some t →
        dateOf parse startDateStr = some t) ∧
      (∀ t, endDateStr ≠ "" → parse endDateStr = some t →
        dateOf parse endDateStr = some t) := by
  have hnone : ∀ str, (str = "" ∨ parse str = none) → dateOf parse str = none := by
    intro str h
    unfold dateOf
    rcases h with h | h
    · simp [h]
    · rw [h]; split <;> rfl
  have hsome : ∀ str t, str ≠ "" → parse str = some t → dateOf parse str = some t := by
    intro str t h1 h2
    simp [dateOf, h1, h2]
  have hempty : dateOf parse "" = none := hnone "" (Or.inl rfl)
  refine ⟨?_, ?_, ?_, hnone _, hnone _, hsome _, hsome _⟩
  · intro h
    simp only [Service.ListPVZ, hnone _ (Or.inr h), hempty]
  · intro h
    simp only [Service.ListPVZ, hnone _ (Or.inr h), hempty]
  · unfold Service.ListPVZ
    cases db.GetPVZs (limitOf limitStr)
        (wrapInt ((pageOf pageStr - 1) * limitOf limitStr)) with
    | error e =>
      intro c hc id x y he
      simp only [List.mem_singleton] at hc
      rw [hc] at he
      exact absurd he (by simp)
    | ok pvzs =>
      apply pvzLoop_receptionCalls
      intro c hc id x y he
      simp only [List.mem_singleton] at hc
      rw [hc] at he
      exact absurd he (by simp)

/-! ## Text and arguments of the reception query -/

theorem GetReceptionsByPVZ_query_args (pvzId : UUID) (startDate endDate : Option Time) :
    (GetReceptionsByPVZ_query pvzId startDate endDate).2 =
      Arg.uuid pvzId ::
        ((startDate.map Arg.time).toList ++ (endDate.map Arg.time).toList) := by
  cases startDate <;> cases endDate <;> rfl

theorem GetReceptionsByPVZ_query_text (pvzId : UUID) (startDate endDate : Option Time) :
    (GetReceptionsByPVZ_query pvzId startDate endDate).1 =
      match startDate, endDate with
      | none, none =>
        "SELECT id, date_time, pvz_id, status FROM receptions WHERE pvz_id=$1 ORDER BY date_time DESC"
      | some _, none =>
        "SELECT id, date_time, pvz_id, status FROM receptions WHERE pvz_id=$1 AND date_time >= $2 ORDER BY date_time DESC"
      | none, some _ =>
        "SELECT id, date_time, pvz_id, status FROM receptions WHERE pvz_id=$1 AND date_time <= $2 ORDER BY date_time DESC"
      | some _, some _ =>
        "SELECT id, date_time, pvz_id, status FROM receptions WHERE pvz_id=$1 AND date_time >= $2 AND date_time <= $3 ORDER BY date_time DESC" := by
  cases startDate <;> cases endDate <;>
    simp only [GetReceptionsByPVZ_query, List.length_cons, List.length_nil, List.length_append,
      List.nil_append, List.cons_append] <;> decide

/-- C26: for each of the four combinations of a nil or non-nil startDate and
endDate, the text and the arguments that GetReceptionsByPVZ passes to
pool.Query: `$1` is the pickup-point id; with startDate alone the condition is
`date_time >= $2`, with endDate alone it is `date_time <= $2`, with both they
are `date_time >= $2 AND date_time <= $3`, each bound to the argument at that
position; conditions are joined to the WHERE clause with AND; the text ends
with `ORDER BY date_time DESC`; and in every case the placeholders of the text
are 1, 2, .., n in this order, n being the number of arguments. -/
theorem GetReceptionsByPVZ_query_spec (pvzId : UUID) (a b : Time) :
    GetReceptionsByPVZ_query pvzId none none =
        ("SELECT id, date_time, pvz_id, status FROM receptions WHERE pvz_id=$1 ORDER BY date_time DESC",
          [.uuid pvzId]) ∧
      GetReceptionsByPVZ_query pvzId (some a) none =
        ("SELECT id, date_time, pvz_id, status FROM receptions WHERE pvz_id=$1 AND date_time >= $2 ORDER BY date_time DESC",
          [.uuid pvzId, .time a]) ∧
      GetReceptionsByPVZ_query pvzId none (some b) =
        ("SELECT id, date_time, pvz_id, status FROM receptions WHERE pvz_id=$1 AND date_time <= $2 ORDER BY date_time DESC",
          [.uuid pvzId, .time b]) ∧
      GetReceptionsByPVZ_query pvzId (some a) (some b) =
        ("SELECT id, date_time, pvz_id, status FROM receptions WHERE pvz_id=$1 AND date_time >= $2 AND date_time <= $3 ORDER BY date_time DESC",
          [.uuid pvzId, .time a, .time b]) ∧
      (∀ startDate endDate : Option Time,
        placeholders (GetReceptionsByPVZ_query pvzId startDate endDate).1.data =
            List.range' 1 (GetReceptionsByPVZ_query pvzId startDate endDate).2.length ∧
          (GetReceptionsByPVZ_query pvzId startDate endDate).2.length =
            1 + startDate.toList.length + endDate.toList.length ∧
          ∃ text, (GetReceptionsByPVZ_query pvzId startDate endDate).1 =
            text ++ " ORDER BY date_time DESC") := by
  refine ⟨?_, ?_, ?_, ?_, ?_⟩
  · exact Prod.ext (GetReceptionsByPVZ_query_text pvzId none none) rfl
  · exact Prod.ext (GetReceptionsByPVZ_query_text pvzId (some a) none) rfl
  · exact Prod.ext (GetReceptionsByPVZ_query_text pvzId none (some b)) rfl
  · exact Prod.ext (GetReceptionsByPVZ_query_text pvzId (some a) (some b)) rfl
  · intro startDate endDate
    rw [GetReceptionsByPVZ_query_text, GetReceptionsByPVZ_query_args]
    cases startDate <;> cases endDate <;>
      simp only [Option.map, Option.toList, List.length_cons, List.length_nil,
        List.length_append, List.nil_append, List.cons_append]
    · exact ⟨by decide, trivial,
        "SELECT id, date_time, pvz_id, status FROM receptions WHERE pvz_id=$1", by decide⟩
    · exact ⟨by decide, trivial,
        "SELECT id, date_time, pvz_id, status FROM receptions WHERE pvz_id=$1 AND date_time <= $2",
        by decide⟩
    · exact ⟨by decide, trivial,
        "SELECT id, date_time, pvz_id, status FROM receptions WHERE pvz_id=$1 AND date_time >= $2",
        by decide⟩
    · exact ⟨by decide, trivial,
        "SELECT id, date_time, pvz_id, status FROM receptions WHERE pvz_id=$1 AND date_time >= $2 AND date_time <= $3",
        by decide⟩

/-! ## Failures of Login -/

theorem GetUserByEmail_unknown (users : List User) (fail : Option Err) (email : String)
    (h : ∀ u ∈ users, u.Email ≠ email) :
    ∃ e, GetUserByEmail users fail email = .error e := by
  unfold GetUserByEmail
  cases fail with
  | some e => exact ⟨e, rfl⟩
  | none =>
    have hf : users.find? (fun u => u.Email == email) = none := by
      rw [List.find?_eq_none]
      intro u hu
      simpa using h u hu
    rw [hf]
    exact ⟨.ErrNoRows, rfl⟩

theorem Login_bad_credentials (users : List User) (env : LoginEnv) (email password : String)
    (h : (∀ u ∈ users, u.Email ≠ email) ∨
      ∃ u e, GetUserByEmail users env.fail email = .ok u ∧
        env.CompareHashAndPassword u.Password password = some e) :
    Service.Login users env email password =
      ⟨"", 401, some (Err.New "неверные учетные данные")⟩ := by
  rcases h with h | ⟨u, e, hu, hc⟩
  · obtain ⟨e, he⟩ := GetUserByEmail_unknown users env.fail email h
    simp only [Service.Login, he]
  · simp only [Service.Login, hu, hc]

/-- C25: a run of Service.Login in which no row of the users table has the
e-mail, and a run in which the row is found and
bcrypt.CompareHashAndPassword rejects the password, both return the empty
token, status 401 and the error "неверные учетные данные"; so any two failing
runs, whichever of the two causes each one has, return equal results. -/
theorem Login_failures_equal (users1 users2 : List User) (env1 env2 : LoginEnv)
    (email1 password1 email2 password2 : String)
    (h1 : (∀ u ∈ users1, u.Email ≠ email1) ∨
      ∃ u e, GetUserByEmail users1 env1.fail email1 = .ok u ∧
        env1.CompareHashAndPassword u.Password password1 = some e)
    (h2 : (∀ u ∈ users2, u.Email ≠ email2) ∨
      ∃ u e, GetUserByEmail users2 env2.fail email2 = .ok u ∧
        env2.CompareHashAndPassword u.Password password2 = some e) :
    Service.Login users1 env1 email1 password1 =
        ⟨"", 401, some (Err.New "неверные учетные данные")⟩ ∧
      Service.Login users2 env2 email2 password2 =
        ⟨"", 401, some (Err.New "неверные учетные данные")⟩ ∧
      Service.Login users1 env1 email1 password1 =
        Service.Login users2 env2 email2 password2 := by
  have e1 := Login_bad_credentials users1 env1 email1 password1 h1
  have e2 := Login_bad_credentials users2 env2 email2 password2 h2
  exact ⟨e1, e2, e1.trans e2.symm⟩

/-- Witness of C25: with one user "a@b.c" in the store, a login with the
unknown e-mail "x@y.z" and a login of "a@b.c" with a password that the
comparison rejects. -/
theorem Login_failures_equal_witness :
    ((∀ u ∈ [(⟨1, "a@b.c", "hash", "employee"⟩ : User)], u.Email ≠ "x@y.z") ∨
        ∃ u e, GetUserByEmail [(⟨1, "a@b.c", "hash", "employee"⟩ : User)] none "x@y.z" = .ok u ∧
          (fun (_ password : String) =>
            if password == "secret" then none else some (Err.New "mismatch"))
            u.Password "secret" = some e) ∧
      ((∀ u ∈ [(⟨1, "a@b.c", "hash", "employee"⟩ : User)], u.Email ≠ "a@b.c") ∨
        ∃ u e, GetUserByEmail [(⟨1, "a@b.c", "hash", "employee"⟩ : User)] none "a@b.c" = .ok u ∧
          (fun (_ password : String) =>
            if password == "secret" then none else some (Err.New "mismatch"))
            u.Password "wrong" = some e) ∧
      Service.Login [⟨1, "a@b.c", "hash", "employee"⟩]
          ⟨none, fun _ password =>
            if password == "secret" then none else some (Err.New "mismatch"),
            fun _ _ => .ok "token"⟩ "x@y.z" "secret" =
        ⟨"", 401, some (Err.New "неверные учетные данные")⟩ ∧
      Service.Login [⟨1, "a@b.c", "hash", "employee"⟩]
          ⟨none, fun _ password =>
            if password == "secret" then none else some (Err.New "mismatch"),
            fun _ _ => .ok "token"⟩ "a@b.c" "wrong" =
        ⟨"", 401, some (Err.New "неверные учетные данные")⟩ ∧
      Service.Login [⟨1, "a@b.c", "hash", "employee"⟩]
          ⟨none, fun _ password =>
            if password == "secret" then none else some (Err.New "mismatch"),
            fun _ _ => .ok "token"⟩ "x@y.z" "secret" =
        Service.Login [⟨1, "a@b.c", "hash", "employee"⟩]
          ⟨none, fun _ password =>
            if password == "secret" then none else some (Err.New "mismatch"),
            fun _ _ => .ok "token"⟩ "a@b.c" "wrong" :=
  ⟨Or.inl (by decide), Or.inr ⟨⟨1, "a@b.c", "hash", "employee"⟩, Err.New "mismatch", rfl, rfl⟩,
    Login_failures_equal [⟨1, "a@b.c", "hash", "employee"⟩] [⟨1, "a@b.c", "hash", "employee"⟩]
      ⟨none, fun _ password =>
        if password == "secret" then none else some (Err.New "mismatch"),
        fun _ _ => .ok "token"⟩
      ⟨none, fun _ password =>
        if password == "secret" then none else some (Err.New "mismatch"),
        fun _ _ => .ok "token"⟩
      "x@y.z" "secret" "a@b.c" "wrong" (Or.inl (by decide))
      (Or.inr ⟨⟨1, "a@b.c", "hash", "employee"⟩, Err.New "mismatch", rfl, rfl⟩)⟩

/-! ## The authorization middleware -/

theorem Split_ne_empty (authHeader t : String) (h : Split authHeader ' ' = ["Bearer", t]) :
    (authHeader == "") = false := by
  cases hb : authHeader == ""
  · rfl
  · have he : authHeader = "" := by simpa using hb
    have h1 : Split "" ' ' = [""] := by decide
    rw [he, h1] at h
    exact absurd h (by simp)

theorem Parse_ok_iff (lib : Jwt) (jwtSecret : List Nat) (t : String) (token : Token) :
    lib.Parse t (keyFunc jwtSecret) = .ok token ↔
      lib.decode t = some token ∧ token.hmac = true ∧ lib.verify t jwtSecret = true := by
  unfold Jwt.Parse keyFunc
  cases hd : lib.decode t with
  | none => simp
  | some tok =>
    constructor
    · intro h
      cases hh : tok.hmac
      · simp [hh] at h
      · cases hv : lib.verify t jwtSecret
        · simp [hh, hv] at h
        · simp [hh, hv] at h
          subst h
          exact ⟨rfl, hh, rfl⟩
    · rintro ⟨h1, h2, h3⟩
      cases h1
      simp [h2, h3]

theorem Parse_error_of (lib : Jwt) (jwtSecret : List Nat) (t : String)
    (h : ∀ token, lib.decode t = some token →
      token.hmac = false ∨ lib.verify t jwtSecret = false) :
    ∃ e, lib.Parse t (keyFunc jwtSecret) = .error e := by
  cases hp : lib.Parse t (keyFunc jwtSecret) with
  | error e => exact ⟨e, rfl⟩
  | ok token =>
    obtain ⟨h1, h2, h3⟩ := (Parse_ok_iff lib jwtSecret t token).1 hp
    rcases h token h1 with h4 | h4
    · rw [h2] at h4; cases h4
    · rw [h3] at h4; cases h4

theorem AuthMiddleware_bearer (lib : Jwt) (jwtSecret : List Nat) (authHeader t : String)
    (h : Split authHeader ' ' = ["Bearer", t]) :
    AuthMiddleware lib jwtSecret authHeader =
      match lib.Parse t (keyFunc jwtSecret) with
      | .error _ => .Error "Неверный токен" 401
      | .ok token =>
        match token.Claims.lookup "id" with
        | some (.str idStr) =>
          match token.Claims.lookup "role" with
          | some (.str role) => .next idStr role
          | _ => .Error "Неверная роль" 401
        | _ => .Error "Неверный id" 401 := by
  unfold AuthMiddleware
  rw [Split_ne_empty authHeader t h]
  simp only [h]
  rfl

theorem AuthMiddleware_format (lib : Jwt) (jwtSecret : List Nat) (authHeader : String)
    (h0 : authHeader ≠ "") (h : ∀ t, Split authHeader ' ' ≠ ["Bearer", t]) :
    AuthMiddleware lib jwtSecret authHeader = .Error "Неверный формат заголовка" 401 := by
  unfold AuthMiddleware
  have hb : (authHeader == "") = false := by simpa using h0
  rw [hb]
  simp only [Bool.false_eq_true, if_false]
  rw [if_pos]
  match hs : Split authHeader ' ' with
  | [] => rfl
  | [_] => rfl
  | _ :: _ :: _ :: _ => rfl
  | [a, b] =>
    have hne : a ≠ "Bearer" := by
      intro ha
      rw [ha] at hs
      exact h b hs
    simp [hne]

theorem AuthMiddleware_code (lib : Jwt) (jwtSecret : List Nat) (authHeader message : String)
    (code : Nat) (h : AuthMiddleware lib jwtSecret authHeader = .Error message code) :
    code = 401 := by
  unfold AuthMiddleware at h
  split at h
  · cases h; rfl
  · simp only at h
    split at h
    · cases h; rfl
    · split at h
      · cases h; rfl
      · split at h
        · split at h
          · cases h
          · cases h; rfl
        · cases h; rfl

theorem splitChars_ne_nil (sep : Char) (cs : List Char) : splitChars sep cs ≠ [] := by
  cases cs with
  | nil => simp [splitChars]
  | cons c cs =>
    unfold splitChars
    split
    · simp
    · split <;> simp

theorem splitChars_of_not_mem (sep : Char) (t : List Char) (h : sep ∉ t) :
    splitChars sep t = [t] := by
  induction t with
  | nil => rfl
  | cons c cs ih =>
    have hc : c ≠ sep := fun e => h (by simp [e])
    have hcs : sep ∉ cs := fun e => h (List.mem_cons_of_mem _ e)
    simp [splitChars, hc, ih hcs]

theorem splitChars_append (sep : Char) (p rest : List Char) (h : sep ∉ p) :
    splitChars sep (p ++ sep :: rest) = p :: splitChars sep rest := by
  induction p with
  | nil => simp [splitChars]
  | cons c cs ih =>
    have hc : c ≠ sep := fun e => h (by simp [e])
    have hcs : sep ∉ cs := fun e => h (List.mem_cons_of_mem _ e)
    simp [splitChars, hc, ih hcs]

theorem splitChars_not_mem (sep : Char) (cs : List Char) :
    ∀ p ∈ splitChars sep cs, sep ∉ p := by
  induction cs with
  | nil => simp [splitChars]
  | cons c cs ih =>
    unfold splitChars
    split
    · intro p hp
      rcases List.mem_cons.1 hp with hp | hp
      · rw [hp]; simp
      · exact ih p hp
    · rename_i hc
      split
      · intro p hp
        simp only [List.mem_singleton] at hp
        rw [hp]
        simpa using fun e => hc e.symm
      · rename_i part parts hs
        rw [hs] at ih
        intro p hp
        rcases List.mem_cons.1 hp with hp | hp
        · rw [hp]
          intro hm
          rcases List.mem_cons.1 hm with hm | hm
          · exact hc hm.symm
          · exact ih part (by simp) hm
        · exact ih p (List.mem_cons_of_mem _ hp)

theorem splitChars_one (sep : Char) (cs b : List Char) (h : splitChars sep cs = [b]) :
    cs = b := by
  induction cs generalizing b with
  | nil =>
    simp only [splitChars, List.cons.injEq, and_true] at h
    exact h
  | cons d ds ih =>
    unfold splitChars at h
    split at h
    · simp only [List.cons.injEq] at h
      exact absurd h.2 (splitChars_ne_nil sep ds)
    · split at h
      · rename_i hs
        exact absurd hs (splitChars_ne_nil sep ds)
      · rename_i part parts hs
        simp only [List.cons.injEq] at h
        obtain ⟨h1, h2⟩ := h
        subst h2
        subst h1
        rw [ih part hs]

theorem splitChars_two (sep : Char) (cs a b : List Char) (h : splitChars sep cs = [a, b]) :
    cs = a ++ sep :: b := by
  induction cs generalizing a with
  | nil => simp [splitChars] at h
  | cons c cs ih =>
    unfold splitChars at h
    split at h
    · rename_i hc
      simp only [List.cons.injEq] at h
      obtain ⟨ha, hb⟩ := h
      subst ha
      rw [splitChars_one sep cs b hb, hc]
      rfl
    · split at h
      · simp at h
      · rename_i part parts hs
        simp only [List.cons.injEq] at h
        obtain ⟨ha, hb⟩ := h
        subst ha
        subst hb
        rw [ih part hs]
        rfl

theorem Split_bearer_iff (authHeader t : String) :
    Split authHeader ' ' = ["Bearer", t] ↔ authHeader = "Bearer " ++ t ∧ ' ' ∉ t.data := by
  constructor
  · intro h
    have h1 : splitChars ' ' authHeader.data = ["Bearer".data, t.data] := by
      unfold Split at h
      match hs : splitChars ' ' authHeader.data with
      | [] => rw [hs] at h; simp at h
      | [_] => rw [hs] at h; simp at h
      | _ :: _ :: _ :: _ => rw [hs] at h; simp at h
      | [a, b] =>
        rw [hs] at h
        simp only [List.map_cons, List.map_nil, List.cons.injEq, and_true] at h
        obtain ⟨ha, hb⟩ := h
        rw [← ha, ← hb]
    have h2 := splitChars_two ' ' authHeader.data _ _ h1
    have h3 := splitChars_not_mem ' ' authHeader.data t.data (by rw [h1]; simp)
    refine ⟨?_, h3⟩
    apply String.ext
    rw [h2]
    rfl
  · rintro ⟨h, hn⟩
    have hd : authHeader.data = "Bearer".data ++ ' ' :: t.data := by
      rw [h]; rfl
    unfold Split
    rw [hd, splitChars_append ' ' "Bearer".data t.data (by decide),
      splitChars_of_not_mem ' ' t.data hn]
    rfl

/-- C24: the handler of AuthMiddleware calls the wrapped handler, with userID
and role in the request context, exactly when the Authorization header splits
at single spaces into the two parts "Bearer" and a token string, jwt.Parse
decodes the token string, the method of the token is HMAC, the token verifies
under the secret of the middleware, and its claims hold the string userID under
"id" and the string role under "role".  In every other case the wrapped handler
is not called and the answer has status 401: "Отсутствует заголовок
Authorization" for an empty header; "Неверный формат заголовка" for a header
that is not empty and does not split so; "Неверный токен" for a token that does
not decode, has another method or does not verify; "Неверный id" when no string
is held under "id"; "Неверная роль" when a string is held under "id" and none
under "role".  The header splits into "Bearer" and the token string t exactly
when it is "Bearer " followed by t and t holds no space. -/
theorem AuthMiddleware_spec (lib : Jwt) (jwtSecret : List Nat) (authHeader : String) :
    (∀ userID role, AuthMiddleware lib jwtSecret authHeader = .next userID role ↔
        ∃ tokenString token, Split authHeader ' ' = ["Bearer", tokenString] ∧
          lib.decode tokenString = some token ∧ token.hmac = true ∧
          lib.verify tokenString jwtSecret = true ∧
          token.Claims.lookup "id" = some (.str userID) ∧
          token.Claims.lookup "role" = some (.str role)) ∧
      (∀ message code, AuthMiddleware lib jwtSecret authHeader = .Error message code →
        code = 401) ∧
      (authHeader = "" →
        AuthMiddleware lib jwtSecret authHeader =
          .Error "Отсутствует заголовок Authorization" 401) ∧
      (authHeader ≠ "" → (∀ t, Split authHeader ' ' ≠ ["Bearer", t]) →
        AuthMiddleware lib jwtSecret authHeader = .Error "Неверный формат заголовка" 401) ∧
      (∀ t, Split authHeader ' ' = ["Bearer", t] →
        (∀ token, lib.decode t = some token →
          token.hmac = false ∨ lib.verify t jwtSecret = false) →
        AuthMiddleware lib jwtSecret authHeader = .Error "Неверный токен" 401) ∧
      (∀ t token, Split authHeader ' ' = ["Bearer", t] → lib.decode t = some token →
        token.hmac = true → lib.verify t jwtSecret = true →
        (∀ v, token.Claims.lookup "id" ≠ some (.str v)) →
        AuthMiddleware lib jwtSecret authHeader = .Error "Неверный id" 401) ∧
      (∀ t token idStr, Split authHeader ' ' = ["Bearer", t] → lib.decode t = some token →
        token.hmac = true → lib.verify t jwtSecret = true →
        token.Claims.lookup "id" = some (.str idStr) →
        (∀ v, token.Claims.lookup "role" ≠ some (.str v)) →
        AuthMiddleware lib jwtSecret authHeader = .Error "Неверная роль" 401) ∧
      (∀ t, Split authHeader ' ' = ["Bearer", t] ↔
        authHeader = "Bearer " ++ t ∧ ' ' ∉ t.data) := by
  refine ⟨?_, ?_, ?_, ?_, ?_, ?_, ?_, Split_bearer_iff authHeader⟩
  · intro userID role
    constructor
    · intro h
      by_cases h0 : authHeader = ""
      · rw [h0] at h
        exact absurd h (by simp [AuthMiddleware])
      · by_cases hs : ∃ t, Split authHeader ' ' = ["Bearer", t]
        · obtain ⟨t, ht⟩ := hs
          rw [AuthMiddleware_bearer lib jwtSecret authHeader t ht] at h
          cases hp : lib.Parse t (keyFunc jwtSecret) with
          | error e => rw [hp] at h; cases h
          | ok token =>
            rw [hp] at h
            obtain ⟨h1, h2, h3⟩ := (Parse_ok_iff lib jwtSecret t token).1 hp
            simp only at h
            split at h
            · split at h
              · cases h
                refine ⟨t, token, ht, h1, h2, h3, ?_, ?_⟩ <;> assumption
              · cases h
            · cases h
        · have hs2 : ∀ t, Split authHeader ' ' ≠ ["Bearer", t] := fun t ht => hs ⟨t, ht⟩
          rw [AuthMiddleware_format lib jwtSecret authHeader h0 hs2] at h
          cases h
    · rintro ⟨t, token, ht, h1, h2, h3, h4, h5⟩
      rw [AuthMiddleware_bearer lib jwtSecret authHeader t ht,
        (Parse_ok_iff lib jwtSecret t token).2 ⟨h1, h2, h3⟩]
      simp only [h4, h5]
  · exact AuthMiddleware_code lib jwtSecret authHeader
  · intro h
    rw [h]
    simp [AuthMiddleware]
  · exact AuthMiddleware_format lib jwtSecret authHeader
  · intro t ht h
    obtain ⟨e, he⟩ := Parse_error_of lib jwtSecret t h
    rw [AuthMiddleware_bearer lib jwtSecret authHeader t ht, he]
  · intro t token ht h1 h2 h3 h4
    rw [AuthMiddleware_bearer lib jwtSecret authHeader t ht,
      (Parse_ok_iff lib jwtSecret t token).2 ⟨h1, h2, h3⟩]
    simp only
  · intro t token idStr ht h1 h2 h3 h4 h5
    rw [AuthMiddleware_bearer lib jwtSecret authHeader t ht,
      (Parse_ok_iff lib jwtSecret t token).2 ⟨h1, h2, h3⟩]
    simp only [h4]


/-- Witness of C24: the theorem at seven requests with the sample library: the
header "Bearer good" splits into "Bearer" and "good" and reaches the wrapped
handler with "u1" and "employee"; "Bearer  good", with two spaces, splits into
three parts and is answered "Неверный формат заголовка", as is "bearer good";
the empty header, a token checked under another secret, a token whose id is
not a string and a token without role get their messages. -/
theorem AuthMiddleware_spec_witness :
    Split "Bearer good" ' ' = ["Bearer", "good"] ∧
      Split "Bearer  good" ' ' = ["Bearer", "", "good"] ∧
      Split "bearer good" ' ' = ["bearer", "good"] ∧
      AuthMiddleware sampleJwt [1, 2] "Bearer good" = .next "u1" "employee" ∧
      AuthMiddleware sampleJwt [1, 2] "Bearer  good" = .Error "Неверный формат заголовка" 401 ∧
      AuthMiddleware sampleJwt [1, 2] "bearer good" = .Error "Неверный формат заголовка" 401 ∧
      AuthMiddleware sampleJwt [1, 2] "" = .Error "Отсутствует заголовок Authorization" 401 ∧
      AuthMiddleware sampleJwt [3] "Bearer good" = .Error "Неверный токен" 401 ∧
      AuthMiddleware sampleJwt [1, 2] "Bearer noid" = .Error "Неверный id" 401 ∧
      AuthMiddleware sampleJwt [1, 2] "Bearer norole" = .Error "Неверная роль" 401 :=
  ⟨by decide, by decide, by decide,
    ((AuthMiddleware_spec sampleJwt [1, 2] "Bearer good").1 "u1" "employee").2
      ⟨"good", ⟨true, "HS512", [("id", .str "u1"), ("role", .str "employee")]⟩,
        by decide, by decide, by decide, by decide, by decide, by decide⟩,
    (AuthMiddleware_spec sampleJwt [1, 2] "Bearer  good").2.2.2.1 (by decide)
      (fun t h => by
        rw [show Split "Bearer  good" ' ' = ["Bearer", "", "good"] from by decide] at h
        simp at h),
    (AuthMiddleware_spec sampleJwt [1, 2] "bearer good").2.2.2.1 (by decide)
      (fun t h => by
        rw [show Split "bearer good" ' ' = ["bearer", "good"] from by decide] at h
        simp at h),
    (AuthMiddleware_spec sampleJwt [1, 2] "").2.2.1 rfl,
    (AuthMiddleware_spec sampleJwt [3] "Bearer good").2.2.2.2.1 "good" (by decide)
      (fun _ _ => Or.inr (by decide)),
    (AuthMiddleware_spec sampleJwt [1, 2] "Bearer noid").2.2.2.2.2.1 "noid"
      ⟨true, "HS512", [("id", .other), ("role", .str "employee")]⟩
      (by decide) (by decide) (by decide) (by decide)
      (fun v h => by
        rw [show List.lookup "id" [("id", Claim.other), ("role", Claim.str "employee")] =
          some Claim.other from by decide] at h
        cases h),
    (AuthMiddleware_spec sampleJwt [1, 2] "Bearer norole").2.2.2.2.2.2.1 "norole"
      ⟨true, "HS512", [("id", .str "u1")]⟩ "u1"
      (by decide) (by decide) (by decide) (by decide) (by decide)
      (fun v h => by
        rw [show List.lookup "role" [("id", Claim.str "u1")] = none from by decide] at h
        cases h)⟩

/-- The middleware on five requests, with the sample library and the secret
`[1, 2]`, then `[3]`. -/
theorem AuthMiddleware_examples :
    AuthMiddleware sampleJwt [1, 2] "Bearer good" = .next "u1" "employee" ∧
      AuthMiddleware sampleJwt [1, 2] "Bearer  good" = .Error "Неверный формат заголовка" 401 ∧
      AuthMiddleware sampleJwt [1, 2] "bearer good" = .Error "Неверный формат заголовка" 401 ∧
      AuthMiddleware sampleJwt [1, 2] "Bearer" = .Error "Неверный формат заголовка" 401 ∧
      AuthMiddleware sampleJwt [1, 2] "" = .Error "Отсутствует заголовок Authorization" 401 ∧
      AuthMiddleware sampleJwt [1, 2] "Bearer none" = .Error "Неверный токен" 401 ∧
      AuthMiddleware sampleJwt [1, 2] "Bearer bad" = .Error "Неверный токен" 401 ∧
      AuthMiddleware sampleJwt [3] "Bearer good" = .Error "Неверный токен" 401 := by
  decide

end Pvz
